import Mathlib

/-!
# vector_operations: dot products over lane vectors

A shallow embedding of `src/vector_operations.h` and of the data generator and
checks of `src/main.cc`.

Conventions of the embedding.

* The scalar type `float` is a type parameter `F` carrying `0`, `+` and `*`.
  Definitions assume no law about them; theorems that speak of exact arithmetic
  instantiate `F` with `ℚ`, and theorems that speak of the float results
  instantiate `F` with `binary32`, whose `+` and `*` round to the nearest
  32-bit float, ties to even.
* A pointer `const T*` handed to a function is the map `Nat → T` that reads the
  element at each offset from it. The pointer variables the loops advance
  (`aptr`, `bptr`) are offsets from the initial pointers, and the loop bounds
  (`loop_end_2`, `loop_end`, `data_end`, `aend`) are offsets from the initial
  `aptr`, so that a pointer comparison is a comparison of offsets.
* `uint16_t` and `size_t` values are natural numbers.
* A SIMD register of `n` lanes is a map `Fin n → F`; the lane-wise hardware
  operations act on each lane separately.
-/

namespace VectorOperations

variable {T F : Type}

/-! ## The scalar reference -/

namespace naive

/-- The `for` loop of `naive::DotProduct`: while `aptr < aend`, add
`*aptr * *bptr` to `dot` and advance both pointers by one. -/
def DotProduct.loop [Add F] [Mul F] (a b : Nat → F) (aend : Nat)
    (aptr bptr : Nat) (dot : F) : F :=
  if aptr < aend then
    DotProduct.loop a b aend (aptr + 1) (bptr + 1) (dot + a aptr * b bptr)
  else dot
termination_by aend - aptr

/-- The function `naive::DotProduct(aptr, bptr, size)`. -/
def DotProduct [Zero F] [Add F] [Mul F] (a b : Nat → F) (size : Nat) : F :=
  DotProduct.loop a b (0 + size) 0 0 0

end naive

/-! ## The lane types -/

/-- What the template `DotProduct<floatX>` uses of its parameter `floatX`:
the register type, `SIZE`, the default constructor, the constructor from a
pointer, `operator+`, `operator*`, `Sum` and `MultiplyOne`. `T` is
`floatX::Type`. -/
structure LaneType (T F : Type) where
  /-- The class `floatX` itself. -/
  Reg : Type
  /-- The constant `floatX::SIZE`. -/
  SIZE : Nat
  /-- `SIZE` is 4 or 8 in the source; the loops need it positive. -/
  SIZE_pos : 0 < SIZE
  /-- The default constructor `floatX()`. -/
  zero : Reg
  /-- The constructor `floatX(p + i)` from a pointer. -/
  load : (Nat → T) → Nat → Reg
  /-- The member `operator+`. -/
  add : Reg → Reg → Reg
  /-- The member `operator*`. -/
  mul : Reg → Reg → Reg
  /-- The member `Sum()`. -/
  Sum : Reg → F
  /-- The static member `MultiplyOne`. -/
  MultiplyOne : T → T → F

/-- The struct `float4`: one `__m128` register of four lanes. -/
structure float4 (F : Type) where
  /-- The member `xmm`. -/
  xmm : Fin 4 → F

namespace float4

/-- The constant `float4::SIZE`. -/
def SIZE : Nat := 4

/-- The constructor `float4()`: `_mm_setzero_ps()`. -/
def zero [Zero F] : float4 F := ⟨fun _ => 0⟩

/-- The constructor `float4(p + i)`: `_mm_loadu_ps` reads four contiguous
elements. -/
def load (p : Nat → F) (i : Nat) : float4 F := ⟨fun l => p (i + l.val)⟩

/-- The member `operator+`: `_mm_add_ps`. -/
def add [Add F] (x b : float4 F) : float4 F := ⟨fun l => x.xmm l + b.xmm l⟩

/-- The member `operator*`: `_mm_mul_ps`. -/
def mul [Mul F] (x b : float4 F) : float4 F := ⟨fun l => x.xmm l * b.xmm l⟩

/-- The member `Sum()`: `x[0] + x[1] + x[2] + x[3]`. -/
def Sum [Add F] (v : float4 F) : F := v.xmm 0 + v.xmm 1 + v.xmm 2 + v.xmm 3

/-- The static member `MultiplyOne`. -/
def MultiplyOne [Mul F] (a b : F) : F := a * b

/-- The struct `float4` as a template argument. -/
def laneType [Zero F] [Add F] [Mul F] : LaneType F F where
  Reg := float4 F
  SIZE := SIZE
  SIZE_pos := by decide
  zero := zero
  load := load
  add := add
  mul := mul
  Sum := Sum
  MultiplyOne := MultiplyOne

end float4

/-- The struct `float8`: one `__m256` register of eight lanes. -/
structure float8 (F : Type) where
  /-- The member `xmm`. -/
  xmm : Fin 8 → F

namespace float8

/-- The constant `float8::SIZE`. -/
def SIZE : Nat := 8

/-- The constructor `float8()`: `_mm256_setzero_ps()`. -/
def zero [Zero F] : float8 F := ⟨fun _ => 0⟩

/-- The constructor `float8(p + i)`: `_mm256_loadu_ps` reads eight contiguous
elements. -/
def load (p : Nat → F) (i : Nat) : float8 F := ⟨fun l => p (i + l.val)⟩

/-- The member `operator+`: `_mm256_add_ps`. -/
def add [Add F] (x b : float8 F) : float8 F := ⟨fun l => x.xmm l + b.xmm l⟩

/-- The member `operator*`: `_mm256_mul_ps`. -/
def mul [Mul F] (x b : float8 F) : float8 F := ⟨fun l => x.xmm l * b.xmm l⟩

/-- The member `Sum()`: `x[0] + x[1] + ... + x[7]`. -/
def Sum [Add F] (v : float8 F) : F :=
  v.xmm 0 + v.xmm 1 + v.xmm 2 + v.xmm 3 + v.xmm 4 + v.xmm 5 + v.xmm 6 + v.xmm 7

/-- The static member `MultiplyOne`. -/
def MultiplyOne [Mul F] (a b : F) : F := a * b

/-- The struct `float8` as a template argument. -/
def laneType [Zero F] [Add F] [Mul F] : LaneType F F where
  Reg := float8 F
  SIZE := SIZE
  SIZE_pos := by decide
  zero := zero
  load := load
  add := add
  mul := mul
  Sum := Sum
  MultiplyOne := MultiplyOne

end float8

/-- The two F16C conversions the source calls and does not define, one lane
of each: `cvtph_ps` is a lane of `_mm256_cvtph_ps` (16-bit pattern to float),
`cvtps_ph` a lane of `_mm256_cvtps_ph(·, 0)` (float to 16-bit pattern, rounding
argument 0). They are parameters of everything about `half8`. -/
structure F16C (F : Type) where
  /-- One lane of `_mm256_cvtph_ps`. -/
  cvtph_ps : Nat → F
  /-- One lane of `_mm256_cvtps_ph` with rounding argument 0. -/
  cvtps_ph : F → Nat

/-- The struct `half8`: one `__m256` register of eight float lanes, loaded
from and stored to 16-bit values. -/
structure half8 (F : Type) where
  /-- The member `xmm`. -/
  xmm : Fin 8 → F

namespace half8

/-- The constant `half8::SIZE`. -/
def SIZE : Nat := 8

/-- The constructor `half8()`: `_mm256_setzero_ps()`. -/
def zero [Zero F] : half8 F := ⟨fun _ => 0⟩

/-- The constructor `half8(const float* p)`: `_mm256_loadu_ps`, no
conversion. -/
def loadFloat (p : Nat → F) (i : Nat) : half8 F := ⟨fun l => p (i + l.val)⟩

/-- The constructor `half8(const uint16_t* p)`: eight contiguous 16-bit
values, each converted by `_mm256_cvtph_ps`. -/
def load (hw : F16C F) (p : Nat → Nat) (i : Nat) : half8 F :=
  ⟨fun l => hw.cvtph_ps (p (i + l.val))⟩

/-- The member `Store(dest)`: the eight 16-bit values written to
`dest[0..8)`, each lane converted by `_mm256_cvtps_ph(xmm, 0)`. -/
def Store (hw : F16C F) (v : half8 F) : List Nat :=
  List.ofFn fun l => hw.cvtps_ph (v.xmm l)

/-- The member `operator+`: `_mm256_add_ps`. -/
def add [Add F] (x b : half8 F) : half8 F := ⟨fun l => x.xmm l + b.xmm l⟩

/-- The member `operator*`: `_mm256_mul_ps`. -/
def mul [Mul F] (x b : half8 F) : half8 F := ⟨fun l => x.xmm l * b.xmm l⟩

/-- The member `Sum()`: `x[0] + x[1] + ... + x[7]`. -/
def Sum [Add F] (v : half8 F) : F :=
  v.xmm 0 + v.xmm 1 + v.xmm 2 + v.xmm 3 + v.xmm 4 + v.xmm 5 + v.xmm 6 + v.xmm 7

/-- The member `operator[]`. -/
def get (v : half8 F) (i : Fin 8) : F := v.xmm i

/-- The scalar `Fp16ToFloat(uint16_t a)`: fill `source[8]` with `a`, load it
as a `half8`, return lane 0. -/
def Fp16ToFloat (hw : F16C F) (a : Nat) : F :=
  let source : List Nat := [a, a, a, a, a, a, a, a]
  (load hw (fun i => source.getD i 0) 0).get 0

/-- The scalar `FloatToFp16(float a)`: fill `source[8]` with `a`, load it with
the `const float*` constructor, `Store` it to `dest`, return `dest[0]`. -/
def FloatToFp16 [Zero F] (hw : F16C F) (a : F) : Nat :=
  let source : List F := [a, a, a, a, a, a, a, a]
  let dest : List Nat := (loadFloat (fun i => source.getD i 0) 0).Store hw
  dest.getD 0 0

/-- The loop of the bulk `Fp16ToFloat(const vector<uint16_t>& v)`:
`out[i] = Fp16ToFloat(v[i])` for `i` up to `v.size()`. -/
def Fp16ToFloat_vector.loop [Zero F] (hw : F16C F) (v : List Nat)
    (out : List F) (i : Nat) : List F :=
  if i < v.length then
    Fp16ToFloat_vector.loop hw v (out.set i (Fp16ToFloat hw (v.getD i 0))) (i + 1)
  else out
termination_by v.length - i

/-- The bulk `Fp16ToFloat(const vector<uint16_t>& v)`: `out` starts as
`v.size()` zeros. -/
def Fp16ToFloat_vector [Zero F] (hw : F16C F) (v : List Nat) : List F :=
  Fp16ToFloat_vector.loop hw v (List.replicate v.length 0) 0

/-- The loop of `ConvertFp16ToFp32(aptr, size, bptr)`:
`bptr[i] = Fp16ToFloat(aptr[i])` for `i` up to `size`. The result is the
memory behind `bptr` after the loop. -/
def ConvertFp16ToFp32.loop (hw : F16C F) (aptr : Nat → Nat) (size : Nat)
    (bptr : Nat → F) (i : Nat) : Nat → F :=
  if i < size then
    ConvertFp16ToFp32.loop hw aptr size
      (Function.update bptr i (Fp16ToFloat hw (aptr i))) (i + 1)
  else bptr
termination_by size - i

/-- The function `ConvertFp16ToFp32(aptr, size, bptr)`; `bptr` is the memory
behind the output pointer before the call, the result is that memory after
it. -/
def ConvertFp16ToFp32 (hw : F16C F) (aptr : Nat → Nat) (size : Nat)
    (bptr : Nat → F) : Nat → F :=
  ConvertFp16ToFp32.loop hw aptr size bptr 0

/-- The loop of the bulk `FloatToFp16(const vector<float>& v)`:
`out[i] = FloatToFp16(v[i])` for `i` up to `v.size()`. -/
def FloatToFp16_vector.loop [Zero F] (hw : F16C F) (v : List F)
    (out : List Nat) (i : Nat) : List Nat :=
  if i < v.length then
    FloatToFp16_vector.loop hw v (out.set i (FloatToFp16 hw (v.getD i 0))) (i + 1)
  else out
termination_by v.length - i

/-- The bulk `FloatToFp16(const vector<float>& v)`: `out` starts as
`v.size()` zeros. -/
def FloatToFp16_vector [Zero F] (hw : F16C F) (v : List F) : List Nat :=
  FloatToFp16_vector.loop hw v (List.replicate v.length 0) 0

/-- The static member `MultiplyOne`: both operands converted, then
multiplied. -/
def MultiplyOne [Mul F] (hw : F16C F) (a b : Nat) : F :=
  Fp16ToFloat hw a * Fp16ToFloat hw b

/-- The struct `half8` as a template argument; `half8::Type` is
`uint16_t`. -/
def laneType [Zero F] [Add F] [Mul F] (hw : F16C F) : LaneType Nat F where
  Reg := half8 F
  SIZE := SIZE
  SIZE_pos := by decide
  zero := zero
  load := load hw
  add := add
  mul := mul
  Sum := Sum
  MultiplyOne := MultiplyOne hw

end half8

/-! ## The compact 16-bit format

The source converts between 16-bit values and floats only through the F16C
instructions; what they compute is modelled here from section 4.3 of the
specification, over the rationals. -/

namespace compact16

/-- Modelled from the spec: the value of a 16-bit pattern in the compact
format, which the source obtains from `_mm256_cvtph_ps` and does not define.
The layout is 1 sign bit, 5 exponent bits and 10 mantissa bits; exponent field
0 holds the subnormals `m / 2^24`, exponent fields 1 to 30 the normal values
`(1024 + m) * 2^(e - 25)`. Exponent field 31 holds the infinities and NaNs,
which are no rational numbers: they have no value here. -/
def value (h : Nat) : Option ℚ :=
  let s := h / 32768 % 2
  let e := h / 1024 % 32
  let m := h % 1024
  if e = 31 then none
  else
    let mag : ℚ :=
      if e = 0 then (m : ℚ) / 2 ^ 24
      else ((1024 + m : Nat) : ℚ) * 2 ^ (e - 1) / 2 ^ 24
    some (if s = 1 then -mag else mag)

/-- Modelled from the spec: `toFloat32`, one lane of `_mm256_cvtph_ps`. On the
patterns of the infinities and NaNs, which exact arithmetic cannot hold, it
returns 0 as a stand-in; every theorem about it excludes them. -/
def toFloat32 (h : Nat) : ℚ := (value h).getD 0

/-- Rounding of a non-negative rational to the nearest natural number, ties
to the even one. -/
def roundEven (q : ℚ) : Nat :=
  let f := ⌊q⌋₊
  if q - f < 1 / 2 then f
  else if 1 / 2 < q - f then f + 1
  else if f % 2 = 0 then f else f + 1

/-- The 15 low bits of the pattern nearest to the magnitude `x ≥ 0`. With
`t = x * 2^24`, the spacing of the format around `x` is `2^k / 2^24` for
`k = max (⌊log₂ t⌋ - 10) 0`; `t` is rounded to a multiple of it, ties to even,
and a result past the largest finite pattern becomes the pattern of infinity,
`0x7C00 = 31744`. -/
def encodeMag (x : ℚ) : Nat :=
  let t := x * 2 ^ 24
  let k := Nat.log 2 ⌊t⌋₊ - 10
  min (k * 1024 + roundEven (t / 2 ^ k)) 31744

/-- Modelled from the spec: `toCompact16`, one lane of `_mm256_cvtps_ph` with
rounding argument 0: round to nearest, ties to even, magnitudes too large
saturating to the infinity of the same sign. -/
def toCompact16 (x : ℚ) : Nat :=
  if x < 0 then 32768 + encodeMag (-x) else encodeMag x

/-- Modelled from the spec: the two F16C conversions as section 4.3 of the
specification describes them. -/
def hw : F16C ℚ where
  cvtph_ps := toFloat32
  cvtps_ph := toCompact16

/-- A rational is representable in the compact format when it is the value of
a 16-bit pattern. -/
def Representable (x : ℚ) : Prop := ∃ h, h < 65536 ∧ value h = some x

end compact16

/-! ## The template `DotProduct<floatX>` -/

/-- The variables the double-wide loop of `DotProduct` changes. -/
structure DotProduct.State (R : Type) where
  /-- The pointer `aptr`, as an offset. -/
  aptr : Nat
  /-- The pointer `bptr`, as an offset. -/
  bptr : Nat
  /-- The accumulator `acc0`. -/
  acc0 : R
  /-- The accumulator `acc1`. -/
  acc1 : R

/-- The double-wide loop of `DotProduct` (source lines 55-58): while
`aptr < loop_end_2`, `acc0 += floatX(aptr) + floatX(bptr)` and
`acc1 += floatX(aptr + SIZE) * floatX(bptr + SIZE)`, then both pointers
advance by `2 * SIZE`. -/
def DotProduct.loop2 (X : LaneType T F) (a b : Nat → T) (loop_end_2 : Nat)
    (s : DotProduct.State X.Reg) : DotProduct.State X.Reg :=
  if s.aptr < loop_end_2 then
    DotProduct.loop2 X a b loop_end_2
      { aptr := s.aptr + 2 * X.SIZE
        bptr := s.bptr + 2 * X.SIZE
        acc0 := X.add s.acc0 (X.add (X.load a s.aptr) (X.load b s.bptr))
        acc1 := X.add s.acc1
          (X.mul (X.load a (s.aptr + X.SIZE)) (X.load b (s.bptr + X.SIZE))) }
  else s
termination_by loop_end_2 - s.aptr
decreasing_by have := X.SIZE_pos; simp_wf; omega

/-- The scalar tail loop of `DotProduct` (source lines 68-70): while
`aptr < data_end`, `dot += floatX::MultiplyOne(*aptr, *bptr)`. -/
def DotProduct.tail [Add F] (X : LaneType T F) (a b : Nat → T) (data_end : Nat)
    (aptr bptr : Nat) (dot : F) : F :=
  if aptr < data_end then
    DotProduct.tail X a b data_end (aptr + 1) (bptr + 1)
      (dot + X.MultiplyOne (a aptr) (b bptr))
  else dot
termination_by data_end - aptr

/-- The template function `DotProduct<floatX>(aptr, bptr, size)`. -/
def DotProduct [Add F] (X : LaneType T F) (a b : Nat → T) (size : Nat) : F :=
  let size_of_2_floatX := 2 * X.SIZE
  let loop_end_2 := 0 + size_of_2_floatX * (size / size_of_2_floatX)
  let loop_end := 0 + X.SIZE * (size / X.SIZE)
  let data_end := 0 + size
  let s := DotProduct.loop2 X a b loop_end_2
    { aptr := 0, bptr := 0, acc0 := X.zero, acc1 := X.zero }
  let acc0 := X.add s.acc0 s.acc1
  let acc0 := if s.aptr < loop_end then
      X.add acc0 (X.mul (X.load a s.aptr) (X.load b s.bptr)) else acc0
  let aptr := if s.aptr < loop_end then s.aptr + X.SIZE else s.aptr
  let bptr := if s.aptr < loop_end then s.bptr + X.SIZE else s.bptr
  let dot := X.Sum acc0
  DotProduct.tail X a b data_end aptr bptr dot

/-- One pass through the body of the double-wide loop of `DotProduct` (source
lines 55-57): the two accumulations at the pointers of the state, then both
pointers advanced by `2 * SIZE`. -/
def DotProduct.step2 (X : LaneType T F) (a b : Nat → T)
    (s : DotProduct.State X.Reg) : DotProduct.State X.Reg :=
  { aptr := s.aptr + 2 * X.SIZE
    bptr := s.bptr + 2 * X.SIZE
    acc0 := X.add s.acc0 (X.add (X.load a s.aptr) (X.load b s.bptr))
    acc1 := X.add s.acc1
      (X.mul (X.load a (s.aptr + X.SIZE)) (X.load b (s.bptr + X.SIZE))) }

/-! ## The data generator and the checks of `main.cc` -/

/-- The loop of `CreateData`: while `j < 2 * (size / 2)`, `v[j] = i`,
`v[j+1] = i`, `i *= -1`, `j += 2`. -/
def CreateData.loop [One F] [Neg F] [Mul F] (size : Nat) (v : List F) (i : F)
    (j : Nat) : List F :=
  if j < 2 * (size / 2) then
    CreateData.loop size ((v.set j i).set (j + 1) i) (i * -1) (j + 2)
  else v
termination_by 2 * (size / 2) - j

/-- The function `CreateData(size)`: `v` starts as `size` zeros and `i`
as 1. -/
def CreateData [Zero F] [One F] [Neg F] [Mul F] (size : Nat) : List F :=
  CreateData.loop size (List.replicate size 0) 1 0

/-- The pointer `data.data()` of a vector: offset `j` reads `data[j]`. A read
past the end is outside the contract of every function here; the model reads
`dflt` there. -/
def data_ptr (dflt : T) (data : List T) : Nat → T := fun j => data.getD j dflt

/-- The pointer `data.data() - 1` the checks pass as `bptr`: offset `j ≥ 1`
reads `data[j-1]`. Offset 0 reads the element before the start of the vector,
which the source leaves undefined; it is the parameter `before`. -/
def data_ptr_pred (dflt before : T) (data : List T) : Nat → T :=
  fun j => if j = 0 then before else data.getD (j - 1) dflt

/-- The value `exp_dot` of `TestDotProd` at index `i`:
`(data[i] * data[i - 1] == -1) ? 1 : 0`. -/
def TestDotProd.exp_dot (data : List ℚ) (i : Nat) : ℚ :=
  if data.getD i 0 * data.getD (i - 1) 0 = -1 then 1 else 0

/-- The value `exp_dot` of `TestDotProdF16` at index `i`:
`(half8::MultiplyOne(data[i], data[i - 1]) == -1) ? 1 : 0`. -/
def TestDotProdF16.exp_dot (hw : F16C ℚ) (data : List Nat) (i : Nat) : ℚ :=
  if half8.MultiplyOne hw (data.getD i 0) (data.getD (i - 1) 0) = -1 then 1 else 0

/-- The alternating pattern in the words of the specification: `+1` at the
indices `j` with `j mod 4` equal to 0 or 1, `-1` at those with `j mod 4` equal
to 2 or 3. -/
def alternating (j : Nat) : ℚ := if j % 4 < 2 then 1 else -1

/-- The alternating pattern read one position earlier, as the checks read it
through `data.data() - 1`, with 0 before the start. -/
def alternating_pred (j : Nat) : ℚ := if j = 0 then 0 else alternating (j - 1)

/-! ## The 32-bit float format

The source computes in `float`, through the SSE and AVX instructions and the
scalar `+=` and `*`. The type parameter `F` of the definitions above leaves
the arithmetic open; this section supplies the one the hardware has, modelled
from IEEE 754 binary32 (round to nearest, ties to even), for the statements
that are about the float results themselves. -/

/-- Modelled from IEEE 754: the binary32 value nearest to the rational `x`,
ties going to the value with even significand; this is what every float
addition and multiplication of the source returns for the exact result `x`.
The significand has 24 bits, so for `2^e ≤ |x| < 2^(e+1)` the values are
`2^(e-23)` apart. The exponent range is not modelled: the definition is that
of binary32 for magnitudes between `2^-126` and `2^128`, which holds of every
value in the statements below. -/
def binary32.round (x : ℚ) : ℚ :=
  if x = 0 then 0
  else
    let ulp : ℚ := 2 ^ (Int.log 2 |x| - 23)
    let r : ℚ := (compact16.roundEven (|x| / ulp) : ℚ) * ulp
    if x < 0 then -r else r

/-- A `float`: a finite binary32 value, carried as the rational it denotes. -/
structure binary32 where
  /-- The rational the float denotes. -/
  val : ℚ

/-- Equality of floats, as `==` decides it on finite values. -/
instance binary32.instDecidableEq : DecidableEq binary32 :=
  fun x y => decidable_of_iff (x.val = y.val)
    ⟨fun h => by cases x; cases y; cases h; rfl, fun h => by rw [h]⟩

/-- The float `0`. -/
instance binary32.instZero : Zero binary32 := ⟨⟨0⟩⟩

/-- The float `1`. -/
instance binary32.instOne : One binary32 := ⟨⟨1⟩⟩

/-- Negation of a float, which is exact. -/
instance binary32.instNeg : Neg binary32 := ⟨fun x => ⟨-x.val⟩⟩

/-- Float addition: the exact sum, rounded. -/
instance binary32.instAdd : Add binary32 :=
  ⟨fun x y => ⟨binary32.round (x.val + y.val)⟩⟩

/-- Float multiplication: the exact product, rounded. -/
instance binary32.instMul : Mul binary32 :=
  ⟨fun x y => ⟨binary32.round (x.val * y.val)⟩⟩

/-- Modelled from the spec: the two F16C conversions of section 4.3 with
floats in place of rationals. Every value of the compact format is a binary32
value, so `toFloat32` needs no rounding. -/
def compact16.hw32 : F16C binary32 where
  cvtph_ps := fun h => ⟨compact16.toFloat32 h⟩
  cvtps_ph := fun x => compact16.toCompact16 x.val

/-- The value `exp_dot` of `TestDotProd` at index `i`, in float arithmetic:
`(data[i] * data[i - 1] == -1) ? 1 : 0`. -/
def TestDotProd.exp_dot32 (data : List binary32) (i : Nat) : binary32 :=
  if data.getD i 0 * data.getD (i - 1) 0 = -1 then 1 else 0

/-- The value `exp_dot` of `TestDotProdF16` at index `i`, in float
arithmetic: `(half8::MultiplyOne(data[i], data[i - 1]) == -1) ? 1 : 0`. -/
def TestDotProdF16.exp_dot32 (hw : F16C binary32) (data : List Nat) (i : Nat) :
    binary32 :=
  if half8.MultiplyOne hw (data.getD i 0) (data.getD (i - 1) 0) = -1 then 1 else 0

/-- The float `y` is tracked by the pair `p`: `p.1` is the exact value of the
computation that produced `y`, an integer, and `p.2` bounds the magnitude of
`p.1` and of every intermediate result; while `p.2` is at most `2^24` no
rounding has occurred and `y` is `p.1`. Pairs are added and multiplied
componentwise. -/
def binary32.Tracks (p : ℚ × ℕ) (y : binary32) : Prop :=
  (∃ z : ℤ, p.1 = z) ∧ |p.1| ≤ p.2 ∧ (p.2 ≤ 2 ^ 24 → y.val = p.1)

/-! ## Checked reads -/

/-- A scalar obtained through bounds-checked indexing: `none` is what a read
outside the buffer returns, and what any arithmetic on such a result
returns. -/
def Checked (F : Type) : Type := Option F

/-- A value that was read in bounds, or computed from such values. -/
def Checked.ok (x : F) : Checked F := some x

/-- The result of a read outside the buffer. -/
def Checked.oob : Checked F := none

/-- The scalar 0 is a value. -/
instance Checked.instZero [Zero F] : Zero (Checked F) := ⟨Checked.ok 0⟩

/-- The sum of two values is a value; a sum with an out-of-bounds operand is
out of bounds. -/
instance Checked.instAdd [Add F] : Add (Checked F) :=
  ⟨fun x y => match x, y with
    | some u, some v => Checked.ok (u + v)
    | _, _ => Checked.oob⟩

/-- The product of two values is a value; a product with an out-of-bounds
operand is out of bounds. -/
instance Checked.instMul [Mul F] : Mul (Checked F) :=
  ⟨fun x y => match x, y with
    | some u, some v => Checked.ok (u * v)
    | _, _ => Checked.oob⟩

/-- The pointer `data.data()` read with a bounds check: offset `j` reads
`data[j]?`, a value when `j` is below the length of the buffer and `none`
otherwise. -/
def checked_ptr (data : List F) : Nat → Checked F := fun j => data[j]?

/-! ## Lane views -/

/-- A lane-by-lane reading of a lane type `X`, with `cvt` the conversion a
load applies to each element: what each operation of `X` does to lane `l`, and
`Sum` as the left-nested sum of the lanes in increasing order. -/
structure LaneType.Lanes [Zero F] [Add F] [Mul F] (X : LaneType T F)
    (cvt : T → F) where
  /-- Lane `l` of a register. -/
  lane : X.Reg → Nat → F
  lane_zero : ∀ l, l < X.SIZE → lane X.zero l = 0
  lane_load : ∀ p i l, l < X.SIZE → lane (X.load p i) l = cvt (p (i + l))
  lane_add : ∀ x y l, l < X.SIZE → lane (X.add x y) l = lane x l + lane y l
  lane_mul : ∀ x y l, l < X.SIZE → lane (X.mul x y) l = lane x l * lane y l
  Sum_eq : ∀ v, X.Sum v =
    List.foldl (fun acc l => acc + lane v (l + 1)) (lane v 0)
      (List.range (X.SIZE - 1))
  MultiplyOne_eq : ∀ x y, X.MultiplyOne x y = cvt x * cvt y

/-- The term index `i` contributes to `DotProduct<floatX>(a, b, n)` with
`W = floatX::SIZE`, read off the three statements that consume elements:
line 56 adds `a[i] + b[i]` for the first `W` indices of each double-wide
chunk, lines 57, 62 and 69 add `a[i] * b[i]` for every other index. -/
def DotProduct.term [Add F] [Mul F] (W n : Nat) (a b : Nat → F) (i : Nat) : F :=
  if i < 2 * W * (n / (2 * W)) ∧ i % (2 * W) < W then a i + b i else a i * b i

/-- The lane view of `float4`; loads convert nothing. -/
def float4.lanes [Zero F] [Add F] [Mul F] :
    (float4.laneType (F := F)).Lanes id where
  lane := fun (v : float4 F) l => if h : l < 4 then v.xmm ⟨l, h⟩ else 0
  lane_zero := fun l (h : l < 4) => by simp [h, float4.laneType, float4.zero]
  lane_load := fun p i l (h : l < 4) => by simp [h, float4.laneType, float4.load]
  lane_add := fun x y l (h : l < 4) => by simp [h, float4.laneType, float4.add]
  lane_mul := fun x y l (h : l < 4) => by simp [h, float4.laneType, float4.mul]
  Sum_eq := fun _ => rfl
  MultiplyOne_eq := fun _ _ => rfl

/-- The lane view of `float8`; loads convert nothing. -/
def float8.lanes [Zero F] [Add F] [Mul F] :
    (float8.laneType (F := F)).Lanes id where
  lane := fun (v : float8 F) l => if h : l < 8 then v.xmm ⟨l, h⟩ else 0
  lane_zero := fun l (h : l < 8) => by simp [h, float8.laneType, float8.zero]
  lane_load := fun p i l (h : l < 8) => by simp [h, float8.laneType, float8.load]
  lane_add := fun x y l (h : l < 8) => by simp [h, float8.laneType, float8.add]
  lane_mul := fun x y l (h : l < 8) => by simp [h, float8.laneType, float8.mul]
  Sum_eq := fun _ => rfl
  MultiplyOne_eq := fun _ _ => rfl

/-- The lane view of `half8`; a load converts each element by `cvtph_ps`. -/
def half8.lanes [Zero F] [Add F] [Mul F] (hw : F16C F) :
    (half8.laneType hw).Lanes hw.cvtph_ps where
  lane := fun (v : half8 F) l => if h : l < 8 then v.xmm ⟨l, h⟩ else 0
  lane_zero := fun l (h : l < 8) => by simp [h, half8.laneType, half8.zero]
  lane_load := fun p i l (h : l < 8) => by simp [h, half8.laneType, half8.load]
  lane_add := fun x y l (h : l < 8) => by simp [h, half8.laneType, half8.add]
  lane_mul := fun x y l (h : l < 8) => by simp [h, half8.laneType, half8.mul]
  Sum_eq := fun _ => rfl
  MultiplyOne_eq := fun _ _ => rfl

/-! ## Theorems -/

/-! ### The conversions -/

theorem half8.Fp16ToFloat_eq (hw : F16C F) (a : Nat) :
    half8.Fp16ToFloat hw a = hw.cvtph_ps a := rfl

/-! ### The scalar reference -/

theorem naive.DotProduct.loop_eq_foldl [Add F] [Mul F] (a b : Nat → F)
    (aend : Nat) : ∀ (k aptr bptr : Nat) (dot : F), aptr + k = aend →
      naive.DotProduct.loop a b aend aptr bptr dot
        = List.foldl (fun acc i => acc + a (aptr + i) * b (bptr + i)) dot
            (List.range k) := by
  intro k
  induction k with
  | zero =>
    intro aptr bptr dot h
    rw [naive.DotProduct.loop, if_neg (by omega)]
    rfl
  | succ k ih =>
    intro aptr bptr dot h
    rw [naive.DotProduct.loop, if_pos (by omega), ih (aptr + 1) (bptr + 1) _ (by omega),
      List.range_succ_eq_map, List.foldl_cons, List.foldl_map]
    simp only [Nat.add_zero, Nat.succ_eq_add_one]
    congr 1
    funext acc i
    rw [Nat.add_assoc, Nat.add_assoc, Nat.add_comm 1 i]

theorem naive.DotProduct_eq_foldl [Zero F] [Add F] [Mul F] (a b : Nat → F)
    (n : Nat) :
    naive.DotProduct a b n
      = List.foldl (fun acc i => acc + a i * b i) 0 (List.range n) := by
  rw [naive.DotProduct, naive.DotProduct.loop_eq_foldl a b (0 + n) n 0 0 0 rfl]
  simp only [Nat.zero_add]

theorem foldl_add_eq_sum [AddCommMonoid F] (f : Nat → F) (init : F) (n : Nat) :
    List.foldl (fun acc i => acc + f i) init (List.range n)
      = init + ∑ i in Finset.range n, f i := by
  induction n with
  | zero => simp
  | succ n ih =>
    rw [List.range_succ, List.foldl_append, ih, Finset.sum_range_succ]
    simp [add_assoc]

theorem naive.DotProduct_eq_sum [Semiring F] (a b : Nat → F) (n : Nat) :
    naive.DotProduct a b n = ∑ i in Finset.range n, a i * b i := by
  rw [naive.DotProduct_eq_foldl, foldl_add_eq_sum, zero_add]

/-! ### The loops of `DotProduct` -/

theorem DotProduct.loop2_spec [Semiring F] (X : LaneType T F) (cvt : T → F)
    (L : X.Lanes cvt) (a b : Nat → T) (q : Nat) :
    ∀ (k j : Nat) (s : DotProduct.State X.Reg), j + k = q →
      s.aptr = 2 * X.SIZE * j → s.bptr = 2 * X.SIZE * j →
      (DotProduct.loop2 X a b (2 * X.SIZE * q) s).aptr = 2 * X.SIZE * q ∧
      (DotProduct.loop2 X a b (2 * X.SIZE * q) s).bptr = 2 * X.SIZE * q ∧
      (∀ l, l < X.SIZE →
        L.lane (DotProduct.loop2 X a b (2 * X.SIZE * q) s).acc0 l
          = L.lane s.acc0 l + ∑ c in Finset.range k,
              (cvt (a (2 * X.SIZE * (j + c) + l))
                + cvt (b (2 * X.SIZE * (j + c) + l)))) ∧
      (∀ l, l < X.SIZE →
        L.lane (DotProduct.loop2 X a b (2 * X.SIZE * q) s).acc1 l
          = L.lane s.acc1 l + ∑ c in Finset.range k,
              cvt (a (2 * X.SIZE * (j + c) + X.SIZE + l))
                * cvt (b (2 * X.SIZE * (j + c) + X.SIZE + l))) := by
  intro k
  induction k with
  | zero =>
    intro j s hq ha hb
    have hj : j = q := by omega
    subst hj
    rw [DotProduct.loop2, if_neg (by omega)]
    simp [ha, hb]
  | succ k ih =>
    intro j s hq ha hb
    have hpos := X.SIZE_pos
    have hlt : s.aptr < 2 * X.SIZE * q := by
      rw [ha]
      exact (Nat.mul_lt_mul_left (by omega : 0 < 2 * X.SIZE)).mpr (by omega)
    rw [DotProduct.loop2, if_pos hlt]
    obtain ⟨h1, h2, h3, h4⟩ := ih (j + 1)
      { aptr := s.aptr + 2 * X.SIZE
        bptr := s.bptr + 2 * X.SIZE
        acc0 := X.add s.acc0 (X.add (X.load a s.aptr) (X.load b s.bptr))
        acc1 := X.add s.acc1
          (X.mul (X.load a (s.aptr + X.SIZE)) (X.load b (s.bptr + X.SIZE))) }
      (by omega)
      (show s.aptr + 2 * X.SIZE = 2 * X.SIZE * (j + 1) by rw [ha, Nat.mul_add, Nat.mul_one])
      (show s.bptr + 2 * X.SIZE = 2 * X.SIZE * (j + 1) by rw [hb, Nat.mul_add, Nat.mul_one])
    refine ⟨h1, h2, ?_, ?_⟩
    · intro l hl
      rw [h3 l hl, L.lane_add _ _ l hl, L.lane_add _ _ l hl, L.lane_load _ _ l hl,
        L.lane_load _ _ l hl, Finset.sum_range_succ', ha, hb]
      simp only [Nat.add_zero, add_assoc, Nat.add_assoc, Nat.add_comm 1]
      rw [add_comm (∑ c in Finset.range k, _)]
      simp only [add_assoc]
    · intro l hl
      rw [h4 l hl, L.lane_add _ _ l hl, L.lane_mul _ _ l hl, L.lane_load _ _ l hl,
        L.lane_load _ _ l hl, Finset.sum_range_succ', ha, hb]
      simp only [Nat.add_zero, add_assoc, Nat.add_assoc, Nat.add_comm 1]
      rw [add_comm (∑ c in Finset.range k, _)]

theorem DotProduct.tail_eq [Semiring F] (X : LaneType T F) (cvt : T → F)
    (L : X.Lanes cvt) (a b : Nat → T) (data_end : Nat) :
    ∀ (k aptr : Nat) (dot : F), aptr + k = data_end →
      DotProduct.tail X a b data_end aptr aptr dot
        = dot + ∑ r in Finset.range k, cvt (a (aptr + r)) * cvt (b (aptr + r)) := by
  intro k
  induction k with
  | zero =>
    intro aptr dot h
    rw [DotProduct.tail, if_neg (by omega)]
    simp
  | succ k ih =>
    intro aptr dot h
    rw [DotProduct.tail, if_pos (by omega), ih (aptr + 1) _ (by omega),
      Finset.sum_range_succ', L.MultiplyOne_eq]
    simp only [Nat.add_zero, add_assoc, Nat.add_assoc, Nat.add_comm 1]
    rw [add_comm (∑ c in Finset.range k, _)]

theorem LaneType.Lanes.Sum_eq_sum [Semiring F] {X : LaneType T F} {cvt : T → F}
    (L : X.Lanes cvt) (v : X.Reg) :
    X.Sum v = ∑ l in Finset.range X.SIZE, L.lane v l := by
  have hpos := X.SIZE_pos
  obtain ⟨w, hw⟩ : ∃ w, X.SIZE = w + 1 := ⟨X.SIZE - 1, by omega⟩
  rw [L.Sum_eq, foldl_add_eq_sum, hw, Finset.sum_range_succ', Nat.add_sub_cancel, add_comm]

theorem sum_range_chunks [AddCommMonoid F] (t : Nat → F) (W : Nat) :
    ∀ q : Nat, ∑ i in Finset.range (2 * W * q), t i
      = ∑ l in Finset.range W, ∑ c in Finset.range q, t (2 * W * c + l)
        + ∑ l in Finset.range W, ∑ c in Finset.range q, t (2 * W * c + W + l) := by
  intro q
  induction q with
  | zero => simp
  | succ q ih =>
    have h : 2 * W * (q + 1) = 2 * W * q + W + W := by ring
    rw [h, Finset.sum_range_add, Finset.sum_range_add, ih]
    simp only [Finset.sum_range_succ, Finset.sum_add_distrib]
    abel

theorem loop_end_lt_iff (W n : Nat) (hW : 0 < W) :
    2 * W * (n / (2 * W)) < W * (n / W) ↔ 2 * W * (n / (2 * W)) + W ≤ n := by
  have h2 : 2 * W * (n / (2 * W)) = W * (2 * (n / (2 * W))) := by ring
  have hle : W * (n / W) ≤ n := Nat.mul_div_le n W
  constructor
  · intro h
    rw [h2] at h ⊢
    have h3 : 2 * (n / (2 * W)) < n / W := Nat.lt_of_mul_lt_mul_left h
    have h4 : W * (2 * (n / (2 * W)) + 1) ≤ W * (n / W) := Nat.mul_le_mul_left W h3
    rw [Nat.mul_add, Nat.mul_one] at h4
    omega
  · intro h
    rw [h2] at h ⊢
    have h3 : 2 * (n / (2 * W)) + 1 ≤ n / W := by
      rw [Nat.le_div_iff_mul_le hW, Nat.add_mul, Nat.one_mul, Nat.mul_comm]
      exact h
    exact (Nat.mul_lt_mul_left hW).mpr h3

theorem DotProduct.term_of_lt [Add F] [Mul F] (W n : Nat) (a b : Nat → F)
    (c l : Nat) (hc : c < n / (2 * W)) (hl : l < W) :
    DotProduct.term W n a b (2 * W * c + l)
      = a (2 * W * c + l) + b (2 * W * c + l) := by
  have h1 : 2 * W * c + l < 2 * W * (n / (2 * W)) := by
    have : 2 * W * (c + 1) ≤ 2 * W * (n / (2 * W)) := Nat.mul_le_mul_left _ hc
    rw [Nat.mul_add, Nat.mul_one] at this
    omega
  have h2 : (2 * W * c + l) % (2 * W) < W := by
    rw [Nat.mul_add_mod, Nat.mod_eq_of_lt (by omega)]
    exact hl
  rw [DotProduct.term, if_pos ⟨h1, h2⟩]

theorem DotProduct.term_of_ge [Add F] [Mul F] (W n : Nat) (a b : Nat → F)
    (c l : Nat) (hl : l < W) :
    DotProduct.term W n a b (2 * W * c + W + l)
      = a (2 * W * c + W + l) * b (2 * W * c + W + l) := by
  have h2 : ¬ (2 * W * c + W + l) % (2 * W) < W := by
    rw [Nat.add_assoc, Nat.mul_add_mod, Nat.mod_eq_of_lt (by omega)]
    omega
  rw [DotProduct.term, if_neg (fun h => h2 h.2)]

theorem DotProduct.term_of_end [Add F] [Mul F] (W n : Nat) (a b : Nat → F)
    (i : Nat) (hi : 2 * W * (n / (2 * W)) ≤ i) :
    DotProduct.term W n a b i = a i * b i := by
  rw [DotProduct.term, if_neg (fun h => absurd h.1 (by omega))]

theorem DotProduct_eq_sum_term [Semiring F] (X : LaneType T F) (cvt : T → F)
    (L : X.Lanes cvt) (a b : Nat → T) (n : Nat) :
    DotProduct X a b n
      = ∑ i in Finset.range n,
          DotProduct.term X.SIZE n (fun i => cvt (a i)) (fun i => cvt (b i)) i := by
  have hpos := X.SIZE_pos
  obtain ⟨h1, h2, h3, h4⟩ := DotProduct.loop2_spec X cvt L a b (n / (2 * X.SIZE))
    (n / (2 * X.SIZE)) 0 { aptr := 0, bptr := 0, acc0 := X.zero, acc1 := X.zero }
    (by omega) (by simp) (by simp)
  have hE : 2 * X.SIZE * (n / (2 * X.SIZE)) ≤ n := Nat.mul_div_le n _
  have hmid := loop_end_lt_iff X.SIZE n hpos
  -- the lanes of the two accumulators when the double-wide loop exits
  have hacc : ∀ l ∈ Finset.range X.SIZE,
      L.lane (X.add
        (DotProduct.loop2 X a b (2 * X.SIZE * (n / (2 * X.SIZE)))
          { aptr := 0, bptr := 0, acc0 := X.zero, acc1 := X.zero }).acc0
        (DotProduct.loop2 X a b (2 * X.SIZE * (n / (2 * X.SIZE)))
          { aptr := 0, bptr := 0, acc0 := X.zero, acc1 := X.zero }).acc1) l
      = ∑ c in Finset.range (n / (2 * X.SIZE)),
          DotProduct.term X.SIZE n (fun i => cvt (a i)) (fun i => cvt (b i))
            (2 * X.SIZE * c + l)
        + ∑ c in Finset.range (n / (2 * X.SIZE)),
          DotProduct.term X.SIZE n (fun i => cvt (a i)) (fun i => cvt (b i))
            (2 * X.SIZE * c + X.SIZE + l) := by
    intro l hl
    have hl' : l < X.SIZE := Finset.mem_range.mp hl
    rw [L.lane_add _ _ l hl', h3 l hl', h4 l hl', L.lane_zero l hl', zero_add, zero_add]
    congr 1
    · refine Finset.sum_congr rfl fun c hc => ?_
      rw [DotProduct.term_of_lt _ _ _ _ _ _ (Finset.mem_range.mp hc) hl', Nat.zero_add]
    · refine Finset.sum_congr rfl fun c _ => ?_
      rw [DotProduct.term_of_ge _ _ _ _ _ _ hl', Nat.zero_add]
  -- the sum over the double-wide region
  have hchunks := sum_range_chunks
    (DotProduct.term X.SIZE n (fun i => cvt (a i)) (fun i => cvt (b i))) X.SIZE
    (n / (2 * X.SIZE))
  have hsplit : ∀ g : Nat → F, ∑ i in Finset.range n, g i
      = ∑ i in Finset.range (2 * X.SIZE * (n / (2 * X.SIZE))), g i
        + ∑ r in Finset.range (n - 2 * X.SIZE * (n / (2 * X.SIZE))),
            g (2 * X.SIZE * (n / (2 * X.SIZE)) + r) := by
    intro g
    rw [← Finset.sum_range_add, Nat.add_sub_cancel' hE]
  have hsplit' : ∀ (g : Nat → F) (m w : Nat), w ≤ m → ∑ r in Finset.range m, g r
      = ∑ r in Finset.range w, g r + ∑ r in Finset.range (m - w), g (w + r) := by
    intro g m w hw
    rw [← Finset.sum_range_add, Nat.add_sub_cancel' hw]
  unfold DotProduct
  simp only [Nat.zero_add]
  rw [h1, h2]
  by_cases hm : 2 * X.SIZE * (n / (2 * X.SIZE)) < X.SIZE * (n / X.SIZE)
  · have hm' := hmid.mp hm
    simp only [if_pos hm]
    rw [DotProduct.tail_eq X cvt L a b n (n - (2 * X.SIZE * (n / (2 * X.SIZE)) + X.SIZE))
      _ _ (by omega), L.Sum_eq_sum]
    rw [hsplit, hsplit' _ (n - 2 * X.SIZE * (n / (2 * X.SIZE))) X.SIZE (by omega), hchunks]
    rw [Finset.sum_congr rfl fun l hl => by
      rw [L.lane_add _ _ l (Finset.mem_range.mp hl), hacc l hl,
        L.lane_mul _ _ l (Finset.mem_range.mp hl),
        L.lane_load _ _ l (Finset.mem_range.mp hl),
        L.lane_load _ _ l (Finset.mem_range.mp hl)]]
    simp only [Finset.sum_add_distrib]
    rw [Finset.sum_congr rfl fun l _ => DotProduct.term_of_end X.SIZE n
        (fun i => cvt (a i)) (fun i => cvt (b i))
        (2 * X.SIZE * (n / (2 * X.SIZE)) + l) (by omega),
      Finset.sum_congr rfl fun r _ => DotProduct.term_of_end X.SIZE n
        (fun i => cvt (a i)) (fun i => cvt (b i))
        (2 * X.SIZE * (n / (2 * X.SIZE)) + (X.SIZE + r)) (by omega)]
    simp only [Nat.add_assoc, add_assoc, Nat.sub_sub]
  · have hm' : ¬ 2 * X.SIZE * (n / (2 * X.SIZE)) + X.SIZE ≤ n := fun h => hm (hmid.mpr h)
    simp only [if_neg hm]
    rw [DotProduct.tail_eq X cvt L a b n (n - 2 * X.SIZE * (n / (2 * X.SIZE)))
      _ _ (by omega), L.Sum_eq_sum]
    rw [hsplit, hchunks]
    rw [Finset.sum_congr rfl hacc]
    simp only [Finset.sum_add_distrib]
    rw [Finset.sum_congr rfl fun r _ => DotProduct.term_of_end X.SIZE n
        (fun i => cvt (a i)) (fun i => cvt (b i))
        (2 * X.SIZE * (n / (2 * X.SIZE)) + r) (by omega)]

/-! ### Claims about the dot products -/

/-- Claim C1, evaluated on the code: with both inputs eight ones,
`DotProduct<float4>` returns 12 while the sum of the eight products is 8, and
with sixteen ones `DotProduct<float8>` returns 24 while the sum is 16. The
double-wide loop adds `a[i] + b[i]` for the first `SIZE` elements of a chunk
(source line 56). -/
theorem DotProduct_ones_not_sum_of_products :
    DotProduct (float4.laneType (F := ℚ)) (fun _ => 1) (fun _ => 1) 8 = 12 ∧
    ∑ i in Finset.range 8, (fun _ => (1 : ℚ)) i * (fun _ => (1 : ℚ)) i = 8 ∧
    DotProduct (float8.laneType (F := ℚ)) (fun _ => 1) (fun _ => 1) 16 = 24 ∧
    ∑ i in Finset.range 16, (fun _ => (1 : ℚ)) i * (fun _ => (1 : ℚ)) i = 16 := by
  refine ⟨?_, ?_, ?_, ?_⟩
  · simp [DotProduct, DotProduct.loop2, DotProduct.tail, float4.laneType, float4.SIZE,
      float4.add, float4.mul, float4.load, float4.zero, float4.Sum]
    norm_num
  · simp
  · simp [DotProduct, DotProduct.loop2, DotProduct.tail, float8.laneType, float8.SIZE,
      float8.add, float8.mul, float8.load, float8.zero, float8.Sum]
    norm_num
  · simp

/-- Claim C2, evaluated on the code: with both inputs eight ones,
`DotProduct<float4>` returns 12 while `DotProduct<float8>` and
`naive::DotProduct` return 8, so the 4-lane result is 4 away from the other
two, more than the tolerance 1e-3. -/
theorem DotProduct_float4_disagrees_at_8 :
    DotProduct (float4.laneType (F := ℚ)) (fun _ => 1) (fun _ => 1) 8 = 12 ∧
    DotProduct (float8.laneType (F := ℚ)) (fun _ => 1) (fun _ => 1) 8 = 8 ∧
    naive.DotProduct (F := ℚ) (fun _ => 1) (fun _ => 1) 8 = 8 ∧
    ¬ |DotProduct (float4.laneType (F := ℚ)) (fun _ => 1) (fun _ => 1) 8
        - naive.DotProduct (F := ℚ) (fun _ => 1) (fun _ => 1) 8| ≤ 1 / 1000 ∧
    ¬ |DotProduct (float4.laneType (F := ℚ)) (fun _ => 1) (fun _ => 1) 8
        - DotProduct (float8.laneType (F := ℚ)) (fun _ => 1) (fun _ => 1) 8|
          ≤ 1 / 1000 := by
  have h4 : DotProduct (float4.laneType (F := ℚ)) (fun _ => 1) (fun _ => 1) 8 = 12 := by
    simp [DotProduct, DotProduct.loop2, DotProduct.tail, float4.laneType, float4.SIZE,
      float4.add, float4.mul, float4.load, float4.zero, float4.Sum]
    norm_num
  have h8 : DotProduct (float8.laneType (F := ℚ)) (fun _ => 1) (fun _ => 1) 8 = 8 := by
    simp [DotProduct, DotProduct.loop2, DotProduct.tail, float8.laneType, float8.SIZE,
      float8.add, float8.mul, float8.load, float8.zero, float8.Sum]
    norm_num
  have hn : naive.DotProduct (F := ℚ) (fun _ => 1) (fun _ => 1) 8 = 8 := by
    simp [naive.DotProduct, naive.DotProduct.loop]
    norm_num
  refine ⟨h4, h8, hn, ?_, ?_⟩
  · rw [h4, hn]; norm_num
  · rw [h4, h8]; norm_num

/-- Claim C4: with `n = 0` each of `DotProduct<float4>`, `DotProduct<float8>`,
`DotProduct<half8>` and `naive::DotProduct` returns exactly 0, for any inputs
(and any conversion behind `half8`); only `0 + x = x` is used of the
arithmetic. -/
theorem DotProduct_zero_length [AddZeroClass F] [Mul F] (hw : F16C F)
    (a b : Nat → F) (ah bh : Nat → Nat) :
    DotProduct float4.laneType a b 0 = 0 ∧
    DotProduct float8.laneType a b 0 = 0 ∧
    DotProduct (half8.laneType hw) ah bh 0 = 0 ∧
    naive.DotProduct a b 0 = 0 := by
  refine ⟨?_, ?_, ?_, ?_⟩
  · simp [DotProduct, DotProduct.loop2, DotProduct.tail, float4.laneType, float4.SIZE,
      float4.add, float4.zero, float4.Sum]
  · simp [DotProduct, DotProduct.loop2, DotProduct.tail, float8.laneType, float8.SIZE,
      float8.add, float8.zero, float8.Sum]
  · simp [DotProduct, DotProduct.loop2, DotProduct.tail, half8.laneType, half8.SIZE,
      half8.add, half8.zero, half8.Sum]
  · simp [naive.DotProduct, naive.DotProduct.loop]

/-- Claim C5: with `n = 1` each of `DotProduct<float4>`, `DotProduct<float8>`
and `naive::DotProduct` returns `a[0] * b[0]`, and `DotProduct<half8>` returns
`MultiplyOne(a[0], b[0])`, the product of the two converted values; only
`0 + x = x` is used of the arithmetic. -/
theorem DotProduct_single_element [AddZeroClass F] [Mul F] (hw : F16C F)
    (a b : Nat → F) (ah bh : Nat → Nat) :
    DotProduct float4.laneType a b 1 = a 0 * b 0 ∧
    DotProduct float8.laneType a b 1 = a 0 * b 0 ∧
    DotProduct (half8.laneType hw) ah bh 1 = half8.MultiplyOne hw (ah 0) (bh 0) ∧
    half8.MultiplyOne hw (ah 0) (bh 0)
      = half8.Fp16ToFloat hw (ah 0) * half8.Fp16ToFloat hw (bh 0) ∧
    naive.DotProduct a b 1 = a 0 * b 0 := by
  refine ⟨?_, ?_, ?_, rfl, ?_⟩
  · simp [DotProduct, DotProduct.loop2, DotProduct.tail, float4.laneType, float4.SIZE,
      float4.add, float4.zero, float4.Sum, float4.MultiplyOne]
  · simp [DotProduct, DotProduct.loop2, DotProduct.tail, float8.laneType, float8.SIZE,
      float8.add, float8.zero, float8.Sum, float8.MultiplyOne]
  · simp [DotProduct, DotProduct.loop2, DotProduct.tail, half8.laneType, half8.SIZE,
      half8.add, half8.zero, half8.Sum]
  · simp [naive.DotProduct, naive.DotProduct.loop]

/-- Claim C6: `naive::DotProduct(a, b, n)` is the left-to-right fold from 0
that adds `a[i] * b[i]` for `i = 0, ..., n-1` in that order, for an addition
and a multiplication of which no law is assumed; over the rationals it is the
sum of `a[i] * b[i]` over `i < n`. -/
theorem naive_DotProduct_left_fold :
    (∀ (G : Type) [Zero G] [Add G] [Mul G] (a b : Nat → G) (n : Nat),
      naive.DotProduct a b n
        = List.foldl (fun acc i => acc + a i * b i) 0 (List.range n)) ∧
    (∀ (a b : Nat → ℚ) (n : Nat),
      naive.DotProduct a b n = ∑ i in Finset.range n, a i * b i) :=
  ⟨fun _ _ _ _ a b n => naive.DotProduct_eq_foldl a b n,
   fun a b n => naive.DotProduct_eq_sum a b n⟩

/-- Claim C7: `Sum()` of `float4`, `float8` and `half8` is the left-nested sum
of the lanes in increasing index order, starting from lane 0 and adding lanes
1, 2, ..., SIZE-1 one after the other, for an addition of which no law is
assumed. -/
theorem Sum_left_nested [Add F] (v4 : float4 F) (v8 : float8 F) (h8 : half8 F) :
    v4.Sum = List.foldl (· + ·) (v4.xmm 0) (List.map v4.xmm [1, 2, 3]) ∧
    v4.Sum = ((v4.xmm 0 + v4.xmm 1) + v4.xmm 2) + v4.xmm 3 ∧
    v8.Sum = List.foldl (· + ·) (v8.xmm 0) (List.map v8.xmm [1, 2, 3, 4, 5, 6, 7]) ∧
    v8.Sum = ((((((v8.xmm 0 + v8.xmm 1) + v8.xmm 2) + v8.xmm 3) + v8.xmm 4)
      + v8.xmm 5) + v8.xmm 6) + v8.xmm 7 ∧
    h8.Sum = List.foldl (· + ·) (h8.xmm 0) (List.map h8.xmm [1, 2, 3, 4, 5, 6, 7]) ∧
    h8.Sum = ((((((h8.xmm 0 + h8.xmm 1) + h8.xmm 2) + h8.xmm 3) + h8.xmm 4)
      + h8.xmm 5) + h8.xmm 6) + h8.xmm 7 :=
  ⟨rfl, rfl, rfl, rfl, rfl, rfl⟩

/-! ### The bulk conversions -/

theorem half8.Fp16ToFloat_vector_loop_eq_map [Zero F] (hw : F16C F) (v : List Nat) :
    ∀ (k i : Nat) (out : List F), i + k = v.length → out.length = v.length →
      (∀ j, j < i → out[j]? = (v.map (half8.Fp16ToFloat hw))[j]?) →
      half8.Fp16ToFloat_vector.loop hw v out i = v.map (half8.Fp16ToFloat hw) := by
  intro k
  induction k with
  | zero =>
    intro i out hi hlen hpre
    rw [half8.Fp16ToFloat_vector.loop, if_neg (by omega)]
    apply List.ext_getElem?
    intro j
    by_cases hj : j < i
    · exact hpre j hj
    · rw [List.getElem?_eq_none (by omega), List.getElem?_eq_none (by simp; omega)]
  | succ k ih =>
    intro i out hi hlen hpre
    have hiv : i < v.length := by omega
    rw [half8.Fp16ToFloat_vector.loop, if_pos hiv]
    apply ih (i + 1) _ (by omega) (by simp [hlen])
    intro j hj
    by_cases hji : j = i
    · subst hji
      simp [List.getElem?_set, hlen, hiv, List.getD_eq_getElem?_getD]
    · rw [List.getElem?_set_ne (Ne.symm hji)]
      exact hpre j (by omega)

theorem half8.FloatToFp16_vector_loop_eq_map [Zero F] (hw : F16C F) (v : List F) :
    ∀ (k i : Nat) (out : List Nat), i + k = v.length → out.length = v.length →
      (∀ j, j < i → out[j]? = (v.map (half8.FloatToFp16 hw))[j]?) →
      half8.FloatToFp16_vector.loop hw v out i = v.map (half8.FloatToFp16 hw) := by
  intro k
  induction k with
  | zero =>
    intro i out hi hlen hpre
    rw [half8.FloatToFp16_vector.loop, if_neg (by omega)]
    apply List.ext_getElem?
    intro j
    by_cases hj : j < i
    · exact hpre j hj
    · rw [List.getElem?_eq_none (by omega), List.getElem?_eq_none (by simp; omega)]
  | succ k ih =>
    intro i out hi hlen hpre
    have hiv : i < v.length := by omega
    rw [half8.FloatToFp16_vector.loop, if_pos hiv]
    apply ih (i + 1) _ (by omega) (by simp [hlen])
    intro j hj
    by_cases hji : j = i
    · subst hji
      simp [List.getElem?_set, hlen, hiv, List.getD_eq_getElem?_getD]
    · rw [List.getElem?_set_ne (Ne.symm hji)]
      exact hpre j (by omega)

theorem half8.Fp16ToFloat_vector_eq_map [Zero F] (hw : F16C F) (v : List Nat) :
    half8.Fp16ToFloat_vector hw v = v.map (half8.Fp16ToFloat hw) :=
  half8.Fp16ToFloat_vector_loop_eq_map hw v v.length 0 _ (by omega) (by simp)
    (fun j hj => absurd hj (by omega))

theorem half8.FloatToFp16_vector_eq_map [Zero F] (hw : F16C F) (v : List F) :
    half8.FloatToFp16_vector hw v = v.map (half8.FloatToFp16 hw) :=
  half8.FloatToFp16_vector_loop_eq_map hw v v.length 0 _ (by omega) (by simp)
    (fun j hj => absurd hj (by omega))

theorem half8.ConvertFp16ToFp32_loop_apply (hw : F16C F) (aptr : Nat → Nat) (size : Nat) :
    ∀ (k i : Nat) (bptr : Nat → F), i + k = size → ∀ j,
      half8.ConvertFp16ToFp32.loop hw aptr size bptr i j
        = if i ≤ j ∧ j < size then half8.Fp16ToFloat hw (aptr j) else bptr j := by
  intro k
  induction k with
  | zero =>
    intro i bptr hi j
    rw [half8.ConvertFp16ToFp32.loop, if_neg (by omega), if_neg (by omega)]
  | succ k ih =>
    intro i bptr hi j
    rw [half8.ConvertFp16ToFp32.loop, if_pos (by omega), ih (i + 1) _ (by omega) j]
    by_cases hji : j = i
    · subst hji
      rw [if_neg (by omega), if_pos (by omega), Function.update_same]
    · rw [Function.update_noteq hji]
      by_cases h : i ≤ j ∧ j < size
      · rw [if_pos h, if_pos (by omega)]
      · rw [if_neg h, if_neg (by omega)]

/-- Claim C9: the bulk conversions apply the scalar conversion to each
element, in order: the bulk `FloatToFp16` and the bulk `Fp16ToFloat` of `v`
have the length of `v` and element `i` is the scalar conversion of `v[i]`,
and `ConvertFp16ToFp32(a, size, out)` leaves `Fp16ToFloat(a[i])` in `out[i]`
for every `i < size` and the rest of `out` as it was. The inputs are
arguments passed by value to pure functions and are not changed. -/
theorem bulk_conversions_elementwise [Zero F] (hw : F16C F) :
    (∀ v : List F,
      (half8.FloatToFp16_vector hw v).length = v.length ∧
      half8.FloatToFp16_vector hw v = v.map (half8.FloatToFp16 hw) ∧
      ∀ i : Nat, (half8.FloatToFp16_vector hw v)[i]? = v[i]?.map (half8.FloatToFp16 hw)) ∧
    (∀ v : List Nat,
      (half8.Fp16ToFloat_vector hw v).length = v.length ∧
      half8.Fp16ToFloat_vector hw v = v.map (half8.Fp16ToFloat hw) ∧
      ∀ i : Nat, (half8.Fp16ToFloat_vector hw v)[i]? = v[i]?.map (half8.Fp16ToFloat hw)) ∧
    (∀ (a : Nat → Nat) (size : Nat) (out : Nat → F) (i : Nat),
      half8.ConvertFp16ToFp32 hw a size out i
        = if i < size then half8.Fp16ToFloat hw (a i) else out i) := by
  refine ⟨fun v => ⟨?_, half8.FloatToFp16_vector_eq_map hw v, ?_⟩,
    fun v => ⟨?_, half8.Fp16ToFloat_vector_eq_map hw v, ?_⟩, fun a size out i => ?_⟩
  · rw [half8.FloatToFp16_vector_eq_map, List.length_map]
  · intro i
    rw [half8.FloatToFp16_vector_eq_map, List.getElem?_map]
  · rw [half8.Fp16ToFloat_vector_eq_map, List.length_map]
  · intro i
    rw [half8.Fp16ToFloat_vector_eq_map, List.getElem?_map]
  · rw [half8.ConvertFp16ToFp32, half8.ConvertFp16ToFp32_loop_apply hw a size size 0 out
      (by omega) i]
    simp

/-! ### The alternating data of `CreateData` -/

theorem alternating_succ_of_even (j : Nat) (h : j % 2 = 0) :
    alternating (j + 1) = alternating j := by
  unfold alternating
  split_ifs <;> first | rfl | omega

theorem alternating_add_two (j : Nat) :
    alternating (j + 2) = alternating j * -1 := by
  unfold alternating
  split_ifs <;> first | omega | norm_num

theorem alternating_add_four (j : Nat) : alternating (j + 4) = alternating j := by
  unfold alternating
  rw [Nat.add_mod_right]

theorem CreateData.loop_length (size : Nat) :
    ∀ (k : Nat) (v : List ℚ) (i : ℚ) (j : Nat), j + 2 * k = 2 * (size / 2) →
      (CreateData.loop size v i j).length = v.length := by
  intro k
  induction k with
  | zero =>
    intro v i j h
    rw [CreateData.loop, if_neg (by omega)]
  | succ k ih =>
    intro v i j h
    rw [CreateData.loop, if_pos (by omega), ih _ _ _ (by omega)]
    simp

theorem CreateData.loop_getD (size : Nat) :
    ∀ (k : Nat) (v : List ℚ) (i : ℚ) (j : Nat), j + 2 * k = 2 * (size / 2) →
      v.length = size → i = alternating j → j % 2 = 0 → ∀ x,
      (CreateData.loop size v i j).getD x 0
        = if j ≤ x ∧ x < 2 * (size / 2) then alternating x else v.getD x 0 := by
  intro k
  induction k with
  | zero =>
    intro v i j h hlen hi hj x
    rw [CreateData.loop, if_neg (by omega), if_neg (by omega)]
  | succ k ih =>
    intro v i j h hlen hi hj x
    rw [CreateData.loop, if_pos (by omega),
      ih _ _ _ (by omega) (by simp [hlen]) (by rw [alternating_add_two, hi]) (by omega) x]
    have hsz : 2 * (size / 2) ≤ size := by omega
    by_cases h1 : x = j
    · subst h1
      rw [if_neg (by omega), if_pos (by omega)]
      have hx : x < v.length := by omega
      simp [List.getD_eq_getElem?_getD, List.getElem?_set, hx, hi]
    · by_cases h2 : x = j + 1
      · subst h2
        rw [if_neg (by omega), if_pos (by omega)]
        have hx : j + 1 < v.length := by omega
        simp [List.getD_eq_getElem?_getD, List.getElem?_set, hx, hi,
          alternating_succ_of_even j hj]
      · have e : (((v.set j i).set (j + 1) i).getD x 0) = v.getD x 0 := by
          simp only [List.getD_eq_getElem?_getD]
          rw [List.getElem?_set_ne (by omega), List.getElem?_set_ne (by omega)]
        rw [e]
        by_cases h3 : j ≤ x ∧ x < 2 * (size / 2)
        · rw [if_pos h3, if_pos (by omega)]
        · rw [if_neg h3, if_neg (by omega)]

theorem CreateData_length (size : Nat) : (CreateData size : List ℚ).length = size := by
  rw [CreateData, CreateData.loop_length size (size / 2) _ _ _ (by omega)]
  simp

theorem CreateData_getD (size x : Nat) :
    (CreateData size : List ℚ).getD x 0
      = if x < 2 * (size / 2) then alternating x else 0 := by
  rw [CreateData, CreateData.loop_getD size (size / 2) _ _ _ (by omega) (by simp)
    (by simp [alternating]) (by simp) x]
  by_cases h : x < 2 * (size / 2)
  · rw [if_pos ⟨Nat.zero_le _, h⟩, if_pos h]
  · rw [if_neg (fun h' => h h'.2), if_neg h]
    simp only [List.getD_eq_getElem?_getD, List.getElem?_replicate]
    split <;> rfl

theorem sum_term_eq_sum_mul [Semiring F] (W n : Nat) (a b : Nat → F)
    (hblk : ∀ c, c < n / (2 * W) →
      ∑ l in Finset.range W, (a (2 * W * c + l) + b (2 * W * c + l))
        = ∑ l in Finset.range W, a (2 * W * c + l) * b (2 * W * c + l)) :
    ∑ x in Finset.range n, DotProduct.term W n a b x
      = ∑ x in Finset.range n, a x * b x := by
  have hE : 2 * W * (n / (2 * W)) ≤ n := Nat.mul_div_le n _
  have hsplit : ∀ g : Nat → F, ∑ i in Finset.range n, g i
      = ∑ i in Finset.range (2 * W * (n / (2 * W))), g i
        + ∑ r in Finset.range (n - 2 * W * (n / (2 * W))),
            g (2 * W * (n / (2 * W)) + r) := by
    intro g
    rw [← Finset.sum_range_add, Nat.add_sub_cancel' hE]
  rw [hsplit, hsplit fun x => a x * b x, sum_range_chunks, sum_range_chunks]
  congr 1
  · congr 1
    · rw [Finset.sum_comm, Finset.sum_comm (f := fun l c => a (2 * W * c + l) * b (2 * W * c + l))]
      refine Finset.sum_congr rfl fun c hc => ?_
      rw [← hblk c (Finset.mem_range.mp hc)]
      refine Finset.sum_congr rfl fun l hl => ?_
      rw [DotProduct.term_of_lt W n a b c l (Finset.mem_range.mp hc) (Finset.mem_range.mp hl)]
    · refine Finset.sum_congr rfl fun l hl => Finset.sum_congr rfl fun c _ => ?_
      rw [DotProduct.term_of_ge W n a b c l (Finset.mem_range.mp hl)]
  · refine Finset.sum_congr rfl fun r _ => ?_
    rw [DotProduct.term_of_end W n a b _ (by omega)]

theorem alternating_four_mul_add (m r : Nat) :
    alternating (4 * m + r) = alternating r := by
  unfold alternating
  rw [Nat.mul_add_mod]

theorem alternating_pred_four_mul_add (k r : Nat) :
    alternating_pred (4 * (k + 1) + r) = alternating (r + 3) := by
  have e : 4 * (k + 1) + r - 1 = 4 * k + (r + 3) := by omega
  rw [alternating_pred, if_neg (by omega), e, alternating_four_mul_add]

theorem alternating_block (m : Nat) :
    ∑ r in Finset.range 4, (alternating (4 * m + r) + alternating_pred (4 * m + r))
      = ∑ r in Finset.range 4, alternating (4 * m + r) * alternating_pred (4 * m + r) := by
  cases m with
  | zero =>
    simp [Finset.sum_range_succ, alternating, alternating_pred]
    norm_num
  | succ k =>
    simp only [alternating_four_mul_add, alternating_pred_four_mul_add]
    simp [Finset.sum_range_succ, alternating]
    norm_num

theorem alternating_chunk4 (c : Nat) :
    ∑ l in Finset.range 4,
        (alternating (2 * 4 * c + l) + alternating_pred (2 * 4 * c + l))
      = ∑ l in Finset.range 4,
        alternating (2 * 4 * c + l) * alternating_pred (2 * 4 * c + l) := by
  have e : 2 * 4 * c = 4 * (2 * c) := by omega
  rw [e]
  exact alternating_block (2 * c)

theorem alternating_chunk8 (c : Nat) :
    ∑ l in Finset.range 8,
        (alternating (2 * 8 * c + l) + alternating_pred (2 * 8 * c + l))
      = ∑ l in Finset.range 8,
        alternating (2 * 8 * c + l) * alternating_pred (2 * 8 * c + l) := by
  have e0 : 2 * 8 * c = 4 * (4 * c) := by omega
  have e1 : ∀ x, 4 * (4 * c) + (4 + x) = 4 * (4 * c + 1) + x := fun x => by omega
  rw [e0, Finset.sum_range_add _ 4 4, Finset.sum_range_add _ 4 4]
  simp only [e1]
  rw [alternating_block (4 * c), alternating_block (4 * c + 1)]

theorem alternating_mul_pred (n : Nat) :
    alternating n * alternating_pred n
      = if n = 0 then 0 else if n % 2 = 1 then 1 else -1 := by
  unfold alternating_pred alternating
  split_ifs <;> first | omega | norm_num

theorem sum_alternating_mul_pred (n : Nat) :
    ∑ x in Finset.range n, alternating x * alternating_pred x
      = if n % 2 = 0 ∧ n ≠ 0 then 1 else 0 := by
  induction n with
  | zero => simp
  | succ n ih =>
    rw [Finset.sum_range_succ, ih, alternating_mul_pred]
    split_ifs <;> first | omega | norm_num

theorem DotProduct.term_congr [Add F] [Mul F] (W n : Nat) (a b a2 b2 : Nat → F)
    (x : Nat) (ha : a x = a2 x) (hb : b x = b2 x) :
    DotProduct.term W n a b x = DotProduct.term W n a2 b2 x := by
  unfold DotProduct.term
  rw [ha, hb]

theorem data_ptr_CreateData (size x : Nat) (h : x < 2 * (size / 2)) :
    data_ptr 0 (CreateData size : List ℚ) x = alternating x := by
  rw [data_ptr, CreateData_getD, if_pos h]

theorem data_ptr_pred_CreateData (size x : Nat) (h : x ≤ 2 * (size / 2)) :
    data_ptr_pred 0 0 (CreateData size : List ℚ) x = alternating_pred x := by
  unfold data_ptr_pred alternating_pred
  by_cases hx : x = 0
  · rw [if_pos hx, if_pos hx]
  · rw [if_neg hx, if_neg hx, CreateData_getD, if_pos (by omega)]

theorem exp_dot_CreateData (size i : Nat) (h1 : 1 ≤ i) (h2 : i < 2 * (size / 2)) :
    TestDotProd.exp_dot (CreateData size) i = if i % 2 = 0 then 1 else 0 := by
  have e : (CreateData size : List ℚ).getD i 0 * (CreateData size : List ℚ).getD (i - 1) 0
      = if i % 2 = 1 then 1 else -1 := by
    rw [CreateData_getD, CreateData_getD, if_pos h2, if_pos (by omega)]
    have := alternating_mul_pred i
    rw [alternating_pred, if_neg (by omega), if_neg (by omega)] at this
    exact this
  rw [TestDotProd.exp_dot, e]
  rcases Nat.mod_two_eq_zero_or_one i with h | h
  · simp [h]
  · simp [h]
    norm_num

/-- On inputs that convert to the alternating pattern and to the pattern read
one position earlier, a lane type of width 4 or 8 returns 1 for an even
`n > 0` and 0 otherwise. -/
theorem DotProduct_alternating (X : LaneType T ℚ) (cvt : T → ℚ) (L : X.Lanes cvt)
    (hW : X.SIZE = 4 ∨ X.SIZE = 8) (a b : Nat → T) (n : Nat)
    (ha : ∀ x, x < n → cvt (a x) = alternating x)
    (hb : ∀ x, x < n → cvt (b x) = alternating_pred x) :
    DotProduct X a b n = if n % 2 = 0 ∧ n ≠ 0 then 1 else 0 := by
  rw [DotProduct_eq_sum_term X cvt L, ← sum_alternating_mul_pred]
  have e : ∀ x ∈ Finset.range n,
      DotProduct.term X.SIZE n (fun i => cvt (a i)) (fun i => cvt (b i)) x
      = DotProduct.term X.SIZE n alternating alternating_pred x := by
    intro x hx
    have hx' := Finset.mem_range.mp hx
    exact DotProduct.term_congr _ _ _ _ _ _ x (ha x hx') (hb x hx')
  rw [Finset.sum_congr rfl e]
  apply sum_term_eq_sum_mul
  intro c _
  rcases hW with h | h
  · rw [h]; exact alternating_chunk4 c
  · rw [h]; exact alternating_chunk8 c

/-- The alternating check in exact arithmetic, over the rationals and not in
float arithmetic: for even `size`, `CreateData(size)` holds `+1` at the indices
with `j mod 4` in {0, 1} and `-1` at the others, and for every `i` with
`1 ≤ i < size - 1` each of `naive::DotProduct`, `DotProduct<float4>` and
`DotProduct<float8>`, called as `f(data, data - 1, i)` with 0 read before the
start of `data`, is within 0.001 of `exp_dot`, which is 1 if
`data[i] * data[i-1] == -1` and 0 otherwise. With no rounding the bound on `i`
of `float32_alternating_check` is not needed. -/
theorem alternating_check_rat (size i : Nat) (hsize : size % 2 = 0)
    (h1 : 1 ≤ i) (h2 : i < size - 1) :
    (∀ j, j < size →
      (CreateData size : List ℚ).getD j 0 = if j % 4 < 2 then 1 else -1) ∧
    |naive.DotProduct (data_ptr 0 (CreateData size))
        (data_ptr_pred 0 0 (CreateData size)) i
      - TestDotProd.exp_dot (CreateData size) i| ≤ 1 / 1000 ∧
    |DotProduct float4.laneType (data_ptr 0 (CreateData size))
        (data_ptr_pred 0 0 (CreateData size)) i
      - TestDotProd.exp_dot (CreateData size) i| ≤ 1 / 1000 ∧
    |DotProduct float8.laneType (data_ptr 0 (CreateData size))
        (data_ptr_pred 0 0 (CreateData size)) i
      - TestDotProd.exp_dot (CreateData size) i| ≤ 1 / 1000 := by
  have hexp := exp_dot_CreateData size i h1 (by omega)
  have hval : (if i % 2 = 0 ∧ i ≠ 0 then (1 : ℚ) else 0) = if i % 2 = 0 then 1 else 0 := by
    by_cases h : i % 2 = 0
    · rw [if_pos ⟨h, by omega⟩, if_pos h]
    · rw [if_neg (fun h' => h h'.1), if_neg h]
  refine ⟨?_, ?_, ?_, ?_⟩
  · intro j hj
    rw [CreateData_getD, if_pos (by omega)]
    rfl
  · have e : naive.DotProduct (data_ptr 0 (CreateData size : List ℚ))
        (data_ptr_pred 0 0 (CreateData size)) i = if i % 2 = 0 ∧ i ≠ 0 then 1 else 0 := by
      rw [naive.DotProduct_eq_sum, ← sum_alternating_mul_pred]
      refine Finset.sum_congr rfl fun x hx => ?_
      have hx' := Finset.mem_range.mp hx
      rw [data_ptr_CreateData size x (by omega), data_ptr_pred_CreateData size x (by omega)]
    rw [e, hexp, hval, sub_self, abs_zero]
    norm_num
  · rw [DotProduct_alternating float4.laneType id float4.lanes (Or.inl rfl)
        (data_ptr 0 (CreateData size)) (data_ptr_pred 0 0 (CreateData size)) i
        (fun x hx => data_ptr_CreateData size x (by omega))
        (fun x hx => data_ptr_pred_CreateData size x (by omega)),
      hexp, hval, sub_self, abs_zero]
    norm_num
  · rw [DotProduct_alternating float8.laneType id float8.lanes (Or.inr rfl)
        (data_ptr 0 (CreateData size)) (data_ptr_pred 0 0 (CreateData size)) i
        (fun x hx => data_ptr_CreateData size x (by omega))
        (fun x hx => data_ptr_pred_CreateData size x (by omega)),
      hexp, hval, sub_self, abs_zero]
    norm_num

/-- The alternating check in exact arithmetic at `size = 40`, `i = 21`, where
both the double-wide loop and the scalar tail run. -/
theorem alternating_check_rat_at_40 :
    40 % 2 = 0 ∧ 1 ≤ 21 ∧ 21 < 40 - 1 ∧
    ((∀ j, j < 40 →
      (CreateData 40 : List ℚ).getD j 0 = if j % 4 < 2 then 1 else -1) ∧
    |naive.DotProduct (data_ptr 0 (CreateData 40))
        (data_ptr_pred 0 0 (CreateData 40)) 21
      - TestDotProd.exp_dot (CreateData 40) 21| ≤ 1 / 1000 ∧
    |DotProduct float4.laneType (data_ptr 0 (CreateData 40))
        (data_ptr_pred 0 0 (CreateData 40)) 21
      - TestDotProd.exp_dot (CreateData 40) 21| ≤ 1 / 1000 ∧
    |DotProduct float8.laneType (data_ptr 0 (CreateData 40))
        (data_ptr_pred 0 0 (CreateData 40)) 21
      - TestDotProd.exp_dot (CreateData 40) 21| ≤ 1 / 1000) :=
  ⟨by decide, by decide, by decide,
    alternating_check_rat 40 21 (by decide) (by decide) (by decide)⟩

/-! ### The compact 16-bit format -/

theorem compact16.roundEven_natCast (n : Nat) : compact16.roundEven (n : ℚ) = n := by
  unfold compact16.roundEven
  simp only [Nat.floor_natCast, sub_self]
  rw [if_pos (by norm_num)]

theorem compact16.encodeMag_subnormal (m : Nat) (hm : m < 1024) :
    compact16.encodeMag ((m : ℚ) / 2 ^ 24) = m := by
  have ht : (m : ℚ) / 2 ^ 24 * 2 ^ 24 = (m : ℚ) := by
    rw [div_mul_cancel₀]; positivity
  have hk : Nat.log 2 m - 10 = 0 := by
    rcases Nat.eq_zero_or_pos m with h0 | hpos
    · rw [h0, Nat.log_zero_right]
    · have : Nat.log 2 m < 10 := Nat.log_lt_of_lt_pow (by omega) (by norm_num; omega)
      omega
  unfold compact16.encodeMag
  simp only [ht, Nat.floor_natCast, hk, pow_zero, div_one, compact16.roundEven_natCast]
  omega

theorem compact16.encodeMag_normal (k m : Nat) (hk : k < 30) (hm : m < 1024) :
    compact16.encodeMag (((1024 + m : Nat) : ℚ) * 2 ^ k / 2 ^ 24)
      = (k + 1) * 1024 + m := by
  have ht : ((1024 + m : Nat) : ℚ) * 2 ^ k / 2 ^ 24 * 2 ^ 24
      = (((1024 + m) * 2 ^ k : Nat) : ℚ) := by
    rw [div_mul_cancel₀ _ (by positivity)]
    push_cast
    ring
  have hlog : Nat.log 2 ((1024 + m) * 2 ^ k) = 10 + k := by
    apply Nat.log_eq_of_pow_le_of_lt_pow
    · rw [pow_add]
      exact Nat.mul_le_mul_right _ (by norm_num)
    · rw [show 10 + k + 1 = 11 + k by omega, pow_add]
      exact Nat.mul_lt_mul_of_pos_right (by norm_num; omega) (by positivity)
  have hdiv : (((1024 + m) * 2 ^ k : Nat) : ℚ) / 2 ^ k = ((1024 + m : Nat) : ℚ) := by
    push_cast
    rw [mul_div_assoc, div_self (by positivity), mul_one]
  unfold compact16.encodeMag
  simp only [ht, Nat.floor_natCast, hlog, Nat.add_sub_cancel_left, hdiv,
    compact16.roundEven_natCast]
  omega

theorem compact16.value_of_lt (h : Nat) (hh : h < 31744) :
    ∃ x : ℚ, compact16.value h = some x ∧ 0 ≤ x ∧ compact16.encodeMag x = h ∧
      compact16.value (h + 32768) = some (-x) := by
  have hs : h / 32768 % 2 = 0 := by omega
  have hs' : (h + 32768) / 32768 % 2 = 1 := by omega
  have he' : (h + 32768) / 1024 % 32 = h / 1024 % 32 := by omega
  have hm' : (h + 32768) % 1024 = h % 1024 := by omega
  have he31 : h / 1024 % 32 ≠ 31 := by omega
  have hm : h % 1024 < 1024 := Nat.mod_lt _ (by norm_num)
  by_cases he0 : h / 1024 % 32 = 0
  · refine ⟨(h % 1024 : Nat) / 2 ^ 24, ?_, by positivity, ?_, ?_⟩
    · simp [compact16.value, hs, he0]
    · rw [compact16.encodeMag_subnormal _ hm]
      omega
    · simp [compact16.value, hs', he', hm', he0]
      intro hc
      omega
  · refine ⟨((1024 + h % 1024 : Nat) : ℚ) * 2 ^ (h / 1024 % 32 - 1) / 2 ^ 24, ?_,
      by positivity, ?_, ?_⟩
    · simp [compact16.value, hs, he0, he31]
    · rw [compact16.encodeMag_normal _ _ (by omega) hm]
      omega
    · simp [compact16.value, hs', he', hm', he0, he31]
      intro hc
      omega

theorem compact16.value_eq_none (h : Nat) (hlo : 31744 ≤ h) (hhi : h < 32768) :
    compact16.value h = none ∧ compact16.value (h + 32768) = none := by
  have he : h / 1024 % 32 = 31 := by omega
  have he' : (h + 32768) / 1024 % 32 = 31 := by omega
  simp [compact16.value, he, he']

theorem compact16.toFloat32_toCompact16 (x : ℚ) (hx : compact16.Representable x) :
    compact16.toFloat32 (compact16.toCompact16 x) = x := by
  obtain ⟨h, hh, hv⟩ := hx
  by_cases hsign : h < 32768
  · by_cases hfin : h < 31744
    · obtain ⟨y, hy, hy0, henc, _⟩ := compact16.value_of_lt h hfin
      have hxy : x = y := by rw [hy] at hv; exact (Option.some.inj hv).symm
      subst hxy
      rw [compact16.toCompact16, if_neg (not_lt.mpr hy0), henc, compact16.toFloat32, hy]
      rfl
    · rw [(compact16.value_eq_none h (by omega) hsign).1] at hv
      exact absurd hv (by simp)
  · obtain ⟨g, hg⟩ : ∃ g, h = g + 32768 := ⟨h - 32768, by omega⟩
    subst hg
    by_cases hfin : g < 31744
    · obtain ⟨y, hy, hy0, henc, hneg⟩ := compact16.value_of_lt g hfin
      have hxy : x = -y := by rw [hneg] at hv; exact (Option.some.inj hv).symm
      subst hxy
      rcases hy0.lt_or_eq with hpos | hzero
      · rw [compact16.toCompact16, if_pos (by linarith), neg_neg, henc, Nat.add_comm,
          compact16.toFloat32, hneg]
        rfl
      · rw [← hzero] at henc hy ⊢
        rw [neg_zero, compact16.toCompact16, if_neg (lt_irrefl 0), henc, compact16.toFloat32, hy]
        rfl
    · rw [(compact16.value_eq_none g (by omega) (by omega)).2] at hv
      exact absurd hv (by simp)

theorem half8.FloatToFp16_eq [Zero F] (hw : F16C F) (a : F) :
    half8.FloatToFp16 hw a = hw.cvtps_ph a := by
  simp [half8.FloatToFp16, half8.Store, half8.loadFloat]

/-- Claim C8: for every `x` that is the value of a 16-bit pattern of the
compact format (1 sign bit, 5 exponent bits, 10 mantissa bits),
`Fp16ToFloat(FloatToFp16(x)) == x`, with the two F16C conversions as the
specification describes them. -/
theorem Fp16ToFloat_FloatToFp16_of_representable (x : ℚ)
    (hx : compact16.Representable x) :
    half8.Fp16ToFloat compact16.hw (half8.FloatToFp16 compact16.hw x) = x := by
  rw [half8.FloatToFp16_eq, half8.Fp16ToFloat_eq]
  exact compact16.toFloat32_toCompact16 x hx

/-- Claim C8 at `x = -3/8`, the value of the pattern `0xB600 = 46592`. -/
theorem Fp16ToFloat_FloatToFp16_witness :
    compact16.Representable (-3 / 8) ∧
    half8.Fp16ToFloat compact16.hw (half8.FloatToFp16 compact16.hw (-3 / 8)) = -3 / 8 :=
  have hr : compact16.Representable (-3 / 8) :=
    ⟨46592, by norm_num, by norm_num [compact16.value]⟩
  ⟨hr, Fp16ToFloat_FloatToFp16_of_representable (-3 / 8) hr⟩

/-! ### The half-precision check -/

theorem half_data_getD (hw : F16C ℚ) (size x : Nat) (hx : x < size) :
    (half8.FloatToFp16_vector hw (CreateData size)).getD x 0
      = hw.cvtps_ph ((CreateData size : List ℚ).getD x 0) := by
  have hlen : x < (CreateData size : List ℚ).length := by rw [CreateData_length]; exact hx
  rw [half8.FloatToFp16_vector_eq_map]
  simp [List.getD_eq_getElem?_getD, List.getElem?_map, List.getElem?_eq_getElem hlen,
    half8.FloatToFp16_eq]

theorem cvt_alternating (hw : F16C ℚ) (hone : hw.cvtph_ps (hw.cvtps_ph 1) = 1)
    (hneg : hw.cvtph_ps (hw.cvtps_ph (-1)) = -1) (x : Nat) :
    hw.cvtph_ps (hw.cvtps_ph (alternating x)) = alternating x := by
  unfold alternating
  split_ifs
  · exact hone
  · exact hneg

/-- The check of `TestDotProdF16` on the converted alternating data, in exact
arithmetic, for any conversions that are exact at 1, -1 and 0. -/
theorem half_check_of_exact (hw : F16C ℚ)
    (hone : hw.cvtph_ps (hw.cvtps_ph 1) = 1)
    (hneg : hw.cvtph_ps (hw.cvtps_ph (-1)) = -1)
    (hzero : hw.cvtph_ps (hw.cvtps_ph 0) = 0)
    (size i : Nat) (h1 : 1 ≤ i) (h2 : i < size - 1) :
    |DotProduct (half8.laneType hw)
        (data_ptr 0 (half8.FloatToFp16_vector hw (CreateData size)))
        (data_ptr_pred 0 (half8.FloatToFp16 hw 0)
          (half8.FloatToFp16_vector hw (CreateData size))) i
      - TestDotProdF16.exp_dot hw (half8.FloatToFp16_vector hw (CreateData size)) i|
      ≤ 1 / 1000 := by
  have hA : ∀ x, x < size - 1 →
      hw.cvtph_ps ((half8.FloatToFp16_vector hw (CreateData size)).getD x 0)
        = alternating x := by
    intro x hx
    rw [half_data_getD hw size x (by omega), CreateData_getD, if_pos (by omega),
      cvt_alternating hw hone hneg]
  have hdot := DotProduct_alternating (half8.laneType hw) hw.cvtph_ps (half8.lanes hw)
    (Or.inr rfl) (data_ptr 0 (half8.FloatToFp16_vector hw (CreateData size)))
    (data_ptr_pred 0 (half8.FloatToFp16 hw 0)
      (half8.FloatToFp16_vector hw (CreateData size))) i
    (fun x hx => hA x (by omega))
    (fun x hx => by
      unfold data_ptr_pred alternating_pred
      by_cases hx0 : x = 0
      · rw [if_pos hx0, if_pos hx0, half8.FloatToFp16_eq, hzero]
      · rw [if_neg hx0, if_neg hx0, hA (x - 1) (by omega)])
  have hexp : TestDotProdF16.exp_dot hw (half8.FloatToFp16_vector hw (CreateData size)) i
      = if i % 2 = 0 then 1 else 0 := by
    have e : half8.MultiplyOne hw
        ((half8.FloatToFp16_vector hw (CreateData size)).getD i 0)
        ((half8.FloatToFp16_vector hw (CreateData size)).getD (i - 1) 0)
        = if i % 2 = 1 then 1 else -1 := by
      rw [half8.MultiplyOne, half8.Fp16ToFloat_eq, half8.Fp16ToFloat_eq, hA i h2,
        hA (i - 1) (by omega)]
      have := alternating_mul_pred i
      rw [alternating_pred, if_neg (by omega), if_neg (by omega)] at this
      exact this
    rw [TestDotProdF16.exp_dot, e]
    rcases Nat.mod_two_eq_zero_or_one i with h | h
    · simp [h]
    · simp [h]
      norm_num
  have hval : (if i % 2 = 0 ∧ i ≠ 0 then (1 : ℚ) else 0) = if i % 2 = 0 then 1 else 0 := by
    by_cases h : i % 2 = 0
    · rw [if_pos ⟨h, by omega⟩, if_pos h]
    · rw [if_neg (fun h' => h h'.1), if_neg h]
  rw [hdot, hexp, hval, sub_self, abs_zero]
  norm_num

theorem compact16.representable_one : compact16.Representable 1 :=
  ⟨15360, by norm_num, by norm_num [compact16.value]⟩

theorem compact16.representable_neg_one : compact16.Representable (-1) :=
  ⟨48128, by norm_num, by norm_num [compact16.value]⟩

theorem compact16.representable_zero : compact16.Representable 0 :=
  ⟨0, by norm_num, by norm_num [compact16.value]⟩

theorem compact16.hw_exact :
    compact16.hw.cvtph_ps (compact16.hw.cvtps_ph 1) = 1 ∧
    compact16.hw.cvtph_ps (compact16.hw.cvtps_ph (-1)) = -1 ∧
    compact16.hw.cvtph_ps (compact16.hw.cvtps_ph 0) = 0 := by
  simp only [compact16.hw]
  exact ⟨compact16.toFloat32_toCompact16 1 compact16.representable_one,
    compact16.toFloat32_toCompact16 (-1) compact16.representable_neg_one,
    compact16.toFloat32_toCompact16 0 compact16.representable_zero⟩

/-- The half-precision check in exact arithmetic, over the rationals and not
in float arithmetic: with `half_data = half8::FloatToFp16(CreateData(size))` for
even `size`, the 16-bit element before the start of `half_data` taken to be
`FloatToFp16(0)`, and every `i` with `1 ≤ i < size - 1`,
`DotProduct<half8>(half_data, half_data - 1, i)` is within 0.001 of `exp_dot`,
which is 1 if `half8::MultiplyOne(half_data[i], half_data[i-1]) == -1` and 0
otherwise. This holds with the F16C conversions as the specification
describes them, and with any conversions that are exact at 1, -1 and 0. With no
rounding the bound on `i` of `half32_alternating_check` is not needed. -/
theorem alternating_check_half_rat (size i : Nat) (_hsize : size % 2 = 0)
    (h1 : 1 ≤ i) (h2 : i < size - 1) :
    |DotProduct (half8.laneType compact16.hw)
        (data_ptr 0 (half8.FloatToFp16_vector compact16.hw (CreateData size)))
        (data_ptr_pred 0 (half8.FloatToFp16 compact16.hw 0)
          (half8.FloatToFp16_vector compact16.hw (CreateData size))) i
      - TestDotProdF16.exp_dot compact16.hw
          (half8.FloatToFp16_vector compact16.hw (CreateData size)) i| ≤ 1 / 1000 ∧
    ∀ hw : F16C ℚ, hw.cvtph_ps (hw.cvtps_ph 1) = 1 →
      hw.cvtph_ps (hw.cvtps_ph (-1)) = -1 → hw.cvtph_ps (hw.cvtps_ph 0) = 0 →
      |DotProduct (half8.laneType hw)
          (data_ptr 0 (half8.FloatToFp16_vector hw (CreateData size)))
          (data_ptr_pred 0 (half8.FloatToFp16 hw 0)
            (half8.FloatToFp16_vector hw (CreateData size))) i
        - TestDotProdF16.exp_dot hw (half8.FloatToFp16_vector hw (CreateData size)) i|
        ≤ 1 / 1000 :=
  ⟨half_check_of_exact compact16.hw compact16.hw_exact.1
      compact16.hw_exact.2.1 compact16.hw_exact.2.2 size i h1 h2,
    fun hw hone hneg hzero => half_check_of_exact hw hone hneg hzero size i h1 h2⟩

/-- The half-precision check in exact arithmetic at `size = 40`, `i = 22`,
where the double-wide loop, the single-wide step and the scalar tail all run. -/
theorem alternating_check_half_rat_at_40 :
    40 % 2 = 0 ∧ 1 ≤ 22 ∧ 22 < 40 - 1 ∧
    |DotProduct (half8.laneType compact16.hw)
        (data_ptr 0 (half8.FloatToFp16_vector compact16.hw (CreateData 40)))
        (data_ptr_pred 0 (half8.FloatToFp16 compact16.hw 0)
          (half8.FloatToFp16_vector compact16.hw (CreateData 40))) 22
      - TestDotProdF16.exp_dot compact16.hw
          (half8.FloatToFp16_vector compact16.hw (CreateData 40)) 22| ≤ 1 / 1000 :=
  ⟨by decide, by decide, by decide,
    (alternating_check_half_rat 40 22 (by decide) (by decide) (by decide)).1⟩

/-! ### Conversion of zero and of sequences -/

theorem compact16.toCompact16_zero : compact16.toCompact16 0 = 0 := by
  have h := compact16.encodeMag_subnormal 0 (by norm_num)
  simp only [Nat.cast_zero, zero_div] at h
  rw [compact16.toCompact16, if_neg (lt_irrefl 0), h]

/-- Claim C11: `FloatToFp16(0.0)` is the 16-bit value 0, and converting a
sequence of values representable in the compact format to 16 bits and back
returns the sequence, with the two F16C conversions as the specification
describes them. -/
theorem FloatToFp16_zero_and_sequence_round_trip :
    half8.FloatToFp16 compact16.hw 0 = 0 ∧
    ∀ v : List ℚ, (∀ x ∈ v, compact16.Representable x) →
      half8.Fp16ToFloat_vector compact16.hw (half8.FloatToFp16_vector compact16.hw v)
        = v := by
  refine ⟨?_, ?_⟩
  · rw [half8.FloatToFp16_eq]
    simp only [compact16.hw]
    exact compact16.toCompact16_zero
  · intro v hv
    rw [half8.FloatToFp16_vector_eq_map, half8.Fp16ToFloat_vector_eq_map, List.map_map]
    conv_rhs => rw [← List.map_id v]
    refine List.map_congr_left fun x hx => ?_
    simp only [Function.comp_apply, half8.FloatToFp16_eq, half8.Fp16ToFloat_eq, id_eq]
    simp only [compact16.hw]
    exact compact16.toFloat32_toCompact16 x (hv x hx)

/-- Claim C11 at the sequence `1, -1, 0, 1/2`. -/
theorem sequence_round_trip_witness :
    (∀ x ∈ [(1 : ℚ), -1, 0, 1 / 2], compact16.Representable x) ∧
    half8.Fp16ToFloat_vector compact16.hw
        (half8.FloatToFp16_vector compact16.hw [1, -1, 0, 1 / 2])
      = [1, -1, 0, 1 / 2] :=
  have hv : ∀ x ∈ [(1 : ℚ), -1, 0, 1 / 2], compact16.Representable x := by
    intro x hx
    simp only [List.mem_cons, List.mem_singleton, List.not_mem_nil, or_false] at hx
    rcases hx with h | h | h | h
    · rw [h]; exact compact16.representable_one
    · rw [h]; exact compact16.representable_neg_one
    · rw [h]; exact compact16.representable_zero
    · rw [h]; exact ⟨14336, by norm_num, by norm_num [compact16.value]⟩
  ⟨hv, FloatToFp16_zero_and_sequence_round_trip.2 _ hv⟩

/-! ### The accumulators and the exact value of `DotProduct` -/

/-- Claim C12, evaluated on the code: with every `a[i] = 3`, every `b[i] = 5`
and `n = 8`, when the double-wide loop of `DotProduct<float4>` exits after its
one chunk each lane of `acc0` holds `3 + 5 = 8`, where the claim says the
product 15; each lane of `acc1` holds the product 15, as the claim says. -/
theorem loop2_acc0_holds_sums (l : Fin 4) :
    ((DotProduct.loop2 (float4.laneType (F := ℚ)) (fun _ => 3) (fun _ => 5)
        (2 * 4 * (8 / (2 * 4)))
        { aptr := 0, bptr := 0, acc0 := float4.zero, acc1 := float4.zero }).acc0
      : float4 ℚ).xmm l = 8 ∧
    ∑ k in Finset.range (8 / (2 * 4)),
      (fun _ => (3 : ℚ)) (2 * 4 * k + l.val) * (fun _ => (5 : ℚ)) (2 * 4 * k + l.val) = 15 ∧
    ((DotProduct.loop2 (float4.laneType (F := ℚ)) (fun _ => 3) (fun _ => 5)
        (2 * 4 * (8 / (2 * 4)))
        { aptr := 0, bptr := 0, acc0 := float4.zero, acc1 := float4.zero }).acc1
      : float4 ℚ).xmm l = 15 := by
  refine ⟨?_, ?_, ?_⟩
  · simp [DotProduct.loop2, float4.laneType, float4.SIZE, float4.add, float4.mul,
      float4.load, float4.zero]
    norm_num
  · simp
    norm_num
  · simp [DotProduct.loop2, float4.laneType, float4.SIZE, float4.add, float4.mul,
      float4.load, float4.zero]
    norm_num

theorem DotProduct_eq_first_half_sums (X : LaneType T ℚ) (cvt : T → ℚ)
    (L : X.Lanes cvt) (a b : Nat → T) (n : Nat) :
    DotProduct X a b n
      = ∑ i in (Finset.range n).filter
            (fun i => i < 2 * X.SIZE * (n / (2 * X.SIZE)) ∧ i % (2 * X.SIZE) < X.SIZE),
          (cvt (a i) + cvt (b i))
        + ∑ i in (Finset.range n).filter
            (fun i => ¬ (i < 2 * X.SIZE * (n / (2 * X.SIZE)) ∧ i % (2 * X.SIZE) < X.SIZE)),
          cvt (a i) * cvt (b i) := by
  rw [DotProduct_eq_sum_term X cvt L, ← Finset.sum_ite]
  rfl

theorem DotProduct_sub_sum_products (X : LaneType T ℚ) (cvt : T → ℚ)
    (L : X.Lanes cvt) (a b : Nat → T) (n : Nat) :
    DotProduct X a b n - ∑ i in Finset.range n, cvt (a i) * cvt (b i)
      = ∑ i in (Finset.range n).filter
            (fun i => i < 2 * X.SIZE * (n / (2 * X.SIZE)) ∧ i % (2 * X.SIZE) < X.SIZE),
          (cvt (a i) + cvt (b i) - cvt (a i) * cvt (b i)) := by
  rw [DotProduct_eq_sum_term X cvt L, ← Finset.sum_sub_distrib, Finset.sum_filter]
  refine Finset.sum_congr rfl fun i _ => ?_
  unfold DotProduct.term
  split_ifs
  · rfl
  · exact sub_self _

/-- Claim C16: over the rationals `DotProduct<floatX>(a, b, n)` with
`W = floatX::SIZE` equals `S1 + S2`, where `S1` is the sum of `a[i] + b[i]`
over the indices `i < 2W * (n / 2W)` with `i mod 2W < W` and `S2` the sum of
`a[i] * b[i]` over the other indices below `n`; it differs from the sum of all
products by the sum of `a[i] + b[i] - a[i] * b[i]` over the indices of `S1`.
Stated for `float4` (`W = 4`), `float8` (`W = 8`) and, on the converted
elements, for `half8` (`W = 8`). -/
theorem DotProduct_exact_value (hw : F16C ℚ) (a b : Nat → ℚ) (ah bh : Nat → Nat)
    (n : Nat) :
    (DotProduct float4.laneType a b n
      = ∑ i in (Finset.range n).filter
            (fun i => i < 2 * 4 * (n / (2 * 4)) ∧ i % (2 * 4) < 4), (a i + b i)
        + ∑ i in (Finset.range n).filter
            (fun i => ¬ (i < 2 * 4 * (n / (2 * 4)) ∧ i % (2 * 4) < 4)), a i * b i) ∧
    (DotProduct float4.laneType a b n - ∑ i in Finset.range n, a i * b i
      = ∑ i in (Finset.range n).filter
            (fun i => i < 2 * 4 * (n / (2 * 4)) ∧ i % (2 * 4) < 4),
          (a i + b i - a i * b i)) ∧
    (DotProduct float8.laneType a b n
      = ∑ i in (Finset.range n).filter
            (fun i => i < 2 * 8 * (n / (2 * 8)) ∧ i % (2 * 8) < 8), (a i + b i)
        + ∑ i in (Finset.range n).filter
            (fun i => ¬ (i < 2 * 8 * (n / (2 * 8)) ∧ i % (2 * 8) < 8)), a i * b i) ∧
    (DotProduct float8.laneType a b n - ∑ i in Finset.range n, a i * b i
      = ∑ i in (Finset.range n).filter
            (fun i => i < 2 * 8 * (n / (2 * 8)) ∧ i % (2 * 8) < 8),
          (a i + b i - a i * b i)) ∧
    (DotProduct (half8.laneType hw) ah bh n
      = ∑ i in (Finset.range n).filter
            (fun i => i < 2 * 8 * (n / (2 * 8)) ∧ i % (2 * 8) < 8),
          (half8.Fp16ToFloat hw (ah i) + half8.Fp16ToFloat hw (bh i))
        + ∑ i in (Finset.range n).filter
            (fun i => ¬ (i < 2 * 8 * (n / (2 * 8)) ∧ i % (2 * 8) < 8)),
          half8.Fp16ToFloat hw (ah i) * half8.Fp16ToFloat hw (bh i)) :=
  ⟨DotProduct_eq_first_half_sums float4.laneType id float4.lanes a b n,
   DotProduct_sub_sum_products float4.laneType id float4.lanes a b n,
   DotProduct_eq_first_half_sums float8.laneType id float8.lanes a b n,
   DotProduct_sub_sum_products float8.laneType id float8.lanes a b n,
   DotProduct_eq_first_half_sums (half8.laneType hw) hw.cvtph_ps (half8.lanes hw) ah bh n⟩

theorem DotProduct.tail_eq_foldl [Add F] (X : LaneType T F) (a b : Nat → T)
    (data_end : Nat) : ∀ (k aptr bptr : Nat) (dot : F), aptr + k = data_end →
      DotProduct.tail X a b data_end aptr bptr dot
        = List.foldl (fun acc i => acc + X.MultiplyOne (a (aptr + i)) (b (bptr + i)))
            dot (List.range k) := by
  intro k
  induction k with
  | zero =>
    intro aptr bptr dot h
    rw [DotProduct.tail, if_neg (by omega)]
    rfl
  | succ k ih =>
    intro aptr bptr dot h
    rw [DotProduct.tail, if_pos (by omega), ih (aptr + 1) (bptr + 1) _ (by omega),
      List.range_succ_eq_map, List.foldl_cons, List.foldl_map]
    simp only [Nat.add_zero, Nat.succ_eq_add_one]
    congr 1
    funext acc i
    rw [Nat.add_assoc, Nat.add_assoc, Nat.add_comm 1 i]

theorem DotProduct_of_lt_two_SIZE (X : LaneType T ℚ) (cvt : T → ℚ) (L : X.Lanes cvt)
    (a b : Nat → T) (n : Nat) (hn : n < 2 * X.SIZE) :
    DotProduct X a b n = ∑ i in Finset.range n, cvt (a i) * cvt (b i) := by
  rw [DotProduct_eq_sum_term X cvt L]
  refine Finset.sum_congr rfl fun i _ => ?_
  rw [DotProduct.term_of_end _ _ _ _ i (by rw [Nat.div_eq_of_lt hn]; omega)]

theorem DotProduct_float4_of_lt_SIZE [AddZeroClass F] [Mul F] (a b : Nat → F) (n : Nat)
    (hn : n < 4) :
    DotProduct float4.laneType a b n
      = List.foldl (fun acc i => acc + a i * b i) 0 (List.range n) := by
  have h8 : n / (2 * 4) = 0 := Nat.div_eq_of_lt (by omega)
  have h4 : n / 4 = 0 := Nat.div_eq_of_lt hn
  unfold DotProduct
  simp only [float4.laneType, float4.SIZE, h8, h4, Nat.mul_zero, Nat.zero_add]
  rw [DotProduct.loop2, if_neg (by simp)]
  simp only [lt_irrefl, if_false]
  rw [DotProduct.tail_eq_foldl _ a b n n 0 0 _ (by omega)]
  simp [float4.add, float4.zero, float4.Sum, float4.MultiplyOne]

theorem DotProduct_float8_of_lt_SIZE [AddZeroClass F] [Mul F] (a b : Nat → F) (n : Nat)
    (hn : n < 8) :
    DotProduct float8.laneType a b n
      = List.foldl (fun acc i => acc + a i * b i) 0 (List.range n) := by
  have h8 : n / (2 * 8) = 0 := Nat.div_eq_of_lt (by omega)
  have h4 : n / 8 = 0 := Nat.div_eq_of_lt hn
  unfold DotProduct
  simp only [float8.laneType, float8.SIZE, h8, h4, Nat.mul_zero, Nat.zero_add]
  rw [DotProduct.loop2, if_neg (by simp)]
  simp only [lt_irrefl, if_false]
  rw [DotProduct.tail_eq_foldl _ a b n n 0 0 _ (by omega)]
  simp [float8.add, float8.zero, float8.Sum, float8.MultiplyOne]

/-- Claim C17: for `n < 2 * SIZE` the double-wide loop does not run and
`DotProduct<float4>` and `DotProduct<float8>` return the sum of `a[i] * b[i]`
over `i < n` (over the rationals); for `n < SIZE` they return what
`naive::DotProduct` returns, the left-to-right fold from 0 that adds
`a[i] * b[i]` for `i = 0, ..., n-1`, for any scalars with `0 + x = x`. -/
theorem DotProduct_short_input :
    (∀ (a b : Nat → ℚ) (n : Nat), n < 2 * float4.SIZE →
      DotProduct float4.laneType a b n = ∑ i in Finset.range n, a i * b i) ∧
    (∀ (a b : Nat → ℚ) (n : Nat), n < 2 * float8.SIZE →
      DotProduct float8.laneType a b n = ∑ i in Finset.range n, a i * b i) ∧
    (∀ (G : Type) [AddZeroClass G] [Mul G] (a b : Nat → G) (n : Nat), n < float4.SIZE →
      DotProduct float4.laneType a b n = naive.DotProduct a b n ∧
      DotProduct float4.laneType a b n
        = List.foldl (fun acc i => acc + a i * b i) 0 (List.range n)) ∧
    (∀ (G : Type) [AddZeroClass G] [Mul G] (a b : Nat → G) (n : Nat), n < float8.SIZE →
      DotProduct float8.laneType a b n = naive.DotProduct a b n ∧
      DotProduct float8.laneType a b n
        = List.foldl (fun acc i => acc + a i * b i) 0 (List.range n)) := by
  refine ⟨fun a b n hn => ?_, fun a b n hn => ?_, fun G _ _ a b n hn => ⟨?_, ?_⟩,
    fun G _ _ a b n hn => ⟨?_, ?_⟩⟩
  · exact DotProduct_of_lt_two_SIZE float4.laneType id float4.lanes a b n hn
  · exact DotProduct_of_lt_two_SIZE float8.laneType id float8.lanes a b n hn
  · rw [DotProduct_float4_of_lt_SIZE a b n hn, naive.DotProduct_eq_foldl]
  · exact DotProduct_float4_of_lt_SIZE a b n hn
  · rw [DotProduct_float8_of_lt_SIZE a b n hn, naive.DotProduct_eq_foldl]
  · exact DotProduct_float8_of_lt_SIZE a b n hn

/-- Claim C17 at `n = 7` and `n = 15` for the sums and at `n = 3` and `n = 7`
for the agreement with `naive::DotProduct`, on `a[i] = i`, `b[i] = i + 1`. -/
theorem DotProduct_short_input_witness :
    (7 < 2 * float4.SIZE ∧
      DotProduct float4.laneType (fun i => (i : ℚ)) (fun i => (i : ℚ) + 1) 7
        = ∑ i in Finset.range 7, (i : ℚ) * ((i : ℚ) + 1)) ∧
    (15 < 2 * float8.SIZE ∧
      DotProduct float8.laneType (fun i => (i : ℚ)) (fun i => (i : ℚ) + 1) 15
        = ∑ i in Finset.range 15, (i : ℚ) * ((i : ℚ) + 1)) ∧
    (3 < float4.SIZE ∧
      DotProduct float4.laneType (fun i => (i : ℚ)) (fun i => (i : ℚ) + 1) 3
        = naive.DotProduct (fun i => (i : ℚ)) (fun i => (i : ℚ) + 1) 3) ∧
    (7 < float8.SIZE ∧
      DotProduct float8.laneType (fun i => (i : ℚ)) (fun i => (i : ℚ) + 1) 7
        = naive.DotProduct (fun i => (i : ℚ)) (fun i => (i : ℚ) + 1) 7) :=
  ⟨⟨by decide, DotProduct_short_input.1 _ _ 7 (by decide)⟩,
   ⟨by decide, DotProduct_short_input.2.1 _ _ 15 (by decide)⟩,
   ⟨by decide, (DotProduct_short_input.2.2.1 ℚ _ _ 3 (by decide)).1⟩,
   ⟨by decide, (DotProduct_short_input.2.2.2 ℚ _ _ 7 (by decide)).1⟩⟩

/-! ### The three tiers of `DotProduct` -/

theorem DotProduct.step2_iterate_ptr (X : LaneType T F) (a b : Nat → T)
    (s : DotProduct.State X.Reg) : ∀ k : Nat,
      ((DotProduct.step2 X a b)^[k] s).aptr = s.aptr + 2 * X.SIZE * k ∧
      ((DotProduct.step2 X a b)^[k] s).bptr = s.bptr + 2 * X.SIZE * k := by
  intro k
  induction k generalizing s with
  | zero => simp
  | succ k ih =>
    rw [Function.iterate_succ_apply]
    obtain ⟨h1, h2⟩ := ih (DotProduct.step2 X a b s)
    rw [h1, h2]
    simp only [DotProduct.step2]
    constructor <;> ring

theorem DotProduct.loop2_eq_iterate (X : LaneType T F) (a b : Nat → T) (q : Nat) :
    ∀ (k j : Nat) (s : DotProduct.State X.Reg), j + k = q →
      s.aptr = 2 * X.SIZE * j →
      DotProduct.loop2 X a b (2 * X.SIZE * q) s = (DotProduct.step2 X a b)^[k] s := by
  intro k
  induction k with
  | zero =>
    intro j s hq ha
    have hj : j = q := by omega
    subst hj
    rw [DotProduct.loop2, if_neg (by omega)]
    rfl
  | succ k ih =>
    intro j s hq ha
    have hpos := X.SIZE_pos
    have hlt : s.aptr < 2 * X.SIZE * q := by
      rw [ha]
      exact (Nat.mul_lt_mul_left (by omega : 0 < 2 * X.SIZE)).mpr (by omega)
    rw [DotProduct.loop2, if_pos hlt, Function.iterate_succ_apply]
    exact ih (j + 1) (DotProduct.step2 X a b s) (by omega)
      (show s.aptr + 2 * X.SIZE = 2 * X.SIZE * (j + 1) by rw [ha, Nat.mul_add, Nat.mul_one])

theorem mod_SIZE_eq (W n : Nat) (hW : 0 < W) :
    n % W = if W ≤ n % (2 * W) then n % (2 * W) - W else n % (2 * W) := by
  have h1 : n % (2 * W) % W = n % W := Nat.mod_mod_of_dvd n ⟨2, by ring⟩
  have h2 : n % (2 * W) < 2 * W := Nat.mod_lt _ (by omega)
  rw [← h1]
  split_ifs with h
  · rw [Nat.mod_eq_sub_mod h, Nat.mod_eq_of_lt (by omega)]
  · rw [Nat.mod_eq_of_lt (by omega)]

theorem loop_end_lt_iff_mod (W n : Nat) (hW : 0 < W) :
    2 * W * (n / (2 * W)) < W * (n / W) ↔ W ≤ n % (2 * W) := by
  rw [loop_end_lt_iff W n hW]
  have := Nat.div_add_mod n (2 * W)
  omega

theorem bind_chunks_eq_range (W : Nat) : ∀ q : Nat,
    (List.range q).flatMap
        (fun k => List.range' (2 * W * k) W ++ List.range' (2 * W * k + W) W)
      = List.range (2 * W * q) := by
  intro q
  induction q with
  | zero => simp
  | succ q ih =>
    rw [List.range_succ, List.flatMap_append, ih, List.flatMap_singleton,
      List.range_eq_range', List.range_eq_range', List.range'_append_1]
    have e : List.range' (2 * W * q) (W + W) = List.range' (0 + 2 * W * q) (W + W) := by
      rw [Nat.zero_add]
    rw [e, List.range'_append_1]
    congr 1
    ring

theorem DotProduct_eq_tiers [Add F] (X : LaneType T F) (a b : Nat → T) (n : Nat) :
    DotProduct X a b n
      = List.foldl (fun dot i => dot + X.MultiplyOne (a i) (b i))
          (X.Sum
            (if X.SIZE ≤ n % (2 * X.SIZE) then
              X.add
                (X.add
                  ((DotProduct.step2 X a b)^[n / (2 * X.SIZE)]
                    { aptr := 0, bptr := 0, acc0 := X.zero, acc1 := X.zero }).acc0
                  ((DotProduct.step2 X a b)^[n / (2 * X.SIZE)]
                    { aptr := 0, bptr := 0, acc0 := X.zero, acc1 := X.zero }).acc1)
                (X.mul (X.load a (2 * X.SIZE * (n / (2 * X.SIZE))))
                  (X.load b (2 * X.SIZE * (n / (2 * X.SIZE)))))
            else
              X.add
                ((DotProduct.step2 X a b)^[n / (2 * X.SIZE)]
                  { aptr := 0, bptr := 0, acc0 := X.zero, acc1 := X.zero }).acc0
                ((DotProduct.step2 X a b)^[n / (2 * X.SIZE)]
                  { aptr := 0, bptr := 0, acc0 := X.zero, acc1 := X.zero }).acc1))
          (List.range' (n - n % X.SIZE) (n % X.SIZE)) := by
  have hpos := X.SIZE_pos
  have hdm := Nat.div_add_mod n (2 * X.SIZE)
  have hmod := mod_SIZE_eq X.SIZE n hpos
  have hcond := loop_end_lt_iff_mod X.SIZE n hpos
  obtain ⟨hp1, hp2⟩ := DotProduct.step2_iterate_ptr X a b
    { aptr := 0, bptr := 0, acc0 := X.zero, acc1 := X.zero } (n / (2 * X.SIZE))
  simp only [Nat.zero_add] at hp1 hp2
  unfold DotProduct
  simp only [Nat.zero_add]
  rw [DotProduct.loop2_eq_iterate X a b (n / (2 * X.SIZE)) (n / (2 * X.SIZE)) 0 _
    (by omega) (by simp), hp1, hp2]
  by_cases h : X.SIZE ≤ n % (2 * X.SIZE)
  · rw [if_pos h] at hmod
    have hc : n - n % X.SIZE = 2 * X.SIZE * (n / (2 * X.SIZE)) + X.SIZE := by omega
    have hr : n % X.SIZE = n - (2 * X.SIZE * (n / (2 * X.SIZE)) + X.SIZE) := by omega
    simp only [if_pos (hcond.mpr h), if_pos h]
    rw [DotProduct.tail_eq_foldl X a b n (n - (2 * X.SIZE * (n / (2 * X.SIZE)) + X.SIZE))
      _ _ _ (by omega), hc, hr, List.range'_eq_map_range, List.foldl_map]
  · rw [if_neg h] at hmod
    have hc : n - n % X.SIZE = 2 * X.SIZE * (n / (2 * X.SIZE)) := by omega
    have hr : n % X.SIZE = n - 2 * X.SIZE * (n / (2 * X.SIZE)) := by omega
    simp only [if_neg (fun h' => h (hcond.mp h')), if_neg h]
    rw [DotProduct.tail_eq_foldl X a b n (n - 2 * X.SIZE * (n / (2 * X.SIZE)))
      _ _ _ (by omega), hc, hr, List.range'_eq_map_range, List.foldl_map]

theorem tiers_indices_eq_range (W n : Nat) (hW : 0 < W) :
    (List.range (n / (2 * W))).flatMap
        (fun k => List.range' (2 * W * k) W ++ List.range' (2 * W * k + W) W)
      ++ (if W ≤ n % (2 * W) then List.range' (2 * W * (n / (2 * W))) W else [])
      ++ List.range' (n - n % W) (n % W)
      = List.range n := by
  have hdm := Nat.div_add_mod n (2 * W)
  have hmod := mod_SIZE_eq W n hW
  have e0 : ∀ m, List.range' (2 * W * (n / (2 * W))) m
      = List.range' (0 + 2 * W * (n / (2 * W))) m := fun m => by rw [Nat.zero_add]
  rw [bind_chunks_eq_range, List.range_eq_range', List.range_eq_range']
  by_cases h : W ≤ n % (2 * W)
  · rw [if_pos h] at hmod
    have hc : n - n % W = 0 + (W + 2 * W * (n / (2 * W))) := by omega
    rw [if_pos h, e0, List.range'_append_1, hc, List.range'_append_1]
    congr 1
    omega
  · rw [if_neg h] at hmod
    have hc : n - n % W = 0 + 2 * W * (n / (2 * W)) := by omega
    rw [if_neg h, List.append_nil, hc, List.range'_append_1]
    congr 1
    omega

/-- Claim C13: with `W = floatX::SIZE` the three tiers of
`DotProduct<floatX>(a, b, n)` partition the indices below `n`. The double-wide
loop is `n / 2W` passes through its body, pass `k` starting with both pointers
at `2W * k`, where it loads `W` elements at `2W * k` and `W` at `2W * k + W`;
the single-wide step runs exactly when `n mod 2W ≥ W` and loads the `W`
elements at `2W * (n / 2W)`; the scalar tail adds
`MultiplyOne(a[i], b[i])` for the `n mod W < W` indices from `n - n mod W` to
`n - 1` in increasing order. The indices of the three tiers, one after the
other, are `0, 1, ..., n-1`: none twice, none skipped. A load of `float4`,
`float8` or `half8` at offset `i` reads the elements `i, ..., i + SIZE - 1`. -/
theorem DotProduct_tiers_partition [Add F] (X : LaneType T F) (a b : Nat → T)
    (n : Nat) :
    DotProduct.loop2 X a b (2 * X.SIZE * (n / (2 * X.SIZE)))
        { aptr := 0, bptr := 0, acc0 := X.zero, acc1 := X.zero }
      = (DotProduct.step2 X a b)^[n / (2 * X.SIZE)]
          { aptr := 0, bptr := 0, acc0 := X.zero, acc1 := X.zero } ∧
    (∀ k : Nat,
      ((DotProduct.step2 X a b)^[k]
        { aptr := 0, bptr := 0, acc0 := X.zero, acc1 := X.zero }).aptr = 2 * X.SIZE * k ∧
      ((DotProduct.step2 X a b)^[k]
        { aptr := 0, bptr := 0, acc0 := X.zero, acc1 := X.zero }).bptr = 2 * X.SIZE * k) ∧
    (2 * X.SIZE * (n / (2 * X.SIZE)) < X.SIZE * (n / X.SIZE)
      ↔ X.SIZE ≤ n % (2 * X.SIZE)) ∧
    DotProduct X a b n
      = List.foldl (fun dot i => dot + X.MultiplyOne (a i) (b i))
          (X.Sum
            (if X.SIZE ≤ n % (2 * X.SIZE) then
              X.add
                (X.add
                  ((DotProduct.step2 X a b)^[n / (2 * X.SIZE)]
                    { aptr := 0, bptr := 0, acc0 := X.zero, acc1 := X.zero }).acc0
                  ((DotProduct.step2 X a b)^[n / (2 * X.SIZE)]
                    { aptr := 0, bptr := 0, acc0 := X.zero, acc1 := X.zero }).acc1)
                (X.mul (X.load a (2 * X.SIZE * (n / (2 * X.SIZE))))
                  (X.load b (2 * X.SIZE * (n / (2 * X.SIZE)))))
            else
              X.add
                ((DotProduct.step2 X a b)^[n / (2 * X.SIZE)]
                  { aptr := 0, bptr := 0, acc0 := X.zero, acc1 := X.zero }).acc0
                ((DotProduct.step2 X a b)^[n / (2 * X.SIZE)]
                  { aptr := 0, bptr := 0, acc0 := X.zero, acc1 := X.zero }).acc1))
          (List.range' (n - n % X.SIZE) (n % X.SIZE)) ∧
    n % X.SIZE < X.SIZE ∧
    (List.range (n / (2 * X.SIZE))).flatMap
        (fun k => List.range' (2 * X.SIZE * k) X.SIZE
          ++ List.range' (2 * X.SIZE * k + X.SIZE) X.SIZE)
      ++ (if X.SIZE ≤ n % (2 * X.SIZE) then
            List.range' (2 * X.SIZE * (n / (2 * X.SIZE))) X.SIZE else [])
      ++ List.range' (n - n % X.SIZE) (n % X.SIZE)
      = List.range n ∧
    (∀ (p : Nat → F) (i : Nat) (l : Fin 4), (float4.load p i).xmm l = p (i + l.val)) ∧
    (∀ (p : Nat → F) (i : Nat) (l : Fin 8), (float8.load p i).xmm l = p (i + l.val)) ∧
    (∀ (hw : F16C F) (p : Nat → Nat) (i : Nat) (l : Fin 8),
      (half8.load hw p i).xmm l = hw.cvtph_ps (p (i + l.val))) := by
  refine ⟨?_, fun k => ?_, loop_end_lt_iff_mod X.SIZE n X.SIZE_pos,
    DotProduct_eq_tiers X a b n, Nat.mod_lt _ X.SIZE_pos,
    tiers_indices_eq_range X.SIZE n X.SIZE_pos, fun _ _ _ => rfl, fun _ _ _ => rfl,
    fun _ _ _ _ => rfl⟩
  · exact DotProduct.loop2_eq_iterate X a b (n / (2 * X.SIZE)) (n / (2 * X.SIZE)) 0 _
      (by omega) (by simp)
  · have h := DotProduct.step2_iterate_ptr X a b
      { aptr := 0, bptr := 0, acc0 := X.zero, acc1 := X.zero } k
    simpa using h

/-! ### Instances of the template compared -/

theorem foldl_map_of_add {G : Type} [Add F] [Add G] (f : F → G)
    (hadd : ∀ u v, f (u + v) = f u + f v) (g : Nat → F) (g2 : Nat → G) :
    ∀ (l : List Nat) (d : F), (∀ i ∈ l, f (g i) = g2 i) →
      f (List.foldl (fun dot i => dot + g i) d l)
        = List.foldl (fun dot i => dot + g2 i) (f d) l := by
  intro l
  induction l with
  | nil => intro d _; rfl
  | cons i l ih =>
    intro d h
    rw [List.foldl_cons, List.foldl_cons, ih _ (fun j hj => h j (List.mem_cons_of_mem _ hj)),
      hadd, h i (List.mem_cons_self _ _)]

/-- Two instances of the template, on lane types of the same width, return
related results when their lane operations preserve a relation `R` between
registers and the map `f` between scalars; the loads need to be related only
where a whole lane vector, or one element, lies below `n`. -/
theorem DotProduct_sim {U G : Type} [Add F] [Add G] (X : LaneType T F)
    (Y : LaneType U G) (f : F → G) (R : X.Reg → Y.Reg → Prop)
    (a b : Nat → T) (a2 b2 : Nat → U) (n : Nat)
    (hsize : X.SIZE = Y.SIZE)
    (hzero : R X.zero Y.zero)
    (hacc : ∀ x y u v, R x y → R u v → R (X.add x u) (Y.add y v))
    (hsum : ∀ i, i + X.SIZE ≤ n →
      R (X.add (X.load a i) (X.load b i)) (Y.add (Y.load a2 i) (Y.load b2 i)))
    (hmul : ∀ i, i + X.SIZE ≤ n →
      R (X.mul (X.load a i) (X.load b i)) (Y.mul (Y.load a2 i) (Y.load b2 i)))
    (hSum : ∀ x y, R x y → f (X.Sum x) = Y.Sum y)
    (hone : ∀ i, i < n → f (X.MultiplyOne (a i) (b i)) = Y.MultiplyOne (a2 i) (b2 i))
    (hadd : ∀ u v, f (u + v) = f u + f v) :
    f (DotProduct X a b n) = DotProduct Y a2 b2 n := by
  have hpos := X.SIZE_pos
  have hdm := Nat.div_add_mod n (2 * X.SIZE)
  -- the states of the two double-wide loops after `k` passes are related
  have hiter : ∀ k, k ≤ n / (2 * X.SIZE) →
      R ((DotProduct.step2 X a b)^[k]
          { aptr := 0, bptr := 0, acc0 := X.zero, acc1 := X.zero }).acc0
        ((DotProduct.step2 Y a2 b2)^[k]
          { aptr := 0, bptr := 0, acc0 := Y.zero, acc1 := Y.zero }).acc0 ∧
      R ((DotProduct.step2 X a b)^[k]
          { aptr := 0, bptr := 0, acc0 := X.zero, acc1 := X.zero }).acc1
        ((DotProduct.step2 Y a2 b2)^[k]
          { aptr := 0, bptr := 0, acc0 := Y.zero, acc1 := Y.zero }).acc1 := by
    intro k
    induction k with
    | zero => intro _; exact ⟨hzero, hzero⟩
    | succ k ih =>
      intro hk
      obtain ⟨r0, r1⟩ := ih (by omega)
      obtain ⟨px1, px2⟩ := DotProduct.step2_iterate_ptr X a b
        { aptr := 0, bptr := 0, acc0 := X.zero, acc1 := X.zero } k
      obtain ⟨py1, py2⟩ := DotProduct.step2_iterate_ptr Y a2 b2
        { aptr := 0, bptr := 0, acc0 := Y.zero, acc1 := Y.zero } k
      simp only [Nat.zero_add] at px1 px2 py1 py2
      have hle : 2 * X.SIZE * (k + 1) ≤ 2 * X.SIZE * (n / (2 * X.SIZE)) :=
        Nat.mul_le_mul_left _ hk
      rw [Nat.mul_add, Nat.mul_one] at hle
      rw [Function.iterate_succ_apply', Function.iterate_succ_apply']
      simp only [DotProduct.step2, px1, px2, py1, py2, ← hsize]
      exact ⟨hacc _ _ _ _ r0 (hsum _ (by omega)), hacc _ _ _ _ r1 (hmul _ (by omega))⟩
  obtain ⟨r0, r1⟩ := hiter (n / (2 * X.SIZE)) (Nat.le_refl _)
  rw [DotProduct_eq_tiers X a b n, DotProduct_eq_tiers Y a2 b2 n, ← hsize,
    foldl_map_of_add f hadd (fun i => X.MultiplyOne (a i) (b i))
      (fun i => Y.MultiplyOne (a2 i) (b2 i)) _ _
      (fun i hi => hone i (by
        have := List.mem_range'_1.mp hi
        have := Nat.mod_le n X.SIZE
        omega))]
  congr 1
  by_cases h : X.SIZE ≤ n % (2 * X.SIZE)
  · rw [if_pos h, if_pos h]
    exact hSum _ _ (hacc _ _ _ _ (hacc _ _ _ _ r0 r1) (hmul _ (by omega)))
  · rw [if_neg h, if_neg h]
    exact hSum _ _ (hacc _ _ _ _ r0 r1)

/-- Claim C15: the half-precision kernel is the 8-lane float kernel on the
converted inputs: `DotProduct<half8>(a, b, n)` equals
`DotProduct<float8>(Fp16ToFloat(a), Fp16ToFloat(b), n)` with `Fp16ToFloat`
applied to each element, for any conversions and any scalars; a `half8` load
converts each lane by the function the scalar `Fp16ToFloat` applies, and
`MultiplyOne(x, y)` is `Fp16ToFloat(x) * Fp16ToFloat(y)`. -/
theorem DotProduct_half8_eq_float8 [Zero F] [Add F] [Mul F] (hw : F16C F)
    (a b : Nat → Nat) (n : Nat) :
    DotProduct (half8.laneType hw) a b n
      = DotProduct float8.laneType (fun i => half8.Fp16ToFloat hw (a i))
          (fun i => half8.Fp16ToFloat hw (b i)) n ∧
    (∀ (p : Nat → Nat) (i : Nat) (l : Fin 8),
      (half8.load hw p i).xmm l = half8.Fp16ToFloat hw (p (i + l.val))) ∧
    (∀ x y : Nat,
      half8.MultiplyOne hw x y = half8.Fp16ToFloat hw x * half8.Fp16ToFloat hw y) := by
  refine ⟨?_, fun _ _ _ => rfl, fun _ _ => rfl⟩
  exact DotProduct_sim (half8.laneType hw) float8.laneType id
    (fun (x : half8 F) (y : float8 F) => x.xmm = y.xmm) a b
    (fun i => half8.Fp16ToFloat hw (a i)) (fun i => half8.Fp16ToFloat hw (b i)) n
    rfl rfl
    (fun x y u v (h1 : x.xmm = y.xmm) (h2 : u.xmm = v.xmm) => by
      show (half8.add x u).xmm = (float8.add y v).xmm
      simp only [half8.add, float8.add, h1, h2])
    (fun _ _ => rfl)
    (fun _ _ => rfl)
    (fun x y (h : x.xmm = y.xmm) => by
      show half8.Sum x = float8.Sum y
      simp only [half8.Sum, float8.Sum, h])
    (fun _ _ => rfl)
    (fun _ _ => rfl)

theorem naive.DotProduct_comm [Zero F] [Add F] [Mul F]
    (hmul : ∀ x y : F, x * y = y * x) (a b : Nat → F) (n : Nat) :
    naive.DotProduct a b n = naive.DotProduct b a n := by
  rw [naive.DotProduct_eq_foldl, naive.DotProduct_eq_foldl]
  congr 1
  funext acc i
  rw [hmul]

/-- Claim C18: `DotProduct<float4>`, `DotProduct<float8>` and
`naive::DotProduct` return the same value when their two buffers are
exchanged, given only that the addition and the multiplication of the scalars
are commutative. -/
theorem DotProduct_symmetric [Zero F] [Add F] [Mul F]
    (hadd : ∀ x y : F, x + y = y + x) (hmul : ∀ x y : F, x * y = y * x)
    (a b : Nat → F) (n : Nat) :
    DotProduct float4.laneType a b n = DotProduct float4.laneType b a n ∧
    DotProduct float8.laneType a b n = DotProduct float8.laneType b a n ∧
    naive.DotProduct a b n = naive.DotProduct b a n := by
  refine ⟨?_, ?_, naive.DotProduct_comm hmul a b n⟩
  · exact DotProduct_sim float4.laneType float4.laneType id Eq a b b a n rfl rfl
      (fun x y u v h1 h2 => by rw [h1, h2])
      (fun i _ => by
        show float4.add (float4.load a i) (float4.load b i)
          = float4.add (float4.load b i) (float4.load a i)
        simp only [float4.add, float4.load]
        congr 1
        funext l
        exact hadd _ _)
      (fun i _ => by
        show float4.mul (float4.load a i) (float4.load b i)
          = float4.mul (float4.load b i) (float4.load a i)
        simp only [float4.mul, float4.load]
        congr 1
        funext l
        exact hmul _ _)
      (fun x y h => by rw [h]; rfl)
      (fun i _ => hmul _ _)
      (fun _ _ => rfl)
  · exact DotProduct_sim float8.laneType float8.laneType id Eq a b b a n rfl rfl
      (fun x y u v h1 h2 => by rw [h1, h2])
      (fun i _ => by
        show float8.add (float8.load a i) (float8.load b i)
          = float8.add (float8.load b i) (float8.load a i)
        simp only [float8.add, float8.load]
        congr 1
        funext l
        exact hadd _ _)
      (fun i _ => by
        show float8.mul (float8.load a i) (float8.load b i)
          = float8.mul (float8.load b i) (float8.load a i)
        simp only [float8.mul, float8.load]
        congr 1
        funext l
        exact hmul _ _)
      (fun x y h => by rw [h]; rfl)
      (fun i _ => hmul _ _)
      (fun _ _ => rfl)

/-- Claim C18 over the rationals at `a[i] = i`, `b[i] = 2 i + 1`, `n = 21`. -/
theorem DotProduct_symmetric_witness :
    (∀ x y : ℚ, x + y = y + x) ∧ (∀ x y : ℚ, x * y = y * x) ∧
    DotProduct float4.laneType (fun i => (i : ℚ)) (fun i => 2 * (i : ℚ) + 1) 21
      = DotProduct float4.laneType (fun i => 2 * (i : ℚ) + 1) (fun i => (i : ℚ)) 21 ∧
    DotProduct float8.laneType (fun i => (i : ℚ)) (fun i => 2 * (i : ℚ) + 1) 21
      = DotProduct float8.laneType (fun i => 2 * (i : ℚ) + 1) (fun i => (i : ℚ)) 21 ∧
    naive.DotProduct (fun i => (i : ℚ)) (fun i => 2 * (i : ℚ) + 1) 21
      = naive.DotProduct (fun i => 2 * (i : ℚ) + 1) (fun i => (i : ℚ)) 21 :=
  ⟨add_comm, mul_comm, DotProduct_symmetric add_comm mul_comm _ _ 21⟩

/-! ### Reads stay within the buffers -/

theorem checked_ptr_of_lt [Zero F] (data : List F) (j : Nat) (h : j < data.length) :
    checked_ptr data j = Checked.ok (data_ptr 0 data j) := by
  simp [checked_ptr, Checked.ok, data_ptr, List.getD_eq_getElem?_getD,
    List.getElem?_eq_getElem h]

theorem checked_ptr_of_ge (data : List F) (j : Nat) (h : data.length ≤ j) :
    checked_ptr data j = Checked.oob := by
  simp [checked_ptr, Checked.oob, List.getElem?_eq_none h]

theorem DotProduct_float4_checked [Zero F] [Add F] [Mul F] (a b : List F) (n : Nat)
    (ha : n ≤ a.length) (hb : n ≤ b.length) :
    DotProduct float4.laneType (checked_ptr a) (checked_ptr b) n
      = Checked.ok (DotProduct float4.laneType (data_ptr 0 a) (data_ptr 0 b) n) := by
  symm
  exact DotProduct_sim (G := Checked F) float4.laneType float4.laneType Checked.ok
    (fun (x : float4 F) (y : float4 (Checked F)) => ∀ l, y.xmm l = Checked.ok (x.xmm l))
    (data_ptr 0 a) (data_ptr 0 b) (checked_ptr a) (checked_ptr b) n rfl
    (fun _ => rfl)
    (fun x y u v h1 h2 l => by
      show y.xmm l + v.xmm l = _
      rw [h1 l, h2 l]; rfl)
    (fun i (hi : i + 4 ≤ n) l => by
      show checked_ptr a (i + l.val) + checked_ptr b (i + l.val) = _
      rw [checked_ptr_of_lt a _ (by omega), checked_ptr_of_lt b _ (by omega)]; rfl)
    (fun i (hi : i + 4 ≤ n) l => by
      show checked_ptr a (i + l.val) * checked_ptr b (i + l.val) = _
      rw [checked_ptr_of_lt a _ (by omega), checked_ptr_of_lt b _ (by omega)]; rfl)
    (fun x y h => by
      show _ = y.xmm 0 + y.xmm 1 + y.xmm 2 + y.xmm 3
      rw [h 0, h 1, h 2, h 3]; rfl)
    (fun i hi => by
      show _ = checked_ptr a i * checked_ptr b i
      rw [checked_ptr_of_lt a _ (by omega), checked_ptr_of_lt b _ (by omega)]; rfl)
    (fun _ _ => rfl)

theorem DotProduct_float8_checked [Zero F] [Add F] [Mul F] (a b : List F) (n : Nat)
    (ha : n ≤ a.length) (hb : n ≤ b.length) :
    DotProduct float8.laneType (checked_ptr a) (checked_ptr b) n
      = Checked.ok (DotProduct float8.laneType (data_ptr 0 a) (data_ptr 0 b) n) := by
  symm
  exact DotProduct_sim (G := Checked F) float8.laneType float8.laneType Checked.ok
    (fun (x : float8 F) (y : float8 (Checked F)) => ∀ l, y.xmm l = Checked.ok (x.xmm l))
    (data_ptr 0 a) (data_ptr 0 b) (checked_ptr a) (checked_ptr b) n rfl
    (fun _ => rfl)
    (fun x y u v h1 h2 l => by
      show y.xmm l + v.xmm l = _
      rw [h1 l, h2 l]; rfl)
    (fun i (hi : i + 8 ≤ n) l => by
      show checked_ptr a (i + l.val) + checked_ptr b (i + l.val) = _
      rw [checked_ptr_of_lt a _ (by omega), checked_ptr_of_lt b _ (by omega)]; rfl)
    (fun i (hi : i + 8 ≤ n) l => by
      show checked_ptr a (i + l.val) * checked_ptr b (i + l.val) = _
      rw [checked_ptr_of_lt a _ (by omega), checked_ptr_of_lt b _ (by omega)]; rfl)
    (fun x y h => by
      show _ = y.xmm 0 + y.xmm 1 + y.xmm 2 + y.xmm 3 + y.xmm 4 + y.xmm 5 + y.xmm 6 + y.xmm 7
      rw [h 0, h 1, h 2, h 3, h 4, h 5, h 6, h 7]; rfl)
    (fun i hi => by
      show _ = checked_ptr a i * checked_ptr b i
      rw [checked_ptr_of_lt a _ (by omega), checked_ptr_of_lt b _ (by omega)]; rfl)
    (fun _ _ => rfl)

theorem Checked.ok_ne_oob (x : F) : Checked.ok x ≠ Checked.oob := by
  simp [Checked.ok, Checked.oob]

/-- The checked reads do detect an overrun: asking `DotProduct<float4>` for 4
elements of a buffer that holds 3 gives the out-of-bounds result. -/
theorem DotProduct_checked_detects_overrun :
    DotProduct float4.laneType (checked_ptr [(1 : ℚ), 2, 3])
      (checked_ptr [(1 : ℚ), 2, 3, 4]) 4 = Checked.oob := by
  have h3 : checked_ptr [(1 : ℚ), 2, 3] 3 = Checked.oob :=
    checked_ptr_of_ge _ 3 (by simp)
  have hr : ∀ x : Checked ℚ, x + (Checked.oob : Checked ℚ) = Checked.oob := fun x => by
    cases x <;> rfl
  have hm : ∀ x : Checked ℚ, (Checked.oob : Checked ℚ) * x = Checked.oob := fun x => rfl
  have e : ((3 : Fin 4) : Nat) = 3 := rfl
  simp [DotProduct, DotProduct.loop2, DotProduct.tail, float4.laneType, float4.SIZE,
    float4.add, float4.mul, float4.load, float4.zero, float4.Sum]
  rw [e, h3, hm, hr, hr]

/-- Claim C14: when `a` and `b` hold at least `n` elements,
`DotProduct<float4>` and `DotProduct<float8>` read no element outside the
buffers. With every read bounds-checked (`a[i]?`, the out-of-bounds result
propagating through the arithmetic) the functions return a value, the one the
unchecked functions return, and not the out-of-bounds result. For `W = 4` and
`W = 8`: the loads of pass `k < n / 2W` of the double-wide loop start at
`p = 2W k` and `p = 2W k + W` with `p + W ≤ n`, the load of the single-wide
step, taken when `n mod 2W ≥ W`, starts at `p = 2W (n / 2W)` with
`p + W ≤ n`, and the tail reads the indices from `n - n mod W`, all below
`n`. -/
theorem DotProduct_reads_in_bounds [Zero F] [Add F] [Mul F] (a b : List F) (n : Nat)
    (ha : n ≤ a.length) (hb : n ≤ b.length) :
    DotProduct float4.laneType (checked_ptr a) (checked_ptr b) n
      = Checked.ok (DotProduct float4.laneType (data_ptr 0 a) (data_ptr 0 b) n) ∧
    DotProduct float4.laneType (checked_ptr a) (checked_ptr b) n ≠ Checked.oob ∧
    DotProduct float8.laneType (checked_ptr a) (checked_ptr b) n
      = Checked.ok (DotProduct float8.laneType (data_ptr 0 a) (data_ptr 0 b) n) ∧
    DotProduct float8.laneType (checked_ptr a) (checked_ptr b) n ≠ Checked.oob ∧
    (∀ k, k < n / (2 * 4) → 2 * 4 * k + 4 ≤ n ∧ (2 * 4 * k + 4) + 4 ≤ n) ∧
    (4 ≤ n % (2 * 4) → 2 * 4 * (n / (2 * 4)) + 4 ≤ n) ∧
    (∀ i ∈ List.range' (n - n % 4) (n % 4), i < n) ∧
    (∀ k, k < n / (2 * 8) → 2 * 8 * k + 8 ≤ n ∧ (2 * 8 * k + 8) + 8 ≤ n) ∧
    (8 ≤ n % (2 * 8) → 2 * 8 * (n / (2 * 8)) + 8 ≤ n) ∧
    (∀ i ∈ List.range' (n - n % 8) (n % 8), i < n) := by
  refine ⟨DotProduct_float4_checked a b n ha hb, ?_, DotProduct_float8_checked a b n ha hb,
    ?_, fun k hk => by omega, fun h => by omega, fun i hi => ?_, fun k hk => by omega,
    fun h => by omega, fun i hi => ?_⟩
  · rw [DotProduct_float4_checked a b n ha hb]
    exact Checked.ok_ne_oob _
  · rw [DotProduct_float8_checked a b n ha hb]
    exact Checked.ok_ne_oob _
  · have := List.mem_range'_1.mp hi
    omega
  · have := List.mem_range'_1.mp hi
    omega

/-- Claim C14 on two buffers of 13 rationals with `n = 13`. -/
theorem DotProduct_reads_in_bounds_witness :
    13 ≤ [(1 : ℚ), 2, 3, 4, 5, 6, 7, 8, 9, 10, 11, 12, 13].length ∧
    13 ≤ [(2 : ℚ), 2, 2, 2, 2, 2, 2, 2, 2, 2, 2, 2, 2].length ∧
    DotProduct float4.laneType
        (checked_ptr [(1 : ℚ), 2, 3, 4, 5, 6, 7, 8, 9, 10, 11, 12, 13])
        (checked_ptr [(2 : ℚ), 2, 2, 2, 2, 2, 2, 2, 2, 2, 2, 2, 2]) 13 ≠ Checked.oob ∧
    DotProduct float8.laneType
        (checked_ptr [(1 : ℚ), 2, 3, 4, 5, 6, 7, 8, 9, 10, 11, 12, 13])
        (checked_ptr [(2 : ℚ), 2, 2, 2, 2, 2, 2, 2, 2, 2, 2, 2, 2]) 13 ≠ Checked.oob :=
  ⟨by decide, by decide,
    (DotProduct_reads_in_bounds _ _ 13 (by decide) (by decide)).2.1,
    (DotProduct_reads_in_bounds _ _ 13 (by decide) (by decide)).2.2.2.1⟩

/-! ### Float arithmetic -/

theorem binary32.round_natCast_eq (n m : Nat) (hn : n ≠ 0) (hm : Nat.log 2 n = m) :
    binary32.round (n : ℚ)
      = (compact16.roundEven ((n : ℚ) / 2 ^ ((m : ℤ) - 23)) : ℚ) * 2 ^ ((m : ℤ) - 23) := by
  have hpos : (0 : ℚ) < n := by exact_mod_cast Nat.pos_of_ne_zero hn
  unfold binary32.round
  rw [if_neg (ne_of_gt hpos), abs_of_pos hpos, Int.log_natCast, hm]
  simp only [if_neg (not_lt.mpr (le_of_lt hpos))]

theorem binary32.round_natCast_of_le (n : Nat) (h : n ≤ 2 ^ 24) :
    binary32.round (n : ℚ) = n := by
  rcases Nat.eq_zero_or_pos n with h0 | hpos
  · subst h0
    simp [binary32.round]
  have hn : n ≠ 0 := by omega
  have hlog : Nat.log 2 n ≤ 24 := by
    have := Nat.log_mono_right (b := 2) h
    rwa [Nat.log_pow (by norm_num)] at this
  rw [binary32.round_natCast_eq n _ hn rfl]
  rcases Nat.lt_or_ge (Nat.log 2 n) 24 with hlt | hge
  · obtain ⟨d, hd⟩ : ∃ d : Nat, Nat.log 2 n + d = 23 := ⟨23 - Nat.log 2 n, by omega⟩
    have he : ((Nat.log 2 n : ℕ) : ℤ) - 23 = -(d : ℤ) := by omega
    have h2 : (n : ℚ) / ((2 : ℚ) ^ d)⁻¹ = ((n * 2 ^ d : Nat) : ℚ) := by
      push_cast
      rw [div_inv_eq_mul]
    rw [he, zpow_neg, zpow_natCast, h2, compact16.roundEven_natCast]
    push_cast
    rw [mul_assoc, mul_inv_cancel₀ (by positivity), mul_one]
  · have h24 : Nat.log 2 n = 24 := by omega
    have hle : 2 ^ 24 ≤ n := by
      have := Nat.pow_log_le_self 2 hn
      rwa [h24] at this
    have hn' : n = 2 ^ 24 := by omega
    have h2 : ((n : ℚ)) / 2 = ((2 ^ 23 : Nat) : ℚ) := by
      rw [hn']
      norm_num
    rw [h24]
    norm_num
    rw [h2, compact16.roundEven_natCast, hn']
    norm_num

theorem binary32.round_neg (x : ℚ) : binary32.round (-x) = -binary32.round x := by
  unfold binary32.round
  by_cases h0 : x = 0
  · simp [h0]
  · rcases lt_or_gt_of_ne h0 with hneg | hpos
    · have h1 : ¬ (-x = 0) := by simpa using h0
      have h2 : ¬ (-x < 0) := by linarith
      simp only [if_neg h0, if_neg h1, if_neg h2, if_pos hneg, abs_neg, neg_neg]
    · have h1 : ¬ (-x = 0) := by simpa using h0
      have h2 : -x < 0 := by linarith
      have h3 : ¬ (x < 0) := by linarith
      simp only [if_neg h0, if_neg h1, if_pos h2, if_neg h3, abs_neg]

theorem binary32.round_intCast_of_le (z : ℤ) (h : |z| ≤ 2 ^ 24) :
    binary32.round (z : ℚ) = z := by
  rcases le_or_lt 0 z with hz | hz
  · obtain ⟨n, rfl⟩ := Int.eq_ofNat_of_zero_le hz
    have hn : n ≤ 2 ^ 24 := by
      rw [abs_of_nonneg hz] at h
      exact_mod_cast h
    simpa using binary32.round_natCast_of_le n hn
  · obtain ⟨n, hn⟩ := Int.eq_ofNat_of_zero_le (show 0 ≤ -z by omega)
    have hzn : z = -(n : ℤ) := by omega
    have hle : n ≤ 2 ^ 24 := by
      rw [abs_of_neg hz, hn] at h
      exact_mod_cast h
    rw [hzn]
    push_cast
    rw [binary32.round_neg, binary32.round_natCast_of_le n hle]

theorem binary32.round_16777218 : binary32.round 16777218 = 16777218 := by
  have h := binary32.round_natCast_eq 16777218 24 (by norm_num)
    (Nat.log_eq_of_pow_le_of_lt_pow (by norm_num) (by norm_num))
  norm_num at h
  rw [h]
  have h3 := compact16.roundEven_natCast 8388609
  simp only [Nat.cast_ofNat] at h3
  rw [h3]
  norm_num

theorem binary32.round_16777219 : binary32.round 16777219 = 16777220 := by
  have h := binary32.round_natCast_eq 16777219 24 (by norm_num)
    (Nat.log_eq_of_pow_le_of_lt_pow (by norm_num) (by norm_num))
  norm_num at h
  rw [h]
  have hf : ⌊(16777219 : ℚ) / 2⌋₊ = 8388609 := by
    have := Nat.floor_div_eq_div (α := ℚ) 16777219 2
    norm_num at this
    exact this
  have hr : compact16.roundEven ((16777219 : ℚ) / 2) = 8388610 := by
    unfold compact16.roundEven
    simp only [hf]
    norm_num
  rw [hr]
  norm_num

theorem binary32.Tracks_add {p q : ℚ × ℕ} {x y : binary32}
    (hx : binary32.Tracks p x) (hy : binary32.Tracks q y) :
    binary32.Tracks (p + q) (x + y) := by
  obtain ⟨⟨zp, hzp⟩, hp, hxv⟩ := hx
  obtain ⟨⟨zq, hzq⟩, hq, hyv⟩ := hy
  have habs : |p.1 + q.1| ≤ ((p.2 + q.2 : Nat) : ℚ) := by
    push_cast
    exact (abs_add _ _).trans (add_le_add hp hq)
  refine ⟨⟨zp + zq, by simp [hzp, hzq]⟩, habs, fun hle => ?_⟩
  have hle' : p.2 + q.2 ≤ 2 ^ 24 := hle
  show binary32.round (x.val + y.val) = p.1 + q.1
  rw [hxv (by omega), hyv (by omega), hzp, hzq, ← Int.cast_add]
  apply binary32.round_intCast_of_le
  have h1 : |((zp + zq : ℤ) : ℚ)| ≤ ((2 ^ 24 : ℕ) : ℚ) := by
    rw [Int.cast_add, ← hzp, ← hzq]
    exact habs.trans (by exact_mod_cast hle')
  exact_mod_cast h1

theorem binary32.Tracks_mul {p q : ℚ × ℕ} {x y : binary32}
    (hx : binary32.Tracks p x) (hy : binary32.Tracks q y) :
    binary32.Tracks (p * q) (x * y) := by
  obtain ⟨⟨zp, hzp⟩, hp, hxv⟩ := hx
  obtain ⟨⟨zq, hzq⟩, hq, hyv⟩ := hy
  have habs : |p.1 * q.1| ≤ ((p.2 * q.2 : Nat) : ℚ) := by
    push_cast
    rw [abs_mul]
    exact mul_le_mul hp hq (abs_nonneg _) (Nat.cast_nonneg _)
  refine ⟨⟨zp * zq, by simp [hzp, hzq]⟩, habs, fun hle => ?_⟩
  have hle' : p.2 * q.2 ≤ 2 ^ 24 := hle
  show binary32.round (x.val * y.val) = p.1 * q.1
  rcases Nat.eq_zero_or_pos p.2 with hp0 | hppos
  · have hp1 : p.1 = 0 := by
      rw [hp0, Nat.cast_zero] at hp
      exact abs_eq_zero.mp (le_antisymm hp (abs_nonneg _))
    rw [hxv (by omega), hp1, zero_mul]
    simp [binary32.round]
  rcases Nat.eq_zero_or_pos q.2 with hq0 | hqpos
  · have hq1 : q.1 = 0 := by
      rw [hq0, Nat.cast_zero] at hq
      exact abs_eq_zero.mp (le_antisymm hq (abs_nonneg _))
    rw [hyv (by omega), hq1, mul_zero]
    simp [binary32.round]
  have hple : p.2 ≤ 2 ^ 24 := (Nat.le_mul_of_pos_right _ hqpos).trans hle'
  have hqle : q.2 ≤ 2 ^ 24 := (Nat.le_mul_of_pos_left _ hppos).trans hle'
  rw [hxv hple, hyv hqle, hzp, hzq, ← Int.cast_mul]
  apply binary32.round_intCast_of_le
  have h1 : |((zp * zq : ℤ) : ℚ)| ≤ ((2 ^ 24 : ℕ) : ℚ) := by
    rw [Int.cast_mul, ← hzp, ← hzq]
    exact habs.trans (by exact_mod_cast hle')
  exact_mod_cast h1

theorem binary32.Tracks_zero : binary32.Tracks 0 0 :=
  ⟨⟨0, by simp⟩, by simp, fun _ => rfl⟩

theorem foldl_rel_of_add {G : Type} [Add F] [Add G] (S : F → G → Prop)
    (hadd : ∀ u u2 v v2, S u u2 → S v v2 → S (u + v) (u2 + v2))
    (g : Nat → F) (g2 : Nat → G) :
    ∀ (l : List Nat) (d : F) (d2 : G), S d d2 → (∀ i ∈ l, S (g i) (g2 i)) →
      S (List.foldl (fun dot i => dot + g i) d l)
        (List.foldl (fun dot i => dot + g2 i) d2 l) := by
  intro l
  induction l with
  | nil => intro d d2 h _; exact h
  | cons i l ih =>
    intro d d2 hd h
    rw [List.foldl_cons, List.foldl_cons]
    exact ih _ _ (hadd _ _ _ _ hd (h i (List.mem_cons_self _ _)))
      (fun j hj => h j (List.mem_cons_of_mem _ hj))

/-- The accumulators of two instances of the double-wide loop stay related
by `R` through the first `n / (2 * SIZE)` passes. -/
theorem DotProduct.step2_iterate_rel {U G : Type} (X : LaneType T F)
    (Y : LaneType U G) (R : X.Reg → Y.Reg → Prop)
    (a b : Nat → T) (a2 b2 : Nat → U) (n : Nat)
    (hsize : X.SIZE = Y.SIZE)
    (hzero : R X.zero Y.zero)
    (hacc : ∀ x y u v, R x y → R u v → R (X.add x u) (Y.add y v))
    (hsum : ∀ i, i + X.SIZE ≤ n →
      R (X.add (X.load a i) (X.load b i)) (Y.add (Y.load a2 i) (Y.load b2 i)))
    (hmul : ∀ i, i + X.SIZE ≤ n →
      R (X.mul (X.load a i) (X.load b i)) (Y.mul (Y.load a2 i) (Y.load b2 i))) :
    ∀ k, k ≤ n / (2 * X.SIZE) →
      R ((DotProduct.step2 X a b)^[k]
          { aptr := 0, bptr := 0, acc0 := X.zero, acc1 := X.zero }).acc0
        ((DotProduct.step2 Y a2 b2)^[k]
          { aptr := 0, bptr := 0, acc0 := Y.zero, acc1 := Y.zero }).acc0 ∧
      R ((DotProduct.step2 X a b)^[k]
          { aptr := 0, bptr := 0, acc0 := X.zero, acc1 := X.zero }).acc1
        ((DotProduct.step2 Y a2 b2)^[k]
          { aptr := 0, bptr := 0, acc0 := Y.zero, acc1 := Y.zero }).acc1 := by
  have hpos := X.SIZE_pos
  have hdm := Nat.div_add_mod n (2 * X.SIZE)
  intro k
  induction k with
  | zero => intro _; exact ⟨hzero, hzero⟩
  | succ k ih =>
    intro hk
    obtain ⟨r0, r1⟩ := ih (by omega)
    obtain ⟨px1, px2⟩ := DotProduct.step2_iterate_ptr X a b
      { aptr := 0, bptr := 0, acc0 := X.zero, acc1 := X.zero } k
    obtain ⟨py1, py2⟩ := DotProduct.step2_iterate_ptr Y a2 b2
      { aptr := 0, bptr := 0, acc0 := Y.zero, acc1 := Y.zero } k
    simp only [Nat.zero_add] at px1 px2 py1 py2
    have hle : 2 * X.SIZE * (k + 1) ≤ 2 * X.SIZE * (n / (2 * X.SIZE)) :=
      Nat.mul_le_mul_left _ hk
    rw [Nat.mul_add, Nat.mul_one] at hle
    rw [Function.iterate_succ_apply', Function.iterate_succ_apply']
    simp only [DotProduct.step2, px1, px2, py1, py2, ← hsize]
    exact ⟨hacc _ _ _ _ r0 (hsum _ (by omega)), hacc _ _ _ _ r1 (hmul _ (by omega))⟩

/-- Two instances of the template return results related by `S` when their
lane operations preserve a relation `R` between registers and `S` between
scalars. -/
theorem DotProduct_rel {U G : Type} [Add F] [Add G] (X : LaneType T F)
    (Y : LaneType U G) (S : F → G → Prop) (R : X.Reg → Y.Reg → Prop)
    (a b : Nat → T) (a2 b2 : Nat → U) (n : Nat)
    (hsize : X.SIZE = Y.SIZE)
    (hzero : R X.zero Y.zero)
    (hacc : ∀ x y u v, R x y → R u v → R (X.add x u) (Y.add y v))
    (hsum : ∀ i, i + X.SIZE ≤ n →
      R (X.add (X.load a i) (X.load b i)) (Y.add (Y.load a2 i) (Y.load b2 i)))
    (hmul : ∀ i, i + X.SIZE ≤ n →
      R (X.mul (X.load a i) (X.load b i)) (Y.mul (Y.load a2 i) (Y.load b2 i)))
    (hSum : ∀ x y, R x y → S (X.Sum x) (Y.Sum y))
    (hone : ∀ i, i < n → S (X.MultiplyOne (a i) (b i)) (Y.MultiplyOne (a2 i) (b2 i)))
    (hadd : ∀ u u2 v v2, S u u2 → S v v2 → S (u + v) (u2 + v2)) :
    S (DotProduct X a b n) (DotProduct Y a2 b2 n) := by
  have hpos := X.SIZE_pos
  have hdm := Nat.div_add_mod n (2 * X.SIZE)
  obtain ⟨r0, r1⟩ := DotProduct.step2_iterate_rel X Y R a b a2 b2 n hsize hzero hacc
    hsum hmul (n / (2 * X.SIZE)) (Nat.le_refl _)
  rw [DotProduct_eq_tiers X a b n, DotProduct_eq_tiers Y a2 b2 n, ← hsize]
  apply foldl_rel_of_add S hadd (fun i => X.MultiplyOne (a i) (b i))
    (fun i => Y.MultiplyOne (a2 i) (b2 i))
  · by_cases h : X.SIZE ≤ n % (2 * X.SIZE)
    · rw [if_pos h, if_pos h]
      exact hSum _ _ (hacc _ _ _ _ (hacc _ _ _ _ r0 r1) (hmul _ (by omega)))
    · rw [if_neg h, if_neg h]
      exact hSum _ _ (hacc _ _ _ _ r0 r1)
  · intro i hi
    have := List.mem_range'_1.mp hi
    have := Nat.mod_le n X.SIZE
    exact hone i (by omega)

theorem DotProduct_float4_tracks (a b : Nat → ℚ × ℕ) (a2 b2 : Nat → binary32) (n : Nat)
    (ha : ∀ i, i < n → binary32.Tracks (a i) (a2 i))
    (hb : ∀ i, i < n → binary32.Tracks (b i) (b2 i)) :
    binary32.Tracks (DotProduct float4.laneType a b n) (DotProduct float4.laneType a2 b2 n) :=
  DotProduct_rel float4.laneType float4.laneType binary32.Tracks
    (fun (x : float4 (ℚ × ℕ)) (y : float4 binary32) => ∀ l, binary32.Tracks (x.xmm l) (y.xmm l))
    a b a2 b2 n rfl
    (fun _ => binary32.Tracks_zero)
    (fun x y u v h1 h2 l => binary32.Tracks_add (h1 l) (h2 l))
    (fun i (hi : i + 4 ≤ n) l =>
      binary32.Tracks_add (ha _ (by omega)) (hb _ (by omega)))
    (fun i (hi : i + 4 ≤ n) l =>
      binary32.Tracks_mul (ha _ (by omega)) (hb _ (by omega)))
    (fun x y h => by
      show binary32.Tracks (float4.Sum x) (float4.Sum y)
      unfold float4.Sum
      exact (binary32.Tracks_add (binary32.Tracks_add (binary32.Tracks_add (h 0) (h 1)) (h 2)) (h 3)))
    (fun i hi => binary32.Tracks_mul (ha i hi) (hb i hi))
    (fun _ _ _ _ h1 h2 => binary32.Tracks_add h1 h2)

theorem DotProduct_float4_fst (a b : Nat → ℚ × ℕ) (n : Nat) :
    (DotProduct float4.laneType a b n).1
      = DotProduct float4.laneType (fun i => (a i).1) (fun i => (b i).1) n :=
  DotProduct_sim float4.laneType float4.laneType Prod.fst
    (fun (x : float4 (ℚ × ℕ)) (y : float4 ℚ) => ∀ l, y.xmm l = (x.xmm l).1)
    a b (fun i => (a i).1) (fun i => (b i).1) n rfl
    (fun _ => rfl)
    (fun x y u v h1 h2 l => by
      show y.xmm l + v.xmm l = (x.xmm l + u.xmm l).1
      rw [h1 l, h2 l]; rfl)
    (fun _ _ _ => rfl)
    (fun _ _ _ => rfl)
    (fun x y h => by
      show (float4.Sum x).1 = float4.Sum y
      unfold float4.Sum
      simp only [h, Prod.fst_add])
    (fun _ _ => rfl)
    (fun _ _ => rfl)

theorem DotProduct_float4_snd (a b : Nat → ℚ × ℕ) (n : Nat) :
    (DotProduct float4.laneType a b n).2
      = DotProduct float4.laneType (fun i => (a i).2) (fun i => (b i).2) n :=
  DotProduct_sim float4.laneType float4.laneType Prod.snd
    (fun (x : float4 (ℚ × ℕ)) (y : float4 ℕ) => ∀ l, y.xmm l = (x.xmm l).2)
    a b (fun i => (a i).2) (fun i => (b i).2) n rfl
    (fun _ => rfl)
    (fun x y u v h1 h2 l => by
      show y.xmm l + v.xmm l = (x.xmm l + u.xmm l).2
      rw [h1 l, h2 l]; rfl)
    (fun _ _ _ => rfl)
    (fun _ _ _ => rfl)
    (fun x y h => by
      show (float4.Sum x).2 = float4.Sum y
      unfold float4.Sum
      simp only [h, Prod.snd_add])
    (fun _ _ => rfl)
    (fun _ _ => rfl)

/-- In float arithmetic `DotProduct<float4>` returns the exact result on inputs
that are integers of magnitude at most 1, for `n` up to `2^23`: no
intermediate result exceeds `2^24` in magnitude, so nothing is rounded. -/
theorem DotProduct_float4_exact32 (a b : Nat → ℚ) (a2 b2 : Nat → binary32) (n : Nat)
    (hn : n ≤ 2 ^ 23)
    (ha : ∀ i, i < n → (a2 i).val = a i ∧ (∃ z : ℤ, a i = z) ∧ |a i| ≤ 1)
    (hb : ∀ i, i < n → (b2 i).val = b i ∧ (∃ z : ℤ, b i = z) ∧ |b i| ≤ 1) :
    (DotProduct float4.laneType a2 b2 n).val = DotProduct float4.laneType a b n := by
  have htr := DotProduct_float4_tracks (fun i => (a i, 1)) (fun i => (b i, 1)) a2 b2 n
    (fun i hi => ⟨(ha i hi).2.1, by simpa using (ha i hi).2.2, fun _ => (ha i hi).1⟩)
    (fun i hi => ⟨(hb i hi).2.1, by simpa using (hb i hi).2.2, fun _ => (hb i hi).1⟩)
  obtain ⟨_, _, hval⟩ := htr
  rw [DotProduct_float4_fst, DotProduct_float4_snd] at hval
  apply hval
  rw [DotProduct_eq_sum_term float4.laneType id float4.lanes]
  calc ∑ i in Finset.range n, DotProduct.term float4.laneType.SIZE n
          (fun i => id ((fun _ => (1 : ℕ)) i)) (fun i => id ((fun _ => (1 : ℕ)) i)) i
      ≤ ∑ _i in Finset.range n, 2 := by
        refine Finset.sum_le_sum fun i _ => ?_
        unfold DotProduct.term
        split_ifs <;> simp
    _ = 2 * n := by simp [Nat.mul_comm]
    _ ≤ 2 ^ 24 := by omega

theorem DotProduct_float8_tracks (a b : Nat → ℚ × ℕ) (a2 b2 : Nat → binary32) (n : Nat)
    (ha : ∀ i, i < n → binary32.Tracks (a i) (a2 i))
    (hb : ∀ i, i < n → binary32.Tracks (b i) (b2 i)) :
    binary32.Tracks (DotProduct float8.laneType a b n) (DotProduct float8.laneType a2 b2 n) :=
  DotProduct_rel float8.laneType float8.laneType binary32.Tracks
    (fun (x : float8 (ℚ × ℕ)) (y : float8 binary32) => ∀ l, binary32.Tracks (x.xmm l) (y.xmm l))
    a b a2 b2 n rfl
    (fun _ => binary32.Tracks_zero)
    (fun x y u v h1 h2 l => binary32.Tracks_add (h1 l) (h2 l))
    (fun i (hi : i + 8 ≤ n) l =>
      binary32.Tracks_add (ha _ (by omega)) (hb _ (by omega)))
    (fun i (hi : i + 8 ≤ n) l =>
      binary32.Tracks_mul (ha _ (by omega)) (hb _ (by omega)))
    (fun x y h => by
      show binary32.Tracks (float8.Sum x) (float8.Sum y)
      unfold float8.Sum
      exact (binary32.Tracks_add (binary32.Tracks_add (binary32.Tracks_add (binary32.Tracks_add (binary32.Tracks_add (binary32.Tracks_add (binary32.Tracks_add (h 0) (h 1)) (h 2)) (h 3)) (h 4)) (h 5)) (h 6)) (h 7)))
    (fun i hi => binary32.Tracks_mul (ha i hi) (hb i hi))
    (fun _ _ _ _ h1 h2 => binary32.Tracks_add h1 h2)

theorem DotProduct_float8_fst (a b : Nat → ℚ × ℕ) (n : Nat) :
    (DotProduct float8.laneType a b n).1
      = DotProduct float8.laneType (fun i => (a i).1) (fun i => (b i).1) n :=
  DotProduct_sim float8.laneType float8.laneType Prod.fst
    (fun (x : float8 (ℚ × ℕ)) (y : float8 ℚ) => ∀ l, y.xmm l = (x.xmm l).1)
    a b (fun i => (a i).1) (fun i => (b i).1) n rfl
    (fun _ => rfl)
    (fun x y u v h1 h2 l => by
      show y.xmm l + v.xmm l = (x.xmm l + u.xmm l).1
      rw [h1 l, h2 l]; rfl)
    (fun _ _ _ => rfl)
    (fun _ _ _ => rfl)
    (fun x y h => by
      show (float8.Sum x).1 = float8.Sum y
      unfold float8.Sum
      simp only [h, Prod.fst_add])
    (fun _ _ => rfl)
    (fun _ _ => rfl)

theorem DotProduct_float8_snd (a b : Nat → ℚ × ℕ) (n : Nat) :
    (DotProduct float8.laneType a b n).2
      = DotProduct float8.laneType (fun i => (a i).2) (fun i => (b i).2) n :=
  DotProduct_sim float8.laneType float8.laneType Prod.snd
    (fun (x : float8 (ℚ × ℕ)) (y : float8 ℕ) => ∀ l, y.xmm l = (x.xmm l).2)
    a b (fun i => (a i).2) (fun i => (b i).2) n rfl
    (fun _ => rfl)
    (fun x y u v h1 h2 l => by
      show y.xmm l + v.xmm l = (x.xmm l + u.xmm l).2
      rw [h1 l, h2 l]; rfl)
    (fun _ _ _ => rfl)
    (fun _ _ _ => rfl)
    (fun x y h => by
      show (float8.Sum x).2 = float8.Sum y
      unfold float8.Sum
      simp only [h, Prod.snd_add])
    (fun _ _ => rfl)
    (fun _ _ => rfl)

/-- In float arithmetic `DotProduct<float8>` returns the exact result on inputs
that are integers of magnitude at most 1, for `n` up to `2^23`: no
intermediate result exceeds `2^24` in magnitude, so nothing is rounded. -/
theorem DotProduct_float8_exact32 (a b : Nat → ℚ) (a2 b2 : Nat → binary32) (n : Nat)
    (hn : n ≤ 2 ^ 23)
    (ha : ∀ i, i < n → (a2 i).val = a i ∧ (∃ z : ℤ, a i = z) ∧ |a i| ≤ 1)
    (hb : ∀ i, i < n → (b2 i).val = b i ∧ (∃ z : ℤ, b i = z) ∧ |b i| ≤ 1) :
    (DotProduct float8.laneType a2 b2 n).val = DotProduct float8.laneType a b n := by
  have htr := DotProduct_float8_tracks (fun i => (a i, 1)) (fun i => (b i, 1)) a2 b2 n
    (fun i hi => ⟨(ha i hi).2.1, by simpa using (ha i hi).2.2, fun _ => (ha i hi).1⟩)
    (fun i hi => ⟨(hb i hi).2.1, by simpa using (hb i hi).2.2, fun _ => (hb i hi).1⟩)
  obtain ⟨_, _, hval⟩ := htr
  rw [DotProduct_float8_fst, DotProduct_float8_snd] at hval
  apply hval
  rw [DotProduct_eq_sum_term float8.laneType id float8.lanes]
  calc ∑ i in Finset.range n, DotProduct.term float8.laneType.SIZE n
          (fun i => id ((fun _ => (1 : ℕ)) i)) (fun i => id ((fun _ => (1 : ℕ)) i)) i
      ≤ ∑ _i in Finset.range n, 2 := by
        refine Finset.sum_le_sum fun i _ => ?_
        unfold DotProduct.term
        split_ifs <;> simp
    _ = 2 * n := by simp [Nat.mul_comm]
    _ ≤ 2 ^ 24 := by omega

/-! ### The alternating data in float arithmetic -/

theorem binary32.ext_val {x y : binary32} (h : x.val = y.val) : x = y := by
  cases x; cases y; cases h; rfl

theorem binary32.round_of_int (x : ℚ) (z : ℤ) (hx : x = z) (hz : |z| ≤ 2 ^ 24) :
    binary32.round x = x := by
  rw [hx]
  exact binary32.round_intCast_of_le z hz

theorem alternating_int (j : Nat) : ∃ z : ℤ, alternating j = z ∧ |z| ≤ 1 := by
  unfold alternating
  split_ifs
  · exact ⟨1, by simp, by simp⟩
  · exact ⟨-1, by simp, by simp⟩

theorem alternating_pred_int (j : Nat) : ∃ z : ℤ, alternating_pred j = z ∧ |z| ≤ 1 := by
  unfold alternating_pred
  split_ifs
  · exact ⟨0, by simp, by simp⟩
  · exact alternating_int _

theorem CreateData.loop_length32 (size : Nat) :
    ∀ (k : Nat) (v : List binary32) (i : binary32) (j : Nat), j + 2 * k = 2 * (size / 2) →
      (CreateData.loop size v i j).length = v.length := by
  intro k
  induction k with
  | zero =>
    intro v i j h
    rw [CreateData.loop, if_neg (by omega)]
  | succ k ih =>
    intro v i j h
    rw [CreateData.loop, if_pos (by omega), ih _ _ _ (by omega)]
    simp

theorem binary32.mk_mul_neg_one (j : Nat) :
    (⟨alternating j⟩ * -1 : binary32) = ⟨alternating (j + 2)⟩ := by
  apply binary32.ext_val
  show binary32.round (alternating j * -1) = alternating (j + 2)
  rw [alternating_add_two]
  obtain ⟨z, hz, hz1⟩ := alternating_int j
  apply binary32.round_of_int _ (z * -1) (by rw [hz]; push_cast; ring)
  rw [abs_mul]
  have : |(-1 : ℤ)| = 1 := by simp
  rw [this, mul_one]
  exact hz1.trans (by norm_num)

theorem CreateData.loop_getD32 (size : Nat) :
    ∀ (k : Nat) (v : List binary32) (i : binary32) (j : Nat), j + 2 * k = 2 * (size / 2) →
      v.length = size → i = ⟨alternating j⟩ → j % 2 = 0 → ∀ x,
      (CreateData.loop size v i j).getD x 0
        = if j ≤ x ∧ x < 2 * (size / 2) then ⟨alternating x⟩ else v.getD x 0 := by
  intro k
  induction k with
  | zero =>
    intro v i j h hlen hi hj x
    rw [CreateData.loop, if_neg (by omega), if_neg (by omega)]
  | succ k ih =>
    intro v i j h hlen hi hj x
    rw [CreateData.loop, if_pos (by omega),
      ih _ _ _ (by omega) (by simp [hlen]) (by rw [hi, binary32.mk_mul_neg_one])
        (by omega) x]
    have hsz : 2 * (size / 2) ≤ size := by omega
    by_cases h1 : x = j
    · subst h1
      rw [if_neg (by omega), if_pos (by omega)]
      have hx : x < v.length := by omega
      simp [List.getD_eq_getElem?_getD, List.getElem?_set, hx, hi]
    · by_cases h2 : x = j + 1
      · subst h2
        rw [if_neg (by omega), if_pos (by omega)]
        have hx : j + 1 < v.length := by omega
        simp [List.getD_eq_getElem?_getD, List.getElem?_set, hx, hi,
          alternating_succ_of_even j hj]
      · have e : (((v.set j i).set (j + 1) i).getD x 0) = v.getD x 0 := by
          simp only [List.getD_eq_getElem?_getD]
          rw [List.getElem?_set_ne (by omega), List.getElem?_set_ne (by omega)]
        rw [e]
        by_cases h3 : j ≤ x ∧ x < 2 * (size / 2)
        · rw [if_pos h3, if_pos (by omega)]
        · rw [if_neg h3, if_neg (by omega)]

theorem CreateData_length32 (size : Nat) :
    (CreateData size : List binary32).length = size := by
  rw [CreateData, CreateData.loop_length32 size (size / 2) _ _ _ (by omega)]
  simp

theorem CreateData_getD32 (size x : Nat) :
    (CreateData size : List binary32).getD x 0
      = if x < 2 * (size / 2) then ⟨alternating x⟩ else 0 := by
  rw [CreateData, CreateData.loop_getD32 size (size / 2) _ _ _ (by omega) (by simp)
    (by simp [alternating]; rfl) (by simp) x]
  by_cases h : x < 2 * (size / 2)
  · rw [if_pos ⟨Nat.zero_le _, h⟩, if_pos h]
  · rw [if_neg (fun h' => h h'.2), if_neg h]
    simp only [List.getD_eq_getElem?_getD, List.getElem?_replicate]
    split <;> rfl

theorem data_ptr_CreateData32 (size x : Nat) (h : x < 2 * (size / 2)) :
    data_ptr 0 (CreateData size : List binary32) x = ⟨alternating x⟩ := by
  rw [data_ptr, CreateData_getD32, if_pos h]

theorem data_ptr_pred_CreateData32 (size x : Nat) (h : x ≤ 2 * (size / 2)) :
    data_ptr_pred 0 0 (CreateData size : List binary32) x = ⟨alternating_pred x⟩ := by
  unfold data_ptr_pred alternating_pred
  by_cases hx : x = 0
  · rw [if_pos hx, if_pos hx]; rfl
  · rw [if_neg hx, if_neg hx, CreateData_getD32, if_pos (by omega)]

theorem binary32.mk_mul_mk_alternating (i : Nat) (h1 : 1 ≤ i) :
    (⟨alternating i⟩ * ⟨alternating (i - 1)⟩ : binary32)
      = ⟨if i % 2 = 1 then 1 else -1⟩ := by
  apply binary32.ext_val
  show binary32.round (alternating i * alternating (i - 1)) = _
  have h := alternating_mul_pred i
  rw [alternating_pred, if_neg (by omega), if_neg (by omega)] at h
  rw [h]
  split_ifs
  · exact binary32.round_of_int 1 1 (by simp) (by norm_num)
  · exact binary32.round_of_int (-1) (-1) (by simp) (by norm_num)

theorem exp_dot32_CreateData (size i : Nat) (h1 : 1 ≤ i) (h2 : i < 2 * (size / 2)) :
    TestDotProd.exp_dot32 (CreateData size) i = ⟨if i % 2 = 0 then 1 else 0⟩ := by
  rw [TestDotProd.exp_dot32, CreateData_getD32, CreateData_getD32, if_pos h2,
    if_pos (show i - 1 < 2 * (size / 2) by omega), binary32.mk_mul_mk_alternating i h1]
  rcases Nat.mod_two_eq_zero_or_one i with h | h
  · have e1 : (if i % 2 = 1 then (1 : ℚ) else -1) = -1 := if_neg (by omega)
    have e2 : (if i % 2 = 0 then (1 : ℚ) else 0) = 1 := if_pos h
    have heq : (⟨-1⟩ : binary32) = -1 := rfl
    rw [e1, e2, if_pos heq]
    rfl
  · have e1 : (if i % 2 = 1 then (1 : ℚ) else -1) = 1 := if_pos h
    have e2 : (if i % 2 = 0 then (1 : ℚ) else 0) = 0 := if_neg (by omega)
    have hne : (⟨1⟩ : binary32) ≠ -1 := by
      intro hc
      have := congrArg binary32.val hc
      change (1 : ℚ) = -1 at this
      norm_num at this
    rw [e1, e2, if_neg hne]
    rfl

theorem naive_DotProduct_alternating32 (a2 b2 : Nat → binary32) (n : Nat)
    (ha : ∀ i, i < n → a2 i = ⟨alternating i⟩)
    (hb : ∀ i, i < n → b2 i = ⟨alternating_pred i⟩) :
    naive.DotProduct a2 b2 n = ⟨if n % 2 = 0 ∧ n ≠ 0 then 1 else 0⟩ := by
  rw [naive.DotProduct_eq_foldl]
  have key : ∀ m, m ≤ n →
      List.foldl (fun acc i => acc + a2 i * b2 i) 0 (List.range m)
        = (⟨if m % 2 = 0 ∧ m ≠ 0 then 1 else 0⟩ : binary32) := by
    intro m
    induction m with
    | zero => intro _; rfl
    | succ m ih =>
      intro hm
      rw [List.range_succ, List.foldl_append, ih (by omega), List.foldl_cons, List.foldl_nil,
        ha m (by omega), hb m (by omega)]
      apply binary32.ext_val
      show binary32.round ((if m % 2 = 0 ∧ m ≠ 0 then (1 : ℚ) else 0)
        + binary32.round (alternating m * alternating_pred m)) = _
      rw [alternating_mul_pred]
      rcases Nat.eq_zero_or_pos m with h0 | hpos
      · subst h0
        simp [binary32.round]
      rcases Nat.mod_two_eq_zero_or_one m with h | h
      · rw [if_pos ⟨h, by omega⟩, if_neg (by omega), if_neg (by omega), if_neg (by omega),
          binary32.round_of_int (-1) (-1) (by simp) (by norm_num)]
        norm_num
        simp [binary32.round]
      · rw [if_neg (by omega), if_neg (by omega), if_pos h, if_pos ⟨by omega, by omega⟩,
          binary32.round_of_int 1 1 (by simp) (by norm_num)]
        norm_num
        exact binary32.round_of_int 1 1 (by simp) (by norm_num)
  exact key n (Nat.le_refl _)

/-- In float arithmetic, on inputs that are the alternating pattern and the
pattern read one position earlier, a lane type among `float4` and `float8`
returns 1 for an even `n > 0` and 0 otherwise, for `n` up to `2^23`. -/
theorem DotProduct_alternating32 (a2 b2 : Nat → binary32) (n : Nat) (hn : n ≤ 2 ^ 23)
    (ha : ∀ i, i < n → a2 i = ⟨alternating i⟩)
    (hb : ∀ i, i < n → b2 i = ⟨alternating_pred i⟩) :
    DotProduct float4.laneType a2 b2 n = ⟨if n % 2 = 0 ∧ n ≠ 0 then 1 else 0⟩ ∧
    DotProduct float8.laneType a2 b2 n = ⟨if n % 2 = 0 ∧ n ≠ 0 then 1 else 0⟩ := by
  have ha' : ∀ i, i < n →
      (a2 i).val = alternating i ∧ (∃ z : ℤ, alternating i = z) ∧ |alternating i| ≤ 1 := by
    intro i hi
    obtain ⟨z, hz, hz1⟩ := alternating_int i
    refine ⟨by rw [ha i hi], ⟨z, hz⟩, ?_⟩
    rw [hz]
    exact_mod_cast hz1
  have hb' : ∀ i, i < n →
      (b2 i).val = alternating_pred i ∧ (∃ z : ℤ, alternating_pred i = z)
        ∧ |alternating_pred i| ≤ 1 := by
    intro i hi
    obtain ⟨z, hz, hz1⟩ := alternating_pred_int i
    refine ⟨by rw [hb i hi], ⟨z, hz⟩, ?_⟩
    rw [hz]
    exact_mod_cast hz1
  constructor
  · apply binary32.ext_val
    rw [DotProduct_float4_exact32 alternating alternating_pred a2 b2 n hn ha' hb']
    exact DotProduct_alternating float4.laneType id float4.lanes (Or.inl rfl)
      alternating alternating_pred n (fun _ _ => rfl) (fun _ _ => rfl)
  · apply binary32.ext_val
    rw [DotProduct_float8_exact32 alternating alternating_pred a2 b2 n hn ha' hb']
    exact DotProduct_alternating float8.laneType id float8.lanes (Or.inr rfl)
      alternating alternating_pred n (fun _ _ => rfl) (fun _ _ => rfl)

/-- In float arithmetic the accumulators of `DotProduct<float4>` hold the exact
lane sums when the double-wide loop exits, on inputs that are integers of
magnitude at most 1, as long as twice the number of passes is at most
`2^24`. -/
theorem float4_loop_exit32 (a b : Nat → ℚ) (a2 b2 : Nat → binary32) (n : Nat)
    (hq : 2 * (n / (2 * 4)) ≤ 2 ^ 24)
    (ha : ∀ i, i < n → (a2 i).val = a i ∧ (∃ z : ℤ, a i = z) ∧ |a i| ≤ 1)
    (hb : ∀ i, i < n → (b2 i).val = b i ∧ (∃ z : ℤ, b i = z) ∧ |b i| ≤ 1)
    (l : Fin 4) :
    ((((DotProduct.step2 float4.laneType a2 b2)^[n / (2 * 4)]
        { aptr := 0, bptr := 0, acc0 := float4.zero, acc1 := float4.zero }).acc0
      : float4 binary32).xmm l).val
      = ∑ c in Finset.range (n / (2 * 4)), (a (2 * 4 * c + l) + b (2 * 4 * c + l)) ∧
    ((((DotProduct.step2 float4.laneType a2 b2)^[n / (2 * 4)]
        { aptr := 0, bptr := 0, acc0 := float4.zero, acc1 := float4.zero }).acc1
      : float4 binary32).xmm l).val
      = ∑ c in Finset.range (n / (2 * 4)),
          a (2 * 4 * c + 4 + l) * b (2 * 4 * c + 4 + l) := by
  -- the tracked run, and its two components
  obtain ⟨t0, t1⟩ := DotProduct.step2_iterate_rel float4.laneType float4.laneType
    (fun (x : float4 (ℚ × ℕ)) (y : float4 binary32) => ∀ l, binary32.Tracks (x.xmm l) (y.xmm l))
    (fun i => (a i, 1)) (fun i => (b i, 1)) a2 b2 n rfl
    (fun _ => binary32.Tracks_zero)
    (fun x y u v h1 h2 l => binary32.Tracks_add (h1 l) (h2 l))
    (fun i (hi : i + 4 ≤ n) l => binary32.Tracks_add
      ⟨(ha _ (by omega)).2.1, by simpa using (ha _ (by omega)).2.2, fun _ => (ha _ (by omega)).1⟩
      ⟨(hb _ (by omega)).2.1, by simpa using (hb _ (by omega)).2.2, fun _ => (hb _ (by omega)).1⟩)
    (fun i (hi : i + 4 ≤ n) l => binary32.Tracks_mul
      ⟨(ha _ (by omega)).2.1, by simpa using (ha _ (by omega)).2.2, fun _ => (ha _ (by omega)).1⟩
      ⟨(hb _ (by omega)).2.1, by simpa using (hb _ (by omega)).2.2, fun _ => (hb _ (by omega)).1⟩)
    (n / (2 * 4)) (Nat.le_refl _)
  obtain ⟨f0, f1⟩ := DotProduct.step2_iterate_rel float4.laneType float4.laneType
    (fun (x : float4 (ℚ × ℕ)) (y : float4 ℚ) => ∀ l, y.xmm l = (x.xmm l).1)
    (fun i => (a i, 1)) (fun i => (b i, 1)) a b n rfl
    (fun _ => rfl)
    (fun x y u v h1 h2 l => by
      show y.xmm l + v.xmm l = (x.xmm l + u.xmm l).1
      rw [h1 l, h2 l]; rfl)
    (fun _ _ _ => rfl) (fun _ _ _ => rfl)
    (n / (2 * 4)) (Nat.le_refl _)
  obtain ⟨s0, s1⟩ := DotProduct.step2_iterate_rel float4.laneType float4.laneType
    (fun (x : float4 (ℚ × ℕ)) (y : float4 ℕ) => ∀ l, y.xmm l = (x.xmm l).2)
    (fun i => (a i, 1)) (fun i => (b i, 1)) (fun _ => 1) (fun _ => 1) n rfl
    (fun _ => rfl)
    (fun x y u v h1 h2 l => by
      show y.xmm l + v.xmm l = (x.xmm l + u.xmm l).2
      rw [h1 l, h2 l]; rfl)
    (fun _ _ _ => rfl) (fun _ _ _ => rfl)
    (n / (2 * 4)) (Nat.le_refl _)
  -- the exact lanes and the magnitude budget, from the closed form of the loop
  obtain ⟨_, _, q0, q1⟩ := DotProduct.loop2_spec float4.laneType id float4.lanes a b
    (n / (2 * 4)) (n / (2 * 4)) 0
    { aptr := 0, bptr := 0, acc0 := float4.zero, acc1 := float4.zero } (by omega) (by simp) (by simp)
  obtain ⟨_, _, n0, n1⟩ := DotProduct.loop2_spec float4.laneType id float4.lanes
    (fun _ => (1 : ℕ)) (fun _ => (1 : ℕ))
    (n / (2 * 4)) (n / (2 * 4)) 0
    { aptr := 0, bptr := 0, acc0 := float4.zero, acc1 := float4.zero } (by omega) (by simp) (by simp)
  have e := DotProduct.loop2_eq_iterate float4.laneType a b (n / (2 * 4)) (n / (2 * 4)) 0
    { aptr := 0, bptr := 0, acc0 := float4.zero, acc1 := float4.zero } (by omega) (by simp)
  have eN := DotProduct.loop2_eq_iterate float4.laneType (fun _ => (1 : ℕ)) (fun _ => (1 : ℕ))
    (n / (2 * 4)) (n / (2 * 4)) 0
    { aptr := 0, bptr := 0, acc0 := float4.zero, acc1 := float4.zero } (by omega) (by simp)
  have q0l := q0 l.val l.isLt
  have q1l := q1 l.val l.isLt
  have n0l := n0 l.val l.isLt
  have n1l := n1 l.val l.isLt
  rw [e] at q0l q1l
  rw [eN] at n0l n1l
  have hlane : ∀ (G : Type) [Zero G] [Add G] [Mul G] (v : float4 G),
      (float4.lanes (F := G)).lane v l.val = v.xmm l := by
    intro G _ _ _ v
    show (if h : l.val < 4 then v.xmm ⟨l.val, h⟩ else 0) = v.xmm l
    rw [dif_pos l.isLt]
  rw [hlane ℚ, hlane ℚ] at q0l q1l
  rw [hlane ℕ, hlane ℕ] at n0l n1l
  simp only [float4.zero, zero_add, Nat.zero_add, id_eq, float4.laneType, float4.SIZE] at q0l q1l n0l n1l
  simp only [Finset.sum_const, Finset.card_range, smul_eq_mul, Nat.mul_one, Nat.one_mul] at n0l n1l
  constructor
  · exact ((t0 l).2.2 (le_of_eq_of_le ((s0 l).symm.trans n0l) (by omega))).trans
      ((f0 l).symm.trans q0l)
  · exact ((t1 l).2.2 (le_of_eq_of_le ((s1 l).symm.trans n1l) (by omega))).trans
      ((f1 l).symm.trans q1l)



/-- In float arithmetic the accumulators of `DotProduct<float8>` hold the exact
lane sums when the double-wide loop exits, on inputs that are integers of
magnitude at most 1, as long as twice the number of passes is at most
`2^24`. -/
theorem float8_loop_exit32 (a b : Nat → ℚ) (a2 b2 : Nat → binary32) (n : Nat)
    (hq : 2 * (n / (2 * 8)) ≤ 2 ^ 24)
    (ha : ∀ i, i < n → (a2 i).val = a i ∧ (∃ z : ℤ, a i = z) ∧ |a i| ≤ 1)
    (hb : ∀ i, i < n → (b2 i).val = b i ∧ (∃ z : ℤ, b i = z) ∧ |b i| ≤ 1)
    (l : Fin 8) :
    ((((DotProduct.step2 float8.laneType a2 b2)^[n / (2 * 8)]
        { aptr := 0, bptr := 0, acc0 := float8.zero, acc1 := float8.zero }).acc0
      : float8 binary32).xmm l).val
      = ∑ c in Finset.range (n / (2 * 8)), (a (2 * 8 * c + l) + b (2 * 8 * c + l)) ∧
    ((((DotProduct.step2 float8.laneType a2 b2)^[n / (2 * 8)]
        { aptr := 0, bptr := 0, acc0 := float8.zero, acc1 := float8.zero }).acc1
      : float8 binary32).xmm l).val
      = ∑ c in Finset.range (n / (2 * 8)),
          a (2 * 8 * c + 8 + l) * b (2 * 8 * c + 8 + l) := by
  -- the tracked run, and its two components
  obtain ⟨t0, t1⟩ := DotProduct.step2_iterate_rel float8.laneType float8.laneType
    (fun (x : float8 (ℚ × ℕ)) (y : float8 binary32) => ∀ l, binary32.Tracks (x.xmm l) (y.xmm l))
    (fun i => (a i, 1)) (fun i => (b i, 1)) a2 b2 n rfl
    (fun _ => binary32.Tracks_zero)
    (fun x y u v h1 h2 l => binary32.Tracks_add (h1 l) (h2 l))
    (fun i (hi : i + 8 ≤ n) l => binary32.Tracks_add
      ⟨(ha _ (by omega)).2.1, by simpa using (ha _ (by omega)).2.2, fun _ => (ha _ (by omega)).1⟩
      ⟨(hb _ (by omega)).2.1, by simpa using (hb _ (by omega)).2.2, fun _ => (hb _ (by omega)).1⟩)
    (fun i (hi : i + 8 ≤ n) l => binary32.Tracks_mul
      ⟨(ha _ (by omega)).2.1, by simpa using (ha _ (by omega)).2.2, fun _ => (ha _ (by omega)).1⟩
      ⟨(hb _ (by omega)).2.1, by simpa using (hb _ (by omega)).2.2, fun _ => (hb _ (by omega)).1⟩)
    (n / (2 * 8)) (Nat.le_refl _)
  obtain ⟨f0, f1⟩ := DotProduct.step2_iterate_rel float8.laneType float8.laneType
    (fun (x : float8 (ℚ × ℕ)) (y : float8 ℚ) => ∀ l, y.xmm l = (x.xmm l).1)
    (fun i => (a i, 1)) (fun i => (b i, 1)) a b n rfl
    (fun _ => rfl)
    (fun x y u v h1 h2 l => by
      show y.xmm l + v.xmm l = (x.xmm l + u.xmm l).1
      rw [h1 l, h2 l]; rfl)
    (fun _ _ _ => rfl) (fun _ _ _ => rfl)
    (n / (2 * 8)) (Nat.le_refl _)
  obtain ⟨s0, s1⟩ := DotProduct.step2_iterate_rel float8.laneType float8.laneType
    (fun (x : float8 (ℚ × ℕ)) (y : float8 ℕ) => ∀ l, y.xmm l = (x.xmm l).2)
    (fun i => (a i, 1)) (fun i => (b i, 1)) (fun _ => 1) (fun _ => 1) n rfl
    (fun _ => rfl)
    (fun x y u v h1 h2 l => by
      show y.xmm l + v.xmm l = (x.xmm l + u.xmm l).2
      rw [h1 l, h2 l]; rfl)
    (fun _ _ _ => rfl) (fun _ _ _ => rfl)
    (n / (2 * 8)) (Nat.le_refl _)
  -- the exact lanes and the magnitude budget, from the closed form of the loop
  obtain ⟨_, _, q0, q1⟩ := DotProduct.loop2_spec float8.laneType id float8.lanes a b
    (n / (2 * 8)) (n / (2 * 8)) 0
    { aptr := 0, bptr := 0, acc0 := float8.zero, acc1 := float8.zero } (by omega) (by simp) (by simp)
  obtain ⟨_, _, n0, n1⟩ := DotProduct.loop2_spec float8.laneType id float8.lanes
    (fun _ => (1 : ℕ)) (fun _ => (1 : ℕ))
    (n / (2 * 8)) (n / (2 * 8)) 0
    { aptr := 0, bptr := 0, acc0 := float8.zero, acc1 := float8.zero } (by omega) (by simp) (by simp)
  have e := DotProduct.loop2_eq_iterate float8.laneType a b (n / (2 * 8)) (n / (2 * 8)) 0
    { aptr := 0, bptr := 0, acc0 := float8.zero, acc1 := float8.zero } (by omega) (by simp)
  have eN := DotProduct.loop2_eq_iterate float8.laneType (fun _ => (1 : ℕ)) (fun _ => (1 : ℕ))
    (n / (2 * 8)) (n / (2 * 8)) 0
    { aptr := 0, bptr := 0, acc0 := float8.zero, acc1 := float8.zero } (by omega) (by simp)
  have q0l := q0 l.val l.isLt
  have q1l := q1 l.val l.isLt
  have n0l := n0 l.val l.isLt
  have n1l := n1 l.val l.isLt
  rw [e] at q0l q1l
  rw [eN] at n0l n1l
  have hlane : ∀ (G : Type) [Zero G] [Add G] [Mul G] (v : float8 G),
      (float8.lanes (F := G)).lane v l.val = v.xmm l := by
    intro G _ _ _ v
    show (if h : l.val < 8 then v.xmm ⟨l.val, h⟩ else 0) = v.xmm l
    rw [dif_pos l.isLt]
  rw [hlane ℚ, hlane ℚ] at q0l q1l
  rw [hlane ℕ, hlane ℕ] at n0l n1l
  simp only [float8.zero, zero_add, Nat.zero_add, id_eq, float8.laneType, float8.SIZE] at q0l q1l n0l n1l
  simp only [Finset.sum_const, Finset.card_range, smul_eq_mul, Nat.mul_one, Nat.one_mul] at n0l n1l
  constructor
  · exact ((t0 l).2.2 (le_of_eq_of_le ((s0 l).symm.trans n0l) (by omega))).trans
      ((f0 l).symm.trans q0l)
  · exact ((t1 l).2.2 (le_of_eq_of_le ((s1 l).symm.trans n1l) (by omega))).trans
      ((f1 l).symm.trans q1l)


/-! ### Exact additions in float arithmetic -/

theorem binary32.add_val_of_round (x y : binary32) (zx zy r : ℤ) (hx : x.val = zx)
    (hy : y.val = zy) (h : binary32.round ((zx + zy : ℤ) : ℚ) = r) :
    (x + y).val = r := by
  show binary32.round (x.val + y.val) = r
  rw [hx, hy, ← Int.cast_add]
  exact h

theorem binary32.add_val_of_int (x y : binary32) (zx zy : ℤ) (hx : x.val = zx)
    (hy : y.val = zy) (h : |zx + zy| ≤ 2 ^ 24) :
    (x + y).val = ((zx + zy : ℤ) : ℚ) :=
  binary32.add_val_of_round x y zx zy (zx + zy) hx hy (binary32.round_intCast_of_le _ h)

theorem alternating_add_pred (j : Nat) :
    alternating j + alternating_pred j
      = if j = 0 then 1 else if j % 4 = 1 then 2 else if j % 4 = 3 then -2 else 0 := by
  unfold alternating_pred alternating
  split_ifs <;> first | omega | norm_num

theorem sum_add_pred_mod1 (g : Nat → Nat) (q : Nat) (h : ∀ c, g c % 4 = 1) :
    ∑ c in Finset.range q, (alternating (g c) + alternating_pred (g c))
      = ((2 * (q : ℤ) : ℤ) : ℚ) := by
  rw [Finset.sum_congr rfl (fun c _ => show alternating (g c) + alternating_pred (g c) = 2 by
    rw [alternating_add_pred, if_neg (by have := h c; omega), if_pos (h c)])]
  rw [Finset.sum_const, Finset.card_range, nsmul_eq_mul]
  push_cast
  ring

theorem sum_add_pred_mod3 (g : Nat → Nat) (q : Nat) (h : ∀ c, g c % 4 = 3) :
    ∑ c in Finset.range q, (alternating (g c) + alternating_pred (g c))
      = ((-(2 * (q : ℤ)) : ℤ) : ℚ) := by
  rw [Finset.sum_congr rfl (fun c _ => show alternating (g c) + alternating_pred (g c) = -2 by
    rw [alternating_add_pred, if_neg (by have := h c; omega), if_neg (by have := h c; omega),
      if_pos (h c)])]
  rw [Finset.sum_const, Finset.card_range, nsmul_eq_mul]
  push_cast
  ring

theorem sum_add_pred_even (g : Nat → Nat) (q : Nat) (h : ∀ c, g c % 2 = 0 ∧ 0 < g c) :
    ∑ c in Finset.range q, (alternating (g c) + alternating_pred (g c))
      = ((0 : ℤ) : ℚ) := by
  rw [Finset.sum_congr rfl (fun c _ => show alternating (g c) + alternating_pred (g c) = 0 by
    rw [alternating_add_pred, if_neg (by have := h c; omega), if_neg (by have := h c; omega),
      if_neg (by have := h c; omega)])]
  simp

theorem sum_add_pred_first (g : Nat → Nat) (q : Nat) (hq : 0 < q) (h0 : g 0 = 0)
    (h : ∀ c, g (c + 1) % 2 = 0 ∧ 0 < g (c + 1)) :
    ∑ c in Finset.range q, (alternating (g c) + alternating_pred (g c))
      = ((1 : ℤ) : ℚ) := by
  obtain ⟨k, rfl⟩ : ∃ k, q = k + 1 := ⟨q - 1, by omega⟩
  rw [Finset.sum_range_succ', sum_add_pred_even (fun c => g (c + 1)) k h, h0,
    alternating_add_pred, if_pos rfl]
  norm_num

theorem sum_mul_pred_odd (g : Nat → Nat) (q : Nat) (h : ∀ c, g c % 2 = 1) :
    ∑ c in Finset.range q, alternating (g c) * alternating_pred (g c)
      = (((q : ℤ) : ℤ) : ℚ) := by
  rw [Finset.sum_congr rfl (fun c _ => show alternating (g c) * alternating_pred (g c) = 1 by
    rw [alternating_mul_pred, if_neg (by have := h c; omega), if_pos (h c)])]
  rw [Finset.sum_const, Finset.card_range, nsmul_eq_mul]
  push_cast
  ring

theorem sum_mul_pred_even (g : Nat → Nat) (q : Nat) (h : ∀ c, g c % 2 = 0 ∧ 0 < g c) :
    ∑ c in Finset.range q, alternating (g c) * alternating_pred (g c)
      = ((-(q : ℤ) : ℤ) : ℚ) := by
  rw [Finset.sum_congr rfl (fun c _ => show alternating (g c) * alternating_pred (g c) = -1 by
    rw [alternating_mul_pred, if_neg (by have := h c; omega), if_neg (by have := h c; omega)])]
  rw [Finset.sum_const, Finset.card_range, nsmul_eq_mul]
  push_cast
  ring

theorem binary32.mul_val_odd (a2 b2 : Nat → binary32) (j : Nat)
    (ha : a2 j = ⟨alternating j⟩) (hb : b2 j = ⟨alternating_pred j⟩) (hj : j % 2 = 1) :
    (a2 j * b2 j).val = ((1 : ℤ) : ℚ) := by
  rw [ha, hb]
  show binary32.round (alternating j * alternating_pred j) = _
  rw [alternating_mul_pred, if_neg (by omega), if_pos hj]
  exact binary32.round_of_int 1 1 (by simp) (by norm_num)

theorem binary32.mul_val_even (a2 b2 : Nat → binary32) (j : Nat)
    (ha : a2 j = ⟨alternating j⟩) (hb : b2 j = ⟨alternating_pred j⟩) (hj : j % 2 = 0)
    (hpos : 0 < j) :
    (a2 j * b2 j).val = ((-1 : ℤ) : ℚ) := by
  rw [ha, hb]
  show binary32.round (alternating j * alternating_pred j) = _
  rw [alternating_mul_pred, if_neg (by omega), if_neg (by omega)]
  exact binary32.round_of_int (-1) (-1) (by simp) (by norm_num)

/-! ### The lanes on the alternating inputs in float arithmetic -/

/-- In float arithmetic, on the alternating inputs, the sum of the lanes of
`DotProduct<float4>` when no single-wide step runs is 1, when the double-wide loop
made `q` passes and `3 * q` is a float. -/
theorem float4_merged_Sum32 (a2 b2 : Nat → binary32) (n q : Nat)
    (hq : n / (2 * 4) = q) (hq1 : 1 ≤ q) (hq2 : q + 2 ≤ 2 ^ 23)
    (ha : ∀ i, i < n → a2 i = ⟨alternating i⟩)
    (hb : ∀ i, i < n → b2 i = ⟨alternating_pred i⟩)
    (hm : binary32.round ((3 * q : ℕ) : ℚ) = (3 * q : ℕ)) :
    float4.laneType.Sum
      (float4.laneType.add
        ((DotProduct.step2 float4.laneType a2 b2)^[n / (2 * 4)]
          { aptr := 0, bptr := 0, acc0 := float4.zero, acc1 := float4.zero }).acc0
        ((DotProduct.step2 float4.laneType a2 b2)^[n / (2 * 4)]
          { aptr := 0, bptr := 0, acc0 := float4.zero, acc1 := float4.zero }).acc1)
      = ⟨1⟩ := by
  have hm' : binary32.round (((2 * (q : ℤ) + (q : ℤ) : ℤ)) : ℚ)
      = ((2 * (q : ℤ) + (q : ℤ) : ℤ) : ℚ) := by
    have e : (((2 * (q : ℤ) + (q : ℤ) : ℤ)) : ℚ) = ((3 * q : ℕ) : ℚ) := by
      push_cast
      ring
    rw [e]
    exact hm
  subst hq
  have ha' : ∀ i, i < n →
      (a2 i).val = alternating i ∧ (∃ z : ℤ, alternating i = z) ∧ |alternating i| ≤ 1 := by
    intro i hi
    obtain ⟨z, hz, hz1⟩ := alternating_int i
    refine ⟨by rw [ha i hi], ⟨z, hz⟩, ?_⟩
    rw [hz]
    exact_mod_cast hz1
  have hb' : ∀ i, i < n →
      (b2 i).val = alternating_pred i ∧ (∃ z : ℤ, alternating_pred i = z)
        ∧ |alternating_pred i| ≤ 1 := by
    intro i hi
    obtain ⟨z, hz, hz1⟩ := alternating_pred_int i
    refine ⟨by rw [hb i hi], ⟨z, hz⟩, ?_⟩
    rw [hz]
    exact_mod_cast hz1
  have E := float4_loop_exit32 alternating alternating_pred a2 b2 n (by omega) ha' hb'
  have h0_0 := (E 0).1.trans (sum_add_pred_first (fun c => 2 * 4 * c + 0) _ hq1 rfl
    (fun c => by dsimp only; omega))
  have h1_0 := (E 0).2.trans (sum_mul_pred_even (fun c => 2 * 4 * c + 4 + 0) _
    (fun c => by dsimp only; omega))
  have h0_1 := (E 1).1.trans (sum_add_pred_mod1 (fun c => 2 * 4 * c + 1) _
    (fun c => by dsimp only; omega))
  have h1_1 := (E 1).2.trans (sum_mul_pred_odd (fun c => 2 * 4 * c + 4 + 1) _
    (fun c => by dsimp only; omega))
  have h0_2 := (E 2).1.trans (sum_add_pred_even (fun c => 2 * 4 * c + 2) _
    (fun c => by dsimp only; omega))
  have h1_2 := (E 2).2.trans (sum_mul_pred_even (fun c => 2 * 4 * c + 4 + 2) _
    (fun c => by dsimp only; omega))
  have h0_3 := (E 3).1.trans (sum_add_pred_mod3 (fun c => 2 * 4 * c + 3) _
    (fun c => by dsimp only; omega))
  have h1_3 := (E 3).2.trans (sum_mul_pred_odd (fun c => 2 * 4 * c + 4 + 3) _
    (fun c => by dsimp only; omega))
  have m_0 := binary32.add_val_of_int _ _ _ _ h0_0 h1_0 (abs_le.mpr ⟨by omega, by omega⟩)
  have m_1 := binary32.add_val_of_round _ _ _ _ (2 * ((n / (2 * 4) : ℕ) : ℤ) + ((n / (2 * 4) : ℕ) : ℤ)) h0_1 h1_1 hm'
  have m_2 := binary32.add_val_of_int _ _ _ _ h0_2 h1_2 (abs_le.mpr ⟨by omega, by omega⟩)
  have m_3 := binary32.add_val_of_int _ _ _ _ h0_3 h1_3 (abs_le.mpr ⟨by omega, by omega⟩)
  have s_1 := binary32.add_val_of_int _ _ _ _ m_0 m_1 (abs_le.mpr ⟨by omega, by omega⟩)
  have s_2 := binary32.add_val_of_int _ _ _ _ s_1 m_2 (abs_le.mpr ⟨by omega, by omega⟩)
  have s_3 := binary32.add_val_of_int _ _ _ _ s_2 m_3 (abs_le.mpr ⟨by omega, by omega⟩)
  apply binary32.ext_val
  refine s_3.trans ?_
  show ((_ : ℤ) : ℚ) = 1
  have e : (1 : ℚ) = ((1 : ℤ) : ℚ) := by simp
  rw [e]
  congr 1
  ring

/-- In float arithmetic, on the alternating inputs, the sum of the lanes of
`DotProduct<float4>` after the single-wide step, when the double-wide loop made
`q` passes: the lanes with `l mod 4 = 1` hold the float nearest to `3 * q + 1`,
called `R`, and every other addition is exact. -/
theorem float4_stepped_Sum32 (a2 b2 : Nat → binary32) (n q : Nat)
    (hq : n / (2 * 4) = q) (hq1 : 1 ≤ q) (hq2 : q + 2 ≤ 2 ^ 23)
    (ha : ∀ i, i < n → a2 i = ⟨alternating i⟩)
    (hb : ∀ i, i < n → b2 i = ⟨alternating_pred i⟩)
    (hstep : 2 * 4 * q + 4 ≤ n)
    (hm : binary32.round ((3 * q : ℕ) : ℚ) = (3 * q : ℕ))
    (R : ℤ) (hs : binary32.round ((3 * q + 1 : ℕ) : ℚ) = R)
    (hR1 : 3 * (q : ℤ) ≤ R) (hR2 : R ≤ 3 * (q : ℤ) + 2) :
    float4.laneType.Sum
      (float4.laneType.add
        (float4.laneType.add
          ((DotProduct.step2 float4.laneType a2 b2)^[n / (2 * 4)]
          { aptr := 0, bptr := 0, acc0 := float4.zero, acc1 := float4.zero }).acc0
          ((DotProduct.step2 float4.laneType a2 b2)^[n / (2 * 4)]
          { aptr := 0, bptr := 0, acc0 := float4.zero, acc1 := float4.zero }).acc1)
        (float4.laneType.mul (float4.laneType.load a2 (2 * 4 * (n / (2 * 4))))
          (float4.laneType.load b2 (2 * 4 * (n / (2 * 4))))))
      = ⟨((R - 3 * (q : ℤ) : ℤ) : ℚ)⟩ := by
  have hm' : binary32.round (((2 * (q : ℤ) + (q : ℤ) : ℤ)) : ℚ)
      = ((2 * (q : ℤ) + (q : ℤ) : ℤ) : ℚ) := by
    have e : (((2 * (q : ℤ) + (q : ℤ) : ℤ)) : ℚ) = ((3 * q : ℕ) : ℚ) := by
      push_cast
      ring
    rw [e]
    exact hm
  have hs' : binary32.round (((2 * (q : ℤ) + (q : ℤ) + 1 : ℤ)) : ℚ) = (R : ℚ) := by
    have e : (((2 * (q : ℤ) + (q : ℤ) + 1 : ℤ)) : ℚ) = ((3 * q + 1 : ℕ) : ℚ) := by
      push_cast
      ring
    rw [e]
    exact hs
  subst hq
  have ha' : ∀ i, i < n →
      (a2 i).val = alternating i ∧ (∃ z : ℤ, alternating i = z) ∧ |alternating i| ≤ 1 := by
    intro i hi
    obtain ⟨z, hz, hz1⟩ := alternating_int i
    refine ⟨by rw [ha i hi], ⟨z, hz⟩, ?_⟩
    rw [hz]
    exact_mod_cast hz1
  have hb' : ∀ i, i < n →
      (b2 i).val = alternating_pred i ∧ (∃ z : ℤ, alternating_pred i = z)
        ∧ |alternating_pred i| ≤ 1 := by
    intro i hi
    obtain ⟨z, hz, hz1⟩ := alternating_pred_int i
    refine ⟨by rw [hb i hi], ⟨z, hz⟩, ?_⟩
    rw [hz]
    exact_mod_cast hz1
  have E := float4_loop_exit32 alternating alternating_pred a2 b2 n (by omega) ha' hb'
  have h0_0 := (E 0).1.trans (sum_add_pred_first (fun c => 2 * 4 * c + 0) _ hq1 rfl
    (fun c => by dsimp only; omega))
  have h1_0 := (E 0).2.trans (sum_mul_pred_even (fun c => 2 * 4 * c + 4 + 0) _
    (fun c => by dsimp only; omega))
  have h0_1 := (E 1).1.trans (sum_add_pred_mod1 (fun c => 2 * 4 * c + 1) _
    (fun c => by dsimp only; omega))
  have h1_1 := (E 1).2.trans (sum_mul_pred_odd (fun c => 2 * 4 * c + 4 + 1) _
    (fun c => by dsimp only; omega))
  have h0_2 := (E 2).1.trans (sum_add_pred_even (fun c => 2 * 4 * c + 2) _
    (fun c => by dsimp only; omega))
  have h1_2 := (E 2).2.trans (sum_mul_pred_even (fun c => 2 * 4 * c + 4 + 2) _
    (fun c => by dsimp only; omega))
  have h0_3 := (E 3).1.trans (sum_add_pred_mod3 (fun c => 2 * 4 * c + 3) _
    (fun c => by dsimp only; omega))
  have h1_3 := (E 3).2.trans (sum_mul_pred_odd (fun c => 2 * 4 * c + 4 + 3) _
    (fun c => by dsimp only; omega))
  have m_0 := binary32.add_val_of_int _ _ _ _ h0_0 h1_0 (abs_le.mpr ⟨by omega, by omega⟩)
  have m_1 := binary32.add_val_of_round _ _ _ _ (2 * ((n / (2 * 4) : ℕ) : ℤ) + ((n / (2 * 4) : ℕ) : ℤ)) h0_1 h1_1 hm'
  have m_2 := binary32.add_val_of_int _ _ _ _ h0_2 h1_2 (abs_le.mpr ⟨by omega, by omega⟩)
  have m_3 := binary32.add_val_of_int _ _ _ _ h0_3 h1_3 (abs_le.mpr ⟨by omega, by omega⟩)
  have p_0 : ((float4.mul (float4.load a2 (2 * 4 * (n / (2 * 4)))) (float4.load b2 (2 * 4 * (n / (2 * 4))))).xmm 0).val
      = ((-1 : ℤ) : ℚ) :=
    binary32.mul_val_even a2 b2 (2 * 4 * (n / (2 * 4)) + 0) (ha _ (by omega)) (hb _ (by omega)) (by omega) (by omega)
  have p_1 : ((float4.mul (float4.load a2 (2 * 4 * (n / (2 * 4)))) (float4.load b2 (2 * 4 * (n / (2 * 4))))).xmm 1).val
      = ((1 : ℤ) : ℚ) :=
    binary32.mul_val_odd a2 b2 (2 * 4 * (n / (2 * 4)) + 1) (ha _ (by omega)) (hb _ (by omega)) (by omega)
  have p_2 : ((float4.mul (float4.load a2 (2 * 4 * (n / (2 * 4)))) (float4.load b2 (2 * 4 * (n / (2 * 4))))).xmm 2).val
      = ((-1 : ℤ) : ℚ) :=
    binary32.mul_val_even a2 b2 (2 * 4 * (n / (2 * 4)) + 2) (ha _ (by omega)) (hb _ (by omega)) (by omega) (by omega)
  have p_3 : ((float4.mul (float4.load a2 (2 * 4 * (n / (2 * 4)))) (float4.load b2 (2 * 4 * (n / (2 * 4))))).xmm 3).val
      = ((1 : ℤ) : ℚ) :=
    binary32.mul_val_odd a2 b2 (2 * 4 * (n / (2 * 4)) + 3) (ha _ (by omega)) (hb _ (by omega)) (by omega)
  have t_0 := binary32.add_val_of_int _ _ _ _ m_0 p_0 (abs_le.mpr ⟨by omega, by omega⟩)
  have t_1 := binary32.add_val_of_round _ _ _ _ R m_1 p_1 hs'
  have t_2 := binary32.add_val_of_int _ _ _ _ m_2 p_2 (abs_le.mpr ⟨by omega, by omega⟩)
  have t_3 := binary32.add_val_of_int _ _ _ _ m_3 p_3 (abs_le.mpr ⟨by omega, by omega⟩)
  have s_1 := binary32.add_val_of_int _ _ _ _ t_0 t_1 (abs_le.mpr ⟨by omega, by omega⟩)
  have s_2 := binary32.add_val_of_int _ _ _ _ s_1 t_2 (abs_le.mpr ⟨by omega, by omega⟩)
  have s_3 := binary32.add_val_of_int _ _ _ _ s_2 t_3 (abs_le.mpr ⟨by omega, by omega⟩)
  apply binary32.ext_val
  refine s_3.trans ?_
  show ((_ : ℤ) : ℚ) = ((R - 3 * ((n / (2 * 4) : ℕ) : ℤ) : ℤ) : ℚ)
  congr 1
  ring

/-- In float arithmetic, on the alternating inputs, the sum of the lanes of
`DotProduct<float8>` when no single-wide step runs is 1, when the double-wide loop
made `q` passes and `3 * q` is a float. -/
theorem float8_merged_Sum32 (a2 b2 : Nat → binary32) (n q : Nat)
    (hq : n / (2 * 8) = q) (hq1 : 1 ≤ q) (hq2 : q + 2 ≤ 2 ^ 23)
    (ha : ∀ i, i < n → a2 i = ⟨alternating i⟩)
    (hb : ∀ i, i < n → b2 i = ⟨alternating_pred i⟩)
    (hm : binary32.round ((3 * q : ℕ) : ℚ) = (3 * q : ℕ)) :
    float8.laneType.Sum
      (float8.laneType.add
        ((DotProduct.step2 float8.laneType a2 b2)^[n / (2 * 8)]
          { aptr := 0, bptr := 0, acc0 := float8.zero, acc1 := float8.zero }).acc0
        ((DotProduct.step2 float8.laneType a2 b2)^[n / (2 * 8)]
          { aptr := 0, bptr := 0, acc0 := float8.zero, acc1 := float8.zero }).acc1)
      = ⟨1⟩ := by
  have hm' : binary32.round (((2 * (q : ℤ) + (q : ℤ) : ℤ)) : ℚ)
      = ((2 * (q : ℤ) + (q : ℤ) : ℤ) : ℚ) := by
    have e : (((2 * (q : ℤ) + (q : ℤ) : ℤ)) : ℚ) = ((3 * q : ℕ) : ℚ) := by
      push_cast
      ring
    rw [e]
    exact hm
  subst hq
  have ha' : ∀ i, i < n →
      (a2 i).val = alternating i ∧ (∃ z : ℤ, alternating i = z) ∧ |alternating i| ≤ 1 := by
    intro i hi
    obtain ⟨z, hz, hz1⟩ := alternating_int i
    refine ⟨by rw [ha i hi], ⟨z, hz⟩, ?_⟩
    rw [hz]
    exact_mod_cast hz1
  have hb' : ∀ i, i < n →
      (b2 i).val = alternating_pred i ∧ (∃ z : ℤ, alternating_pred i = z)
        ∧ |alternating_pred i| ≤ 1 := by
    intro i hi
    obtain ⟨z, hz, hz1⟩ := alternating_pred_int i
    refine ⟨by rw [hb i hi], ⟨z, hz⟩, ?_⟩
    rw [hz]
    exact_mod_cast hz1
  have E := float8_loop_exit32 alternating alternating_pred a2 b2 n (by omega) ha' hb'
  have h0_0 := (E 0).1.trans (sum_add_pred_first (fun c => 2 * 8 * c + 0) _ hq1 rfl
    (fun c => by dsimp only; omega))
  have h1_0 := (E 0).2.trans (sum_mul_pred_even (fun c => 2 * 8 * c + 8 + 0) _
    (fun c => by dsimp only; omega))
  have h0_1 := (E 1).1.trans (sum_add_pred_mod1 (fun c => 2 * 8 * c + 1) _
    (fun c => by dsimp only; omega))
  have h1_1 := (E 1).2.trans (sum_mul_pred_odd (fun c => 2 * 8 * c + 8 + 1) _
    (fun c => by dsimp only; omega))
  have h0_2 := (E 2).1.trans (sum_add_pred_even (fun c => 2 * 8 * c + 2) _
    (fun c => by dsimp only; omega))
  have h1_2 := (E 2).2.trans (sum_mul_pred_even (fun c => 2 * 8 * c + 8 + 2) _
    (fun c => by dsimp only; omega))
  have h0_3 := (E 3).1.trans (sum_add_pred_mod3 (fun c => 2 * 8 * c + 3) _
    (fun c => by dsimp only; omega))
  have h1_3 := (E 3).2.trans (sum_mul_pred_odd (fun c => 2 * 8 * c + 8 + 3) _
    (fun c => by dsimp only; omega))
  have h0_4 := (E 4).1.trans (sum_add_pred_even (fun c => 2 * 8 * c + 4) _
    (fun c => by dsimp only; omega))
  have h1_4 := (E 4).2.trans (sum_mul_pred_even (fun c => 2 * 8 * c + 8 + 4) _
    (fun c => by dsimp only; omega))
  have h0_5 := (E 5).1.trans (sum_add_pred_mod1 (fun c => 2 * 8 * c + 5) _
    (fun c => by dsimp only; omega))
  have h1_5 := (E 5).2.trans (sum_mul_pred_odd (fun c => 2 * 8 * c + 8 + 5) _
    (fun c => by dsimp only; omega))
  have h0_6 := (E 6).1.trans (sum_add_pred_even (fun c => 2 * 8 * c + 6) _
    (fun c => by dsimp only; omega))
  have h1_6 := (E 6).2.trans (sum_mul_pred_even (fun c => 2 * 8 * c + 8 + 6) _
    (fun c => by dsimp only; omega))
  have h0_7 := (E 7).1.trans (sum_add_pred_mod3 (fun c => 2 * 8 * c + 7) _
    (fun c => by dsimp only; omega))
  have h1_7 := (E 7).2.trans (sum_mul_pred_odd (fun c => 2 * 8 * c + 8 + 7) _
    (fun c => by dsimp only; omega))
  have m_0 := binary32.add_val_of_int _ _ _ _ h0_0 h1_0 (abs_le.mpr ⟨by omega, by omega⟩)
  have m_1 := binary32.add_val_of_round _ _ _ _ (2 * ((n / (2 * 8) : ℕ) : ℤ) + ((n / (2 * 8) : ℕ) : ℤ)) h0_1 h1_1 hm'
  have m_2 := binary32.add_val_of_int _ _ _ _ h0_2 h1_2 (abs_le.mpr ⟨by omega, by omega⟩)
  have m_3 := binary32.add_val_of_int _ _ _ _ h0_3 h1_3 (abs_le.mpr ⟨by omega, by omega⟩)
  have m_4 := binary32.add_val_of_int _ _ _ _ h0_4 h1_4 (abs_le.mpr ⟨by omega, by omega⟩)
  have m_5 := binary32.add_val_of_round _ _ _ _ (2 * ((n / (2 * 8) : ℕ) : ℤ) + ((n / (2 * 8) : ℕ) : ℤ)) h0_5 h1_5 hm'
  have m_6 := binary32.add_val_of_int _ _ _ _ h0_6 h1_6 (abs_le.mpr ⟨by omega, by omega⟩)
  have m_7 := binary32.add_val_of_int _ _ _ _ h0_7 h1_7 (abs_le.mpr ⟨by omega, by omega⟩)
  have s_1 := binary32.add_val_of_int _ _ _ _ m_0 m_1 (abs_le.mpr ⟨by omega, by omega⟩)
  have s_2 := binary32.add_val_of_int _ _ _ _ s_1 m_2 (abs_le.mpr ⟨by omega, by omega⟩)
  have s_3 := binary32.add_val_of_int _ _ _ _ s_2 m_3 (abs_le.mpr ⟨by omega, by omega⟩)
  have s_4 := binary32.add_val_of_int _ _ _ _ s_3 m_4 (abs_le.mpr ⟨by omega, by omega⟩)
  have s_5 := binary32.add_val_of_int _ _ _ _ s_4 m_5 (abs_le.mpr ⟨by omega, by omega⟩)
  have s_6 := binary32.add_val_of_int _ _ _ _ s_5 m_6 (abs_le.mpr ⟨by omega, by omega⟩)
  have s_7 := binary32.add_val_of_int _ _ _ _ s_6 m_7 (abs_le.mpr ⟨by omega, by omega⟩)
  apply binary32.ext_val
  refine s_7.trans ?_
  show ((_ : ℤ) : ℚ) = 1
  have e : (1 : ℚ) = ((1 : ℤ) : ℚ) := by simp
  rw [e]
  congr 1
  ring

/-- In float arithmetic, on the alternating inputs, the sum of the lanes of
`DotProduct<float8>` after the single-wide step, when the double-wide loop made
`q` passes: the lanes with `l mod 4 = 1` hold the float nearest to `3 * q + 1`,
called `R`, and every other addition is exact. -/
theorem float8_stepped_Sum32 (a2 b2 : Nat → binary32) (n q : Nat)
    (hq : n / (2 * 8) = q) (hq1 : 1 ≤ q) (hq2 : q + 2 ≤ 2 ^ 23)
    (ha : ∀ i, i < n → a2 i = ⟨alternating i⟩)
    (hb : ∀ i, i < n → b2 i = ⟨alternating_pred i⟩)
    (hstep : 2 * 8 * q + 8 ≤ n)
    (hm : binary32.round ((3 * q : ℕ) : ℚ) = (3 * q : ℕ))
    (R : ℤ) (hs : binary32.round ((3 * q + 1 : ℕ) : ℚ) = R)
    (hR1 : 3 * (q : ℤ) ≤ R) (hR2 : R ≤ 3 * (q : ℤ) + 2) :
    float8.laneType.Sum
      (float8.laneType.add
        (float8.laneType.add
          ((DotProduct.step2 float8.laneType a2 b2)^[n / (2 * 8)]
          { aptr := 0, bptr := 0, acc0 := float8.zero, acc1 := float8.zero }).acc0
          ((DotProduct.step2 float8.laneType a2 b2)^[n / (2 * 8)]
          { aptr := 0, bptr := 0, acc0 := float8.zero, acc1 := float8.zero }).acc1)
        (float8.laneType.mul (float8.laneType.load a2 (2 * 8 * (n / (2 * 8))))
          (float8.laneType.load b2 (2 * 8 * (n / (2 * 8))))))
      = ⟨((2 * R - 6 * (q : ℤ) - 1 : ℤ) : ℚ)⟩ := by
  have hm' : binary32.round (((2 * (q : ℤ) + (q : ℤ) : ℤ)) : ℚ)
      = ((2 * (q : ℤ) + (q : ℤ) : ℤ) : ℚ) := by
    have e : (((2 * (q : ℤ) + (q : ℤ) : ℤ)) : ℚ) = ((3 * q : ℕ) : ℚ) := by
      push_cast
      ring
    rw [e]
    exact hm
  have hs' : binary32.round (((2 * (q : ℤ) + (q : ℤ) + 1 : ℤ)) : ℚ) = (R : ℚ) := by
    have e : (((2 * (q : ℤ) + (q : ℤ) + 1 : ℤ)) : ℚ) = ((3 * q + 1 : ℕ) : ℚ) := by
      push_cast
      ring
    rw [e]
    exact hs
  subst hq
  have ha' : ∀ i, i < n →
      (a2 i).val = alternating i ∧ (∃ z : ℤ, alternating i = z) ∧ |alternating i| ≤ 1 := by
    intro i hi
    obtain ⟨z, hz, hz1⟩ := alternating_int i
    refine ⟨by rw [ha i hi], ⟨z, hz⟩, ?_⟩
    rw [hz]
    exact_mod_cast hz1
  have hb' : ∀ i, i < n →
      (b2 i).val = alternating_pred i ∧ (∃ z : ℤ, alternating_pred i = z)
        ∧ |alternating_pred i| ≤ 1 := by
    intro i hi
    obtain ⟨z, hz, hz1⟩ := alternating_pred_int i
    refine ⟨by rw [hb i hi], ⟨z, hz⟩, ?_⟩
    rw [hz]
    exact_mod_cast hz1
  have E := float8_loop_exit32 alternating alternating_pred a2 b2 n (by omega) ha' hb'
  have h0_0 := (E 0).1.trans (sum_add_pred_first (fun c => 2 * 8 * c + 0) _ hq1 rfl
    (fun c => by dsimp only; omega))
  have h1_0 := (E 0).2.trans (sum_mul_pred_even (fun c => 2 * 8 * c + 8 + 0) _
    (fun c => by dsimp only; omega))
  have h0_1 := (E 1).1.trans (sum_add_pred_mod1 (fun c => 2 * 8 * c + 1) _
    (fun c => by dsimp only; omega))
  have h1_1 := (E 1).2.trans (sum_mul_pred_odd (fun c => 2 * 8 * c + 8 + 1) _
    (fun c => by dsimp only; omega))
  have h0_2 := (E 2).1.trans (sum_add_pred_even (fun c => 2 * 8 * c + 2) _
    (fun c => by dsimp only; omega))
  have h1_2 := (E 2).2.trans (sum_mul_pred_even (fun c => 2 * 8 * c + 8 + 2) _
    (fun c => by dsimp only; omega))
  have h0_3 := (E 3).1.trans (sum_add_pred_mod3 (fun c => 2 * 8 * c + 3) _
    (fun c => by dsimp only; omega))
  have h1_3 := (E 3).2.trans (sum_mul_pred_odd (fun c => 2 * 8 * c + 8 + 3) _
    (fun c => by dsimp only; omega))
  have h0_4 := (E 4).1.trans (sum_add_pred_even (fun c => 2 * 8 * c + 4) _
    (fun c => by dsimp only; omega))
  have h1_4 := (E 4).2.trans (sum_mul_pred_even (fun c => 2 * 8 * c + 8 + 4) _
    (fun c => by dsimp only; omega))
  have h0_5 := (E 5).1.trans (sum_add_pred_mod1 (fun c => 2 * 8 * c + 5) _
    (fun c => by dsimp only; omega))
  have h1_5 := (E 5).2.trans (sum_mul_pred_odd (fun c => 2 * 8 * c + 8 + 5) _
    (fun c => by dsimp only; omega))
  have h0_6 := (E 6).1.trans (sum_add_pred_even (fun c => 2 * 8 * c + 6) _
    (fun c => by dsimp only; omega))
  have h1_6 := (E 6).2.trans (sum_mul_pred_even (fun c => 2 * 8 * c + 8 + 6) _
    (fun c => by dsimp only; omega))
  have h0_7 := (E 7).1.trans (sum_add_pred_mod3 (fun c => 2 * 8 * c + 7) _
    (fun c => by dsimp only; omega))
  have h1_7 := (E 7).2.trans (sum_mul_pred_odd (fun c => 2 * 8 * c + 8 + 7) _
    (fun c => by dsimp only; omega))
  have m_0 := binary32.add_val_of_int _ _ _ _ h0_0 h1_0 (abs_le.mpr ⟨by omega, by omega⟩)
  have m_1 := binary32.add_val_of_round _ _ _ _ (2 * ((n / (2 * 8) : ℕ) : ℤ) + ((n / (2 * 8) : ℕ) : ℤ)) h0_1 h1_1 hm'
  have m_2 := binary32.add_val_of_int _ _ _ _ h0_2 h1_2 (abs_le.mpr ⟨by omega, by omega⟩)
  have m_3 := binary32.add_val_of_int _ _ _ _ h0_3 h1_3 (abs_le.mpr ⟨by omega, by omega⟩)
  have m_4 := binary32.add_val_of_int _ _ _ _ h0_4 h1_4 (abs_le.mpr ⟨by omega, by omega⟩)
  have m_5 := binary32.add_val_of_round _ _ _ _ (2 * ((n / (2 * 8) : ℕ) : ℤ) + ((n / (2 * 8) : ℕ) : ℤ)) h0_5 h1_5 hm'
  have m_6 := binary32.add_val_of_int _ _ _ _ h0_6 h1_6 (abs_le.mpr ⟨by omega, by omega⟩)
  have m_7 := binary32.add_val_of_int _ _ _ _ h0_7 h1_7 (abs_le.mpr ⟨by omega, by omega⟩)
  have p_0 : ((float8.mul (float8.load a2 (2 * 8 * (n / (2 * 8)))) (float8.load b2 (2 * 8 * (n / (2 * 8))))).xmm 0).val
      = ((-1 : ℤ) : ℚ) :=
    binary32.mul_val_even a2 b2 (2 * 8 * (n / (2 * 8)) + 0) (ha _ (by omega)) (hb _ (by omega)) (by omega) (by omega)
  have p_1 : ((float8.mul (float8.load a2 (2 * 8 * (n / (2 * 8)))) (float8.load b2 (2 * 8 * (n / (2 * 8))))).xmm 1).val
      = ((1 : ℤ) : ℚ) :=
    binary32.mul_val_odd a2 b2 (2 * 8 * (n / (2 * 8)) + 1) (ha _ (by omega)) (hb _ (by omega)) (by omega)
  have p_2 : ((float8.mul (float8.load a2 (2 * 8 * (n / (2 * 8)))) (float8.load b2 (2 * 8 * (n / (2 * 8))))).xmm 2).val
      = ((-1 : ℤ) : ℚ) :=
    binary32.mul_val_even a2 b2 (2 * 8 * (n / (2 * 8)) + 2) (ha _ (by omega)) (hb _ (by omega)) (by omega) (by omega)
  have p_3 : ((float8.mul (float8.load a2 (2 * 8 * (n / (2 * 8)))) (float8.load b2 (2 * 8 * (n / (2 * 8))))).xmm 3).val
      = ((1 : ℤ) : ℚ) :=
    binary32.mul_val_odd a2 b2 (2 * 8 * (n / (2 * 8)) + 3) (ha _ (by omega)) (hb _ (by omega)) (by omega)
  have p_4 : ((float8.mul (float8.load a2 (2 * 8 * (n / (2 * 8)))) (float8.load b2 (2 * 8 * (n / (2 * 8))))).xmm 4).val
      = ((-1 : ℤ) : ℚ) :=
    binary32.mul_val_even a2 b2 (2 * 8 * (n / (2 * 8)) + 4) (ha _ (by omega)) (hb _ (by omega)) (by omega) (by omega)
  have p_5 : ((float8.mul (float8.load a2 (2 * 8 * (n / (2 * 8)))) (float8.load b2 (2 * 8 * (n / (2 * 8))))).xmm 5).val
      = ((1 : ℤ) : ℚ) :=
    binary32.mul_val_odd a2 b2 (2 * 8 * (n / (2 * 8)) + 5) (ha _ (by omega)) (hb _ (by omega)) (by omega)
  have p_6 : ((float8.mul (float8.load a2 (2 * 8 * (n / (2 * 8)))) (float8.load b2 (2 * 8 * (n / (2 * 8))))).xmm 6).val
      = ((-1 : ℤ) : ℚ) :=
    binary32.mul_val_even a2 b2 (2 * 8 * (n / (2 * 8)) + 6) (ha _ (by omega)) (hb _ (by omega)) (by omega) (by omega)
  have p_7 : ((float8.mul (float8.load a2 (2 * 8 * (n / (2 * 8)))) (float8.load b2 (2 * 8 * (n / (2 * 8))))).xmm 7).val
      = ((1 : ℤ) : ℚ) :=
    binary32.mul_val_odd a2 b2 (2 * 8 * (n / (2 * 8)) + 7) (ha _ (by omega)) (hb _ (by omega)) (by omega)
  have t_0 := binary32.add_val_of_int _ _ _ _ m_0 p_0 (abs_le.mpr ⟨by omega, by omega⟩)
  have t_1 := binary32.add_val_of_round _ _ _ _ R m_1 p_1 hs'
  have t_2 := binary32.add_val_of_int _ _ _ _ m_2 p_2 (abs_le.mpr ⟨by omega, by omega⟩)
  have t_3 := binary32.add_val_of_int _ _ _ _ m_3 p_3 (abs_le.mpr ⟨by omega, by omega⟩)
  have t_4 := binary32.add_val_of_int _ _ _ _ m_4 p_4 (abs_le.mpr ⟨by omega, by omega⟩)
  have t_5 := binary32.add_val_of_round _ _ _ _ R m_5 p_5 hs'
  have t_6 := binary32.add_val_of_int _ _ _ _ m_6 p_6 (abs_le.mpr ⟨by omega, by omega⟩)
  have t_7 := binary32.add_val_of_int _ _ _ _ m_7 p_7 (abs_le.mpr ⟨by omega, by omega⟩)
  have s_1 := binary32.add_val_of_int _ _ _ _ t_0 t_1 (abs_le.mpr ⟨by omega, by omega⟩)
  have s_2 := binary32.add_val_of_int _ _ _ _ s_1 t_2 (abs_le.mpr ⟨by omega, by omega⟩)
  have s_3 := binary32.add_val_of_int _ _ _ _ s_2 t_3 (abs_le.mpr ⟨by omega, by omega⟩)
  have s_4 := binary32.add_val_of_int _ _ _ _ s_3 t_4 (abs_le.mpr ⟨by omega, by omega⟩)
  have s_5 := binary32.add_val_of_int _ _ _ _ s_4 t_5 (abs_le.mpr ⟨by omega, by omega⟩)
  have s_6 := binary32.add_val_of_int _ _ _ _ s_5 t_6 (abs_le.mpr ⟨by omega, by omega⟩)
  have s_7 := binary32.add_val_of_int _ _ _ _ s_6 t_7 (abs_le.mpr ⟨by omega, by omega⟩)
  apply binary32.ext_val
  refine s_7.trans ?_
  show ((_ : ℤ) : ℚ) = ((2 * R - 6 * ((n / (2 * 8) : ℕ) : ℤ) - 1 : ℤ) : ℚ)
  congr 1
  ring

/-! ### The alternating check beyond the exact range -/

theorem tail_alternating32 (a2 b2 : Nat → binary32) (n s k : Nat) (hs : s % 2 = 0)
    (hpos : 0 < s) (hk : s + k ≤ n)
    (ha : ∀ i, i < n → a2 i = ⟨alternating i⟩)
    (hb : ∀ i, i < n → b2 i = ⟨alternating_pred i⟩) :
    List.foldl (fun dot i => dot + a2 i * b2 i) (⟨1⟩ : binary32) (List.range' s k)
      = ⟨if k % 2 = 0 then 1 else 0⟩ := by
  induction k with
  | zero => rfl
  | succ k ih =>
    rw [List.range'_1_concat, List.foldl_append, ih (by omega), List.foldl_cons, List.foldl_nil]
    apply binary32.ext_val
    rcases Nat.mod_two_eq_zero_or_one k with h | h
    · have e := binary32.add_val_of_int ⟨1⟩ (a2 (s + k) * b2 (s + k)) 1 (-1) (by simp)
        (binary32.mul_val_even a2 b2 (s + k) (ha _ (by omega)) (hb _ (by omega)) (by omega)
          (by omega)) (by norm_num)
      rw [if_pos h, if_neg (show ¬ (k + 1) % 2 = 0 by omega)]
      refine e.trans ?_
      norm_num
    · have e := binary32.add_val_of_int ⟨0⟩ (a2 (s + k) * b2 (s + k)) 0 1 (by simp)
        (binary32.mul_val_odd a2 b2 (s + k) (ha _ (by omega)) (hb _ (by omega)) (by omega))
        (by norm_num)
      rw [if_neg (show ¬ k % 2 = 0 by omega), if_pos (show (k + 1) % 2 = 0 by omega)]
      refine e.trans ?_
      norm_num

/-- In float arithmetic, on the alternating pattern and the pattern read one
position earlier, `DotProduct<float4>` returns 1 for an even `n > 0` and 0
otherwise, for every `n` below `44739252`. -/
theorem DotProduct_float4_alternating32 (a2 b2 : Nat → binary32) (n : Nat) (hn : n < 44739252)
    (ha : ∀ i, i < n → a2 i = ⟨alternating i⟩)
    (hb : ∀ i, i < n → b2 i = ⟨alternating_pred i⟩) :
    DotProduct float4.laneType a2 b2 n = ⟨if n % 2 = 0 ∧ n ≠ 0 then 1 else 0⟩ := by
  by_cases hsmall : n ≤ 2 ^ 23
  · exact (DotProduct_alternating32 a2 b2 n hsmall ha hb).1
  have hq1 : 1 ≤ n / (2 * 4) := by omega
  have hq2 : n / (2 * 4) + 2 ≤ 2 ^ 23 := by omega
  have hm : binary32.round ((3 * (n / (2 * 4)) : ℕ) : ℚ) = (3 * (n / (2 * 4)) : ℕ) := by
    by_cases hq : n / (2 * 4) ≤ 5592405
    · exact binary32.round_natCast_of_le _ (by omega)
    · have e : n / (2 * 4) = 5592406 := by omega
      rw [e]
      norm_num
      exact binary32.round_16777218
  have key : ∀ v : binary32, v = ⟨1⟩ →
      List.foldl (fun dot i => dot + (float4.laneType : LaneType binary32 binary32).MultiplyOne (a2 i) (b2 i)) v
          (List.range' (n - n % (float4.laneType : LaneType binary32 binary32).SIZE) (n % (float4.laneType : LaneType binary32 binary32).SIZE))
        = ⟨if n % 2 = 0 ∧ n ≠ 0 then 1 else 0⟩ := by
    intro v hv
    rw [hv]
    refine (tail_alternating32 a2 b2 n (n - n % 4) (n % 4) (by omega) (by omega) (by omega)
      ha hb).trans ?_
    by_cases h : n % 2 = 0
    · rw [if_pos (show n % 4 % 2 = 0 by omega), if_pos ⟨h, by omega⟩]
    · rw [if_neg (show ¬ n % 4 % 2 = 0 by omega), if_neg (fun h' => h h'.1)]
  rw [DotProduct_eq_tiers]
  by_cases hc : (float4.laneType : LaneType binary32 binary32).SIZE
      ≤ n % (2 * (float4.laneType : LaneType binary32 binary32).SIZE)
  · have hc' : 4 ≤ n % (2 * 4) := hc
    rw [if_pos hc]
    refine key _ ((float4_stepped_Sum32 a2 b2 n (n / (2 * 4)) rfl hq1 hq2 ha hb (by omega) hm
      ((3 * (n / (2 * 4)) + 1 : ℕ) : ℤ) ?_ (by push_cast; omega) (by push_cast; omega)).trans ?_)
    · rw [Int.cast_natCast]
      exact binary32.round_natCast_of_le _ (by omega)
    · apply binary32.ext_val
      show ((_ : ℤ) : ℚ) = 1
      push_cast
      ring
  · rw [if_neg hc]
    exact key _ (float4_merged_Sum32 a2 b2 n (n / (2 * 4)) rfl hq1 hq2 ha hb hm)

/-- In float arithmetic, on the alternating pattern and the pattern read one
position earlier, `DotProduct<float4>` returns 2 at `n = 44739252`: after
5592406 passes of the double-wide loop the lanes with `l mod 4 = 1` hold
16777218, the single-wide step adds 1 to them, and 16777219 is not a float:
it rounds to 16777220. -/
theorem DotProduct_float4_overrun32 (a2 b2 : Nat → binary32)
    (ha : ∀ i, i < 44739252 → a2 i = ⟨alternating i⟩)
    (hb : ∀ i, i < 44739252 → b2 i = ⟨alternating_pred i⟩) :
    DotProduct float4.laneType a2 b2 44739252 = ⟨2⟩ := by
  have hm : binary32.round ((3 * 5592406 : ℕ) : ℚ) = (3 * 5592406 : ℕ) := by
    norm_num
    exact binary32.round_16777218
  have hs : binary32.round ((3 * 5592406 + 1 : ℕ) : ℚ) = ((16777220 : ℤ) : ℚ) := by
    norm_num
    exact binary32.round_16777219
  have hS := float4_stepped_Sum32 a2 b2 44739252 5592406 (by norm_num) (by norm_num) (by norm_num)
    ha hb (by norm_num) hm 16777220 hs (by norm_num) (by norm_num)
  have hc : (float4.laneType : LaneType binary32 binary32).SIZE ≤ 44739252 % (2 * (float4.laneType : LaneType binary32 binary32).SIZE) := by
    show 4 ≤ 44739252 % (2 * 4)
    norm_num
  have ht : List.range' (44739252 - 44739252 % (float4.laneType : LaneType binary32 binary32).SIZE) (44739252 % (float4.laneType : LaneType binary32 binary32).SIZE)
      = [] := by
    show List.range' (44739252 - 44739252 % 4) (44739252 % 4) = []
    norm_num
  rw [DotProduct_eq_tiers, if_pos hc, ht, List.foldl_nil]
  refine hS.trans ?_
  apply binary32.ext_val
  show ((_ : ℤ) : ℚ) = 2
  norm_num

/-- In float arithmetic, on the alternating pattern and the pattern read one
position earlier, `DotProduct<float8>` returns 1 for an even `n > 0` and 0
otherwise, for every `n` below `89478504`. -/
theorem DotProduct_float8_alternating32 (a2 b2 : Nat → binary32) (n : Nat) (hn : n < 89478504)
    (ha : ∀ i, i < n → a2 i = ⟨alternating i⟩)
    (hb : ∀ i, i < n → b2 i = ⟨alternating_pred i⟩) :
    DotProduct float8.laneType a2 b2 n = ⟨if n % 2 = 0 ∧ n ≠ 0 then 1 else 0⟩ := by
  by_cases hsmall : n ≤ 2 ^ 23
  · exact (DotProduct_alternating32 a2 b2 n hsmall ha hb).2
  have hq1 : 1 ≤ n / (2 * 8) := by omega
  have hq2 : n / (2 * 8) + 2 ≤ 2 ^ 23 := by omega
  have hm : binary32.round ((3 * (n / (2 * 8)) : ℕ) : ℚ) = (3 * (n / (2 * 8)) : ℕ) := by
    by_cases hq : n / (2 * 8) ≤ 5592405
    · exact binary32.round_natCast_of_le _ (by omega)
    · have e : n / (2 * 8) = 5592406 := by omega
      rw [e]
      norm_num
      exact binary32.round_16777218
  have key : ∀ v : binary32, v = ⟨1⟩ →
      List.foldl (fun dot i => dot + (float8.laneType : LaneType binary32 binary32).MultiplyOne (a2 i) (b2 i)) v
          (List.range' (n - n % (float8.laneType : LaneType binary32 binary32).SIZE) (n % (float8.laneType : LaneType binary32 binary32).SIZE))
        = ⟨if n % 2 = 0 ∧ n ≠ 0 then 1 else 0⟩ := by
    intro v hv
    rw [hv]
    refine (tail_alternating32 a2 b2 n (n - n % 8) (n % 8) (by omega) (by omega) (by omega)
      ha hb).trans ?_
    by_cases h : n % 2 = 0
    · rw [if_pos (show n % 8 % 2 = 0 by omega), if_pos ⟨h, by omega⟩]
    · rw [if_neg (show ¬ n % 8 % 2 = 0 by omega), if_neg (fun h' => h h'.1)]
  rw [DotProduct_eq_tiers]
  by_cases hc : (float8.laneType : LaneType binary32 binary32).SIZE
      ≤ n % (2 * (float8.laneType : LaneType binary32 binary32).SIZE)
  · have hc' : 8 ≤ n % (2 * 8) := hc
    rw [if_pos hc]
    refine key _ ((float8_stepped_Sum32 a2 b2 n (n / (2 * 8)) rfl hq1 hq2 ha hb (by omega) hm
      ((3 * (n / (2 * 8)) + 1 : ℕ) : ℤ) ?_ (by push_cast; omega) (by push_cast; omega)).trans ?_)
    · rw [Int.cast_natCast]
      exact binary32.round_natCast_of_le _ (by omega)
    · apply binary32.ext_val
      show ((_ : ℤ) : ℚ) = 1
      push_cast
      ring
  · rw [if_neg hc]
    exact key _ (float8_merged_Sum32 a2 b2 n (n / (2 * 8)) rfl hq1 hq2 ha hb hm)

/-- In float arithmetic, on the alternating pattern and the pattern read one
position earlier, `DotProduct<float8>` returns 3 at `n = 89478504`: after
5592406 passes of the double-wide loop the lanes with `l mod 4 = 1` hold
16777218, the single-wide step adds 1 to them, and 16777219 is not a float:
it rounds to 16777220. -/
theorem DotProduct_float8_overrun32 (a2 b2 : Nat → binary32)
    (ha : ∀ i, i < 89478504 → a2 i = ⟨alternating i⟩)
    (hb : ∀ i, i < 89478504 → b2 i = ⟨alternating_pred i⟩) :
    DotProduct float8.laneType a2 b2 89478504 = ⟨3⟩ := by
  have hm : binary32.round ((3 * 5592406 : ℕ) : ℚ) = (3 * 5592406 : ℕ) := by
    norm_num
    exact binary32.round_16777218
  have hs : binary32.round ((3 * 5592406 + 1 : ℕ) : ℚ) = ((16777220 : ℤ) : ℚ) := by
    norm_num
    exact binary32.round_16777219
  have hS := float8_stepped_Sum32 a2 b2 89478504 5592406 (by norm_num) (by norm_num) (by norm_num)
    ha hb (by norm_num) hm 16777220 hs (by norm_num) (by norm_num)
  have hc : (float8.laneType : LaneType binary32 binary32).SIZE ≤ 89478504 % (2 * (float8.laneType : LaneType binary32 binary32).SIZE) := by
    show 8 ≤ 89478504 % (2 * 8)
    norm_num
  have ht : List.range' (89478504 - 89478504 % (float8.laneType : LaneType binary32 binary32).SIZE) (89478504 % (float8.laneType : LaneType binary32 binary32).SIZE)
      = [] := by
    show List.range' (89478504 - 89478504 % 8) (89478504 % 8) = []
    norm_num
  rw [DotProduct_eq_tiers, if_pos hc, ht, List.foldl_nil]
  refine hS.trans ?_
  apply binary32.ext_val
  show ((_ : ℤ) : ℚ) = 3
  norm_num

/-! ### The alternating check in float arithmetic -/

/-- Claim C3 as amended: in float arithmetic, for even `size`,
`CreateData(size)` holds `+1` at the indices with `j mod 4` in {0, 1} and `-1`
at the others; for every `i` with `1 ≤ i < size - 1`,
`naive::DotProduct(data, data - 1, i)`, with 0 read before the start of
`data`, is within 0.001 of `exp_dot`, which is 1 if
`data[i] * data[i-1] == -1` and 0 otherwise; so is `DotProduct<float4>` for
every such `i` below 44739252, and so is `DotProduct<float8>` for every such
`i` below 89478504. -/
theorem float32_alternating_check (size i : Nat) (hsize : size % 2 = 0)
    (h1 : 1 ≤ i) (h2 : i < size - 1) :
    (∀ j, j < size →
      (CreateData size : List binary32).getD j 0 = ⟨if j % 4 < 2 then 1 else -1⟩) ∧
    |(naive.DotProduct (data_ptr 0 (CreateData size : List binary32))
        (data_ptr_pred 0 0 (CreateData size))  i).val
      - (TestDotProd.exp_dot32 (CreateData size) i).val| ≤ 1 / 1000 ∧
    (i < 44739252 →
      |(DotProduct float4.laneType (data_ptr 0 (CreateData size : List binary32))
          (data_ptr_pred 0 0 (CreateData size)) i).val
        - (TestDotProd.exp_dot32 (CreateData size) i).val| ≤ 1 / 1000) ∧
    (i < 89478504 →
      |(DotProduct float8.laneType (data_ptr 0 (CreateData size : List binary32))
          (data_ptr_pred 0 0 (CreateData size)) i).val
        - (TestDotProd.exp_dot32 (CreateData size) i).val| ≤ 1 / 1000) := by
  have hexp := exp_dot32_CreateData size i h1 (by omega)
  have hval : (if i % 2 = 0 ∧ i ≠ 0 then (1 : ℚ) else 0) = if i % 2 = 0 then 1 else 0 := by
    by_cases h : i % 2 = 0
    · rw [if_pos ⟨h, by omega⟩, if_pos h]
    · rw [if_neg (fun h' => h h'.1), if_neg h]
  have ha : ∀ x, x < i →
      data_ptr 0 (CreateData size : List binary32) x = ⟨alternating x⟩ :=
    fun x hx => data_ptr_CreateData32 size x (by omega)
  have hb : ∀ x, x < i →
      data_ptr_pred 0 0 (CreateData size : List binary32) x = ⟨alternating_pred x⟩ :=
    fun x hx => data_ptr_pred_CreateData32 size x (by omega)
  refine ⟨?_, ?_, fun hi => ?_, fun hi => ?_⟩
  · intro j hj
    rw [CreateData_getD32, if_pos (by omega)]
    rfl
  · rw [naive_DotProduct_alternating32 _ _ i ha hb, hexp]
    show |(if i % 2 = 0 ∧ i ≠ 0 then (1 : ℚ) else 0) - (if i % 2 = 0 then 1 else 0)| ≤ _
    rw [hval, sub_self, abs_zero]
    norm_num
  · rw [DotProduct_float4_alternating32 _ _ i hi ha hb, hexp]
    show |(if i % 2 = 0 ∧ i ≠ 0 then (1 : ℚ) else 0) - (if i % 2 = 0 then 1 else 0)| ≤ _
    rw [hval, sub_self, abs_zero]
    norm_num
  · rw [DotProduct_float8_alternating32 _ _ i hi ha hb, hexp]
    show |(if i % 2 = 0 ∧ i ≠ 0 then (1 : ℚ) else 0) - (if i % 2 = 0 then 1 else 0)| ≤ _
    rw [hval, sub_self, abs_zero]
    norm_num

/-- Claim C3 as amended, at `size = 40`, `i = 21`, where both the double-wide
loop and the scalar tail run. -/
theorem float32_alternating_check_witness :
    40 % 2 = 0 ∧ 1 ≤ 21 ∧ 21 < 40 - 1 ∧ 21 < 44739252 ∧ 21 < 89478504 ∧
    |(naive.DotProduct (data_ptr 0 (CreateData 40 : List binary32))
        (data_ptr_pred 0 0 (CreateData 40))  21).val
      - (TestDotProd.exp_dot32 (CreateData 40) 21).val| ≤ 1 / 1000 ∧
    |(DotProduct float4.laneType (data_ptr 0 (CreateData 40 : List binary32))
        (data_ptr_pred 0 0 (CreateData 40)) 21).val
      - (TestDotProd.exp_dot32 (CreateData 40) 21).val| ≤ 1 / 1000 ∧
    |(DotProduct float8.laneType (data_ptr 0 (CreateData 40 : List binary32))
        (data_ptr_pred 0 0 (CreateData 40)) 21).val
      - (TestDotProd.exp_dot32 (CreateData 40) 21).val| ≤ 1 / 1000 :=
  ⟨by decide, by decide, by decide, by norm_num, by norm_num,
    (float32_alternating_check 40 21 (by decide) (by decide) (by decide)).2.1,
    (float32_alternating_check 40 21 (by decide) (by decide) (by decide)).2.2.1 (by norm_num),
    (float32_alternating_check 40 21 (by decide) (by decide) (by decide)).2.2.2 (by norm_num)⟩

/-- Claim C3 fails in float arithmetic. At `size = 44739254`, `i = 44739252`
(even `size`, `1 ≤ i < size - 1`) `DotProduct<float4>(data, data - 1, i)`
returns 2 while `exp_dot` is 1; at `size = 89478506`, `i = 89478504`
`DotProduct<float8>` returns 3 while `exp_dot` is 1. Both differ from `exp_dot`
by more than 0.001. -/
theorem float32_check_fails_at_44739252 :
    (44739254 % 2 = 0 ∧ 1 ≤ 44739252 ∧ 44739252 < 44739254 - 1 ∧
      DotProduct float4.laneType (data_ptr 0 (CreateData 44739254 : List binary32))
          (data_ptr_pred 0 0 (CreateData 44739254)) 44739252 = ⟨2⟩ ∧
      TestDotProd.exp_dot32 (CreateData 44739254) 44739252 = ⟨1⟩ ∧
      ¬ |(DotProduct float4.laneType (data_ptr 0 (CreateData 44739254 : List binary32))
            (data_ptr_pred 0 0 (CreateData 44739254)) 44739252).val
          - (TestDotProd.exp_dot32 (CreateData 44739254) 44739252).val| ≤ 1 / 1000) ∧
    (89478506 % 2 = 0 ∧ 1 ≤ 89478504 ∧ 89478504 < 89478506 - 1 ∧
      DotProduct float8.laneType (data_ptr 0 (CreateData 89478506 : List binary32))
          (data_ptr_pred 0 0 (CreateData 89478506)) 89478504 = ⟨3⟩ ∧
      TestDotProd.exp_dot32 (CreateData 89478506) 89478504 = ⟨1⟩ ∧
      ¬ |(DotProduct float8.laneType (data_ptr 0 (CreateData 89478506 : List binary32))
            (data_ptr_pred 0 0 (CreateData 89478506)) 89478504).val
          - (TestDotProd.exp_dot32 (CreateData 89478506) 89478504).val| ≤ 1 / 1000) := by
  have hD4 := DotProduct_float4_overrun32 (data_ptr 0 (CreateData 44739254 : List binary32))
    (data_ptr_pred 0 0 (CreateData 44739254))
    (fun x hx => data_ptr_CreateData32 44739254 x (by omega))
    (fun x hx => data_ptr_pred_CreateData32 44739254 x (by omega))
  have hE4 : TestDotProd.exp_dot32 (CreateData 44739254) 44739252 = ⟨1⟩ :=
    (exp_dot32_CreateData 44739254 44739252 (by norm_num) (by norm_num)).trans
      (congrArg binary32.mk (if_pos (by norm_num)))
  have hD8 := DotProduct_float8_overrun32 (data_ptr 0 (CreateData 89478506 : List binary32))
    (data_ptr_pred 0 0 (CreateData 89478506))
    (fun x hx => data_ptr_CreateData32 89478506 x (by omega))
    (fun x hx => data_ptr_pred_CreateData32 89478506 x (by omega))
  have hE8 : TestDotProd.exp_dot32 (CreateData 89478506) 89478504 = ⟨1⟩ :=
    (exp_dot32_CreateData 89478506 89478504 (by norm_num) (by norm_num)).trans
      (congrArg binary32.mk (if_pos (by norm_num)))
  refine ⟨⟨by norm_num, by norm_num, by norm_num, hD4, hE4, ?_⟩,
    ⟨by norm_num, by norm_num, by norm_num, hD8, hE8, ?_⟩⟩
  · rw [hD4, hE4]
    show ¬ |(2 : ℚ) - 1| ≤ 1 / 1000
    norm_num
  · rw [hD8, hE8]
    show ¬ |(3 : ℚ) - 1| ≤ 1 / 1000
    norm_num

/-! ### The half-precision check in float arithmetic -/

theorem DotProduct_half8_as_float8 [Zero F] [Add F] [Mul F] (hw : F16C F)
    (a b : Nat → Nat) (n : Nat) :
    DotProduct (half8.laneType hw) a b n
      = DotProduct float8.laneType (fun i => hw.cvtph_ps (a i))
          (fun i => hw.cvtph_ps (b i)) n :=
  DotProduct_sim (half8.laneType hw) float8.laneType id
    (fun (x : half8 F) (y : float8 F) => x.xmm = y.xmm) a b
    (fun i => hw.cvtph_ps (a i)) (fun i => hw.cvtph_ps (b i)) n
    rfl rfl
    (fun x y u v (h1 : x.xmm = y.xmm) (h2 : u.xmm = v.xmm) => by
      show (half8.add x u).xmm = (float8.add y v).xmm
      simp only [half8.add, float8.add, h1, h2])
    (fun _ _ => rfl)
    (fun _ _ => rfl)
    (fun x y (h : x.xmm = y.xmm) => by
      show half8.Sum x = float8.Sum y
      simp only [half8.Sum, float8.Sum, h])
    (fun _ _ => rfl)
    (fun _ _ => rfl)

theorem half_data_getD32 (hw : F16C binary32) (size x : Nat) (hx : x < size) :
    (half8.FloatToFp16_vector hw (CreateData size : List binary32)).getD x 0
      = hw.cvtps_ph ((CreateData size : List binary32).getD x 0) := by
  have hlen : x < (CreateData size : List binary32).length := by
    rw [CreateData_length32]
    exact hx
  rw [half8.FloatToFp16_vector_eq_map]
  simp [List.getD_eq_getElem?_getD, List.getElem?_map, List.getElem?_eq_getElem hlen,
    half8.FloatToFp16_eq]

theorem cvt_alternating32 (hw : F16C binary32) (hone : hw.cvtph_ps (hw.cvtps_ph 1) = 1)
    (hneg : hw.cvtph_ps (hw.cvtps_ph (-1)) = -1) (x : Nat) :
    hw.cvtph_ps (hw.cvtps_ph ⟨alternating x⟩) = ⟨alternating x⟩ := by
  unfold alternating
  split_ifs
  · exact hone
  · exact hneg

/-- The converted alternating data, read back by `_mm256_cvtph_ps`, is the
alternating pattern, for any conversions that are exact at 1, -1 and 0. -/
theorem half_data_cvt32 (hw : F16C binary32)
    (hone : hw.cvtph_ps (hw.cvtps_ph 1) = 1)
    (hneg : hw.cvtph_ps (hw.cvtps_ph (-1)) = -1)
    (hzero : hw.cvtph_ps (hw.cvtps_ph 0) = 0) (size : Nat) :
    (∀ x, x < 2 * (size / 2) →
      hw.cvtph_ps (data_ptr 0 (half8.FloatToFp16_vector hw (CreateData size)) x)
        = ⟨alternating x⟩) ∧
    (∀ x, x ≤ 2 * (size / 2) →
      hw.cvtph_ps (data_ptr_pred 0 (half8.FloatToFp16 hw 0)
          (half8.FloatToFp16_vector hw (CreateData size)) x)
        = ⟨alternating_pred x⟩) := by
  have hA : ∀ x, x < 2 * (size / 2) →
      hw.cvtph_ps ((half8.FloatToFp16_vector hw (CreateData size)).getD x 0)
        = ⟨alternating x⟩ := by
    intro x hx
    rw [half_data_getD32 hw size x (by omega), CreateData_getD32, if_pos hx,
      cvt_alternating32 hw hone hneg]
  refine ⟨fun x hx => hA x hx, fun x hx => ?_⟩
  unfold data_ptr_pred alternating_pred
  by_cases hx0 : x = 0
  · rw [if_pos hx0, if_pos hx0, half8.FloatToFp16_eq, hzero]
    rfl
  · rw [if_neg hx0, if_neg hx0, hA (x - 1) (by omega)]

theorem exp_dot32_half_data (hw : F16C binary32)
    (hone : hw.cvtph_ps (hw.cvtps_ph 1) = 1)
    (hneg : hw.cvtph_ps (hw.cvtps_ph (-1)) = -1)
    (hzero : hw.cvtph_ps (hw.cvtps_ph 0) = 0) (size i : Nat)
    (h1 : 1 ≤ i) (h2 : i < 2 * (size / 2)) :
    TestDotProdF16.exp_dot32 hw (half8.FloatToFp16_vector hw (CreateData size)) i
      = ⟨if i % 2 = 0 then 1 else 0⟩ := by
  obtain ⟨hA, -⟩ := half_data_cvt32 hw hone hneg hzero size
  have e : half8.MultiplyOne hw
      ((half8.FloatToFp16_vector hw (CreateData size)).getD i 0)
      ((half8.FloatToFp16_vector hw (CreateData size)).getD (i - 1) 0)
      = ⟨if i % 2 = 1 then 1 else -1⟩ := by
    have hi := hA i h2
    have hi1 := hA (i - 1) (by omega)
    unfold data_ptr at hi hi1
    rw [half8.MultiplyOne, half8.Fp16ToFloat_eq, half8.Fp16ToFloat_eq, hi, hi1,
      binary32.mk_mul_mk_alternating i h1]
  rw [TestDotProdF16.exp_dot32, e]
  rcases Nat.mod_two_eq_zero_or_one i with h | h
  · have e1 : (if i % 2 = 1 then (1 : ℚ) else -1) = -1 := if_neg (by omega)
    have e2 : (if i % 2 = 0 then (1 : ℚ) else 0) = 1 := if_pos h
    have heq : (⟨-1⟩ : binary32) = -1 := rfl
    rw [e1, e2, if_pos heq]
    rfl
  · have e1 : (if i % 2 = 1 then (1 : ℚ) else -1) = 1 := if_pos h
    have e2 : (if i % 2 = 0 then (1 : ℚ) else 0) = 0 := if_neg (by omega)
    have hne : (⟨1⟩ : binary32) ≠ -1 := by
      intro hc
      have := congrArg binary32.val hc
      change (1 : ℚ) = -1 at this
      norm_num at this
    rw [e1, e2, if_neg hne]
    rfl

/-- The check of `TestDotProdF16` in float arithmetic on the converted
alternating data, for any conversions that are exact at 1, -1 and 0 and every
`i` below 89478504. -/
theorem half32_check_of_exact (hw : F16C binary32)
    (hone : hw.cvtph_ps (hw.cvtps_ph 1) = 1)
    (hneg : hw.cvtph_ps (hw.cvtps_ph (-1)) = -1)
    (hzero : hw.cvtph_ps (hw.cvtps_ph 0) = 0)
    (size i : Nat) (h1 : 1 ≤ i) (h2 : i < size - 1) (hi : i < 89478504) :
    |(DotProduct (half8.laneType hw)
        (data_ptr 0 (half8.FloatToFp16_vector hw (CreateData size)))
        (data_ptr_pred 0 (half8.FloatToFp16 hw 0)
          (half8.FloatToFp16_vector hw (CreateData size))) i).val
      - (TestDotProdF16.exp_dot32 hw (half8.FloatToFp16_vector hw (CreateData size)) i).val|
      ≤ 1 / 1000 := by
  obtain ⟨hA, hB⟩ := half_data_cvt32 hw hone hneg hzero size
  have hval : (if i % 2 = 0 ∧ i ≠ 0 then (1 : ℚ) else 0) = if i % 2 = 0 then 1 else 0 := by
    by_cases h : i % 2 = 0
    · rw [if_pos ⟨h, by omega⟩, if_pos h]
    · rw [if_neg (fun h' => h h'.1), if_neg h]
  rw [DotProduct_half8_as_float8,
    DotProduct_float8_alternating32 _ _ i hi (fun x hx => hA x (by omega))
      (fun x hx => hB x (by omega)),
    exp_dot32_half_data hw hone hneg hzero size i h1 (by omega)]
  show |(if i % 2 = 0 ∧ i ≠ 0 then (1 : ℚ) else 0) - (if i % 2 = 0 then 1 else 0)| ≤ _
  rw [hval, sub_self, abs_zero]
  norm_num

theorem compact16.hw32_exact :
    compact16.hw32.cvtph_ps (compact16.hw32.cvtps_ph 1) = 1 ∧
    compact16.hw32.cvtph_ps (compact16.hw32.cvtps_ph (-1)) = -1 ∧
    compact16.hw32.cvtph_ps (compact16.hw32.cvtps_ph 0) = 0 := by
  simp only [compact16.hw32]
  exact ⟨congrArg binary32.mk (compact16.toFloat32_toCompact16 1 compact16.representable_one),
    congrArg binary32.mk (compact16.toFloat32_toCompact16 (-1) compact16.representable_neg_one),
    congrArg binary32.mk (compact16.toFloat32_toCompact16 0 compact16.representable_zero)⟩

/-- Claim C10 as amended: in float arithmetic, with
`half_data = half8::FloatToFp16(CreateData(size))` for even `size`, the 16-bit
element before the start of `half_data` taken to be `FloatToFp16(0)`, and
every `i` with `1 ≤ i < size - 1` below 89478504,
`DotProduct<half8>(half_data, half_data - 1, i)` is within 0.001 of `exp_dot`,
which is 1 if `half8::MultiplyOne(half_data[i], half_data[i-1]) == -1` and 0
otherwise. This holds with the F16C conversions as the specification
describes them, and with any conversions that are exact at 1, -1 and 0. -/
theorem half32_alternating_check (size i : Nat) (_hsize : size % 2 = 0)
    (h1 : 1 ≤ i) (h2 : i < size - 1) (hi : i < 89478504) :
    |(DotProduct (half8.laneType compact16.hw32)
        (data_ptr 0 (half8.FloatToFp16_vector compact16.hw32 (CreateData size)))
        (data_ptr_pred 0 (half8.FloatToFp16 compact16.hw32 0)
          (half8.FloatToFp16_vector compact16.hw32 (CreateData size))) i).val
      - (TestDotProdF16.exp_dot32 compact16.hw32
          (half8.FloatToFp16_vector compact16.hw32 (CreateData size)) i).val| ≤ 1 / 1000 ∧
    ∀ hw : F16C binary32, hw.cvtph_ps (hw.cvtps_ph 1) = 1 →
      hw.cvtph_ps (hw.cvtps_ph (-1)) = -1 → hw.cvtph_ps (hw.cvtps_ph 0) = 0 →
      |(DotProduct (half8.laneType hw)
          (data_ptr 0 (half8.FloatToFp16_vector hw (CreateData size)))
          (data_ptr_pred 0 (half8.FloatToFp16 hw 0)
            (half8.FloatToFp16_vector hw (CreateData size))) i).val
        - (TestDotProdF16.exp_dot32 hw (half8.FloatToFp16_vector hw (CreateData size)) i).val|
        ≤ 1 / 1000 :=
  ⟨half32_check_of_exact compact16.hw32 compact16.hw32_exact.1
      compact16.hw32_exact.2.1 compact16.hw32_exact.2.2 size i h1 h2 hi,
    fun hw hone hneg hzero => half32_check_of_exact hw hone hneg hzero size i h1 h2 hi⟩

/-- Claim C10 as amended, at `size = 40`, `i = 22`, where the double-wide
loop, the single-wide step and the scalar tail all run. -/
theorem half32_alternating_check_witness :
    40 % 2 = 0 ∧ 1 ≤ 22 ∧ 22 < 40 - 1 ∧ 22 < 89478504 ∧
    |(DotProduct (half8.laneType compact16.hw32)
        (data_ptr 0 (half8.FloatToFp16_vector compact16.hw32 (CreateData 40)))
        (data_ptr_pred 0 (half8.FloatToFp16 compact16.hw32 0)
          (half8.FloatToFp16_vector compact16.hw32 (CreateData 40))) 22).val
      - (TestDotProdF16.exp_dot32 compact16.hw32
          (half8.FloatToFp16_vector compact16.hw32 (CreateData 40)) 22).val| ≤ 1 / 1000 :=
  ⟨by decide, by decide, by decide, by norm_num,
    (half32_alternating_check 40 22 (by decide) (by decide) (by decide) (by norm_num)).1⟩

/-- Claim C10 fails in float arithmetic. At `size = 89478506`, `i = 89478504`
(even `size`, `1 ≤ i < size - 1`), with the F16C conversions as the
specification describes them,
`DotProduct<half8>(half_data, half_data - 1, i)` returns 3 while `exp_dot` is
1: they differ by more than 0.001. -/
theorem half32_check_fails_at_89478504 :
    89478506 % 2 = 0 ∧ 1 ≤ 89478504 ∧ 89478504 < 89478506 - 1 ∧
    DotProduct (half8.laneType compact16.hw32)
        (data_ptr 0 (half8.FloatToFp16_vector compact16.hw32 (CreateData 89478506)))
        (data_ptr_pred 0 (half8.FloatToFp16 compact16.hw32 0)
          (half8.FloatToFp16_vector compact16.hw32 (CreateData 89478506))) 89478504 = ⟨3⟩ ∧
    TestDotProdF16.exp_dot32 compact16.hw32
        (half8.FloatToFp16_vector compact16.hw32 (CreateData 89478506)) 89478504 = ⟨1⟩ ∧
    ¬ |(DotProduct (half8.laneType compact16.hw32)
          (data_ptr 0 (half8.FloatToFp16_vector compact16.hw32 (CreateData 89478506)))
          (data_ptr_pred 0 (half8.FloatToFp16 compact16.hw32 0)
            (half8.FloatToFp16_vector compact16.hw32 (CreateData 89478506))) 89478504).val
        - (TestDotProdF16.exp_dot32 compact16.hw32
            (half8.FloatToFp16_vector compact16.hw32 (CreateData 89478506)) 89478504).val|
        ≤ 1 / 1000 := by
  obtain ⟨hA, hB⟩ := half_data_cvt32 compact16.hw32 compact16.hw32_exact.1
    compact16.hw32_exact.2.1 compact16.hw32_exact.2.2 89478506
  have hD : DotProduct (half8.laneType compact16.hw32)
      (data_ptr 0 (half8.FloatToFp16_vector compact16.hw32 (CreateData 89478506)))
      (data_ptr_pred 0 (half8.FloatToFp16 compact16.hw32 0)
        (half8.FloatToFp16_vector compact16.hw32 (CreateData 89478506))) 89478504 = ⟨3⟩ :=
    (DotProduct_half8_as_float8 _ _ _ _).trans
      (DotProduct_float8_overrun32 _ _ (fun x hx => hA x (by omega))
        (fun x hx => hB x (by omega)))
  have hE : TestDotProdF16.exp_dot32 compact16.hw32
      (half8.FloatToFp16_vector compact16.hw32 (CreateData 89478506)) 89478504 = ⟨1⟩ :=
    (exp_dot32_half_data compact16.hw32 compact16.hw32_exact.1 compact16.hw32_exact.2.1
      compact16.hw32_exact.2.2 89478506 89478504 (by norm_num) (by norm_num)).trans
      (congrArg binary32.mk (if_pos (by norm_num)))
  refine ⟨by norm_num, by norm_num, by norm_num, hD, hE, ?_⟩
  rw [hD, hE]
  show ¬ |(3 : ℚ) - 1| ≤ 1 / 1000
  norm_num

end VectorOperations
